import Mathlib

/-!
# Verification of the typescript-rtti binary metadata protocol

A shallow embedding, in Lean 4, of the core of the repository: the varint
codec and FNV-1a hash (`src/tools/protocol.ts`), the string interner
(`StringTable` in `src/tools/protocol.ts`), the record encoder
(`RTTISerializer` in `src/tools/serializer.ts`, the varint-based variant at
lines 283-521), the record decoder (`decodeRTTIEntry` in
`src/unnamed/part_009`), the container builder (`src/tools/compiler.ts`,
lines 693-716), the container reader (`MetadataStore` in
`src/unnamed/part_008` / `src/lib/hydrator.ts`), and the incremental cache
step (`src/tools/compiler.ts`, lines 653-692).

Modelling conventions:
* JS `Uint8Array` / `Buffer` values are `List Nat` with entries below 256.
* JS strings are Lean `String`s; `strBytes` gives the byte view used by
  `TextEncoder` (exact for strings whose characters are below `0x80`, the
  range exercised by every theorem here).
* Bit operations are kept as in the source (`&&&`, `|||`, `<<<`, `>>>`);
  32-bit values are tracked as their unsigned residues modulo `2^32`.  The
  JS engine views intermediate results as signed int32; the two views agree
  below `2^31`, which covers every value reached in this development.
* Out-of-range `Uint8Array` reads produce `undefined` in JS, which the
  decoder's arithmetic coerces to `0`; `List.getD _ _ 0` models this.
-/

set_option maxRecDepth 3000

namespace RTTI

/-- Byte view of a JS string: one entry per character, the character's code.
For characters below `0x80` this is exactly the UTF-8 byte sequence produced
by `TextEncoder` and the UTF-16 unit read by `charCodeAt`. -/
def strBytes (s : String) : List Nat :=
  s.data.map (fun c => c.toNat)

/-- Rebuild a JS string from decoded bytes (`TextDecoder` on an ASCII run). -/
def bytesToStr (bs : List Nat) : String :=
  ⟨bs.map (fun b => Char.ofNat b)⟩

/-- `META_MAGIC` from `src/tools/protocol.ts` line 1. -/
def META_MAGIC : Nat := 0x4d455441

/-- `PROTOCOL_VERSION` from `src/tools/protocol.ts` line 2. -/
def PROTOCOL_VERSION : Nat := 1

/-- `OpCode` tags from `src/tools/protocol.ts` lines 7-20. -/
def REF_PRIMITIVE : Nat := 1
def REF_ARRAY : Nat := 2
def REF_OBJECT : Nat := 3
def REF_CLASS : Nat := 4
def REF_FUNCTION : Nat := 5
def REF_GENERIC : Nat := 6
def REF_UNION : Nat := 7
def REF_INTERSECTION : Nat := 8
def REF_ENUM : Nat := 9
def REF_LITERAL : Nat := 10
def REF_MAPPED : Nat := 11
def REF_CONDITIONAL : Nat := 12

/-- One step of `fnv1aHash` (`src/tools/protocol.ts` lines 76-83):
`hash ^= charCode; hash = Math.imul(hash, 0x01000193) >>> 0`. -/
def fnv1aStep (h c : Nat) : Nat :=
  ((h ^^^ c) * 0x01000193) % 4294967296

/-- `fnv1aHash` from `src/tools/protocol.ts` lines 76-83, folding
`fnv1aStep` over the string's character codes starting at `0x811c9dc5`. -/
def fnv1aHash (s : String) : Nat :=
  (strBytes s).foldl fnv1aStep 0x811c9dc5

/-- `encodeVarint` from `src/tools/protocol.ts` lines 85-93: low 7 bits
first, continuation bit `0x80` on every byte except the last. -/
def encodeVarint (num : Nat) : List Nat :=
  if _h : num > 127 then ((num &&& 127) ||| 128) :: encodeVarint (num >>> 7)
  else [num]
termination_by num
decreasing_by
  simp only [Nat.shiftRight_eq_div_pow]
  exact Nat.div_lt_self (by omega) (by norm_num)

/-- Result record of `decodeVarint` (`{ value, next }`). -/
structure VarintResult where
  value : Nat
  next : Nat
deriving DecidableEq, Repr

/-- Loop of `decodeVarint` (`src/tools/protocol.ts` lines 95-109).  A read
past the end of the buffer yields `undefined`, which `& 0x7f` coerces to
`0`; the zero byte then terminates the loop, exactly as in the source.  The
accumulator is the unsigned residue of the JS int32 `value`. -/
def decodeVarintAux (buf : List Nat) (value shift next : Nat) : VarintResult :=
  let b := buf.getD next 0
  let value' := value ||| (((b &&& 127) <<< (shift % 32)) % 4294967296)
  if b &&& 128 = 0 then ⟨value', next + 1⟩
  else decodeVarintAux buf value' (shift + 7) (next + 1)
termination_by buf.length - next
decreasing_by
  rename_i hb
  have hlt : next < buf.length := by
    by_contra hge
    have hz : buf.getD next 0 = 0 := by
      have hlen : buf.length ≤ next := Nat.le_of_not_lt hge
      simp [List.getD_eq_getElem?_getD, List.getElem?_eq_none hlen]
    have hb' : ¬ buf.getD next 0 &&& 128 = 0 := hb
    rw [hz] at hb'
    simp at hb'
  omega

/-- Structural twin of `decodeVarintAux`, recursing on an explicit bound
on the remaining loop iterations (the loop advances one byte per step and
stops at the first read past the buffer's end, so `buf.length + 1 - next`
iterations always suffice).  `decodeVarintFuel_eq` proves it equal to the
loop under that bound; it exists so that concrete decodes reduce inside
the kernel. -/
def decodeVarintFuel (buf : List Nat) :
    Nat → Nat → Nat → Nat → VarintResult
  | 0, value, shift, next =>
    ⟨value ||| (((buf.getD next 0 &&& 127) <<< (shift % 32)) % 4294967296),
      next + 1⟩
  | fuel + 1, value, shift, next =>
    let b := buf.getD next 0
    let value' := value ||| (((b &&& 127) <<< (shift % 32)) % 4294967296)
    if b &&& 128 = 0 then ⟨value', next + 1⟩
    else decodeVarintFuel buf fuel value' (shift + 7) (next + 1)

theorem decodeVarintFuel_eq (buf : List Nat) : ∀ (fuel value shift next : Nat),
    buf.length + 1 ≤ fuel + next →
    decodeVarintFuel buf fuel value shift next
      = decodeVarintAux buf value shift next := by
  intro fuel
  induction fuel with
  | zero =>
    intro value shift next h
    have hz : buf.getD next 0 = 0 := by
      have hlen : buf.length ≤ next := by omega
      simp [List.getD_eq_getElem?_getD, List.getElem?_eq_none hlen]
    rw [decodeVarintAux, decodeVarintFuel]
    simp only [List.getD_eq_getElem?_getD] at hz
    simp [hz]
  | succ fuel ih =>
    intro value shift next h
    rw [decodeVarintAux, decodeVarintFuel]
    by_cases hb : buf.getD next 0 &&& 128 = 0
    all_goals simp only [List.getD_eq_getElem?_getD] at hb
    · simp [hb]
    · simp only [List.getD_eq_getElem?_getD, if_neg hb]
      exact ih _ _ _ (by omega)

attribute [irreducible] decodeVarintFuel

/-- `decodeVarint` from `src/tools/protocol.ts` lines 95-109. -/
def decodeVarint (buf : List Nat) (offset : Nat) : VarintResult :=
  decodeVarintFuel buf (buf.length + 1 - offset) 0 0 offset

/-- `decodeVarint` runs the loop as written: the iteration bound is always
sufficient. -/
theorem decodeVarint_eq_aux (buf : List Nat) (offset : Nat) :
    decodeVarint buf offset = decodeVarintAux buf 0 0 offset :=
  decodeVarintFuel_eq buf _ 0 0 offset (by omega)

attribute [irreducible] decodeVarint

/-- The string interner (`StringTable` in `src/tools/protocol.ts` lines
51-74), represented by its insertion-ordered `reverse` array; the `strings`
map of the source is recovered as the index of the first occurrence. -/
abbrev StringTable := List String

/-- `StringTable.add`: return the existing index if present, else append. -/
def StringTable.add (st : StringTable) (s : String) : Nat × StringTable :=
  if s ∈ st then (st.indexOf s, st) else (st.length, st ++ [s])

/-- `StringTable.getOffset`. -/
def StringTable.getOffset (st : StringTable) (s : String) : Option Nat :=
  if s ∈ st then some (st.indexOf s) else none

/-- `StringTable.getByOffset`. -/
def StringTable.getByOffset (st : StringTable) (i : Nat) : Option String :=
  st.get? i

/-- Resolution of a string index as the decoder's `getString` callback sees
it (an out-of-range index yields `undefined`, modelled as `""`). -/
def StringTable.resolve (st : StringTable) (i : Nat) : String :=
  (st.get? i).getD ""

section BitLemmas

/-- `x & 0x7f` is the low-bits residue `x % 128`. -/
theorem and_127_eq_mod (x : Nat) : x &&& 127 = x % 128 := by
  have h := Nat.and_pow_two_sub_one_eq_mod x 7
  norm_num at h
  exact h

/-- A value below `0x80` has no bit overlapping `0x80`. -/
theorem and_128_eq_zero {x : Nat} (h : x < 128) : x &&& 128 = 0 := by
  apply Nat.eq_of_testBit_eq
  intro i
  rw [Nat.testBit_and]
  rcases Decidable.em (i = 7) with hi | hi
  · subst hi
    have hx : x.testBit 7 = false := Nat.testBit_lt_two_pow (by norm_num; omega)
    simp [hx]
  · have h128 : (128 : Nat).testBit i = false := by
      have : (128 : Nat) = 2 ^ 7 := by norm_num
      rw [this]
      exact Nat.testBit_two_pow_of_ne (fun he => hi he.symm)
    simp [h128]

/-- Setting bit 7 on a value with bit 7 clear keeps bit 7 set. -/
theorem or_128_and_128 (x : Nat) : (x ||| 128) &&& 128 = 128 := by
  apply Nat.eq_of_testBit_eq
  intro i
  rw [Nat.testBit_and, Nat.testBit_lor]
  rcases Decidable.em (i = 7) with hi | hi
  · subst hi
    have h128 : (128 : Nat).testBit 7 = true := by
      have : (128 : Nat) = 2 ^ 7 := by norm_num
      rw [this]
      exact Nat.testBit_two_pow_self
    simp [h128]
  · have h128 : (128 : Nat).testBit i = false := by
      have : (128 : Nat) = 2 ^ 7 := by norm_num
      rw [this]
      exact Nat.testBit_two_pow_of_ne (fun he => hi he.symm)
    simp [h128]

/-- Disjoint `or` is addition: a value below `2^s` or-ed with a multiple
of `2^s`. -/
theorem lor_mul_pow_eq_add (a m s : Nat) (h : a < 2 ^ s) :
    a ||| (m * 2 ^ s) = a + m * 2 ^ s := by
  rw [Nat.lor_comm, Nat.mul_comm m (2 ^ s), ← Nat.mul_add_lt_is_or h]
  omega

/-- Setting bit 7 on a value below `0x80` is adding `0x80`. -/
theorem or_128_eq_add {x : Nat} (h : x < 128) : x ||| 128 = x + 128 := by
  have h1 : (128 : Nat) = 1 * 2 ^ 7 := by norm_num
  rw [h1, lor_mul_pow_eq_add x 1 7 (by omega)]

end BitLemmas

section ListLemmas

/-- Read past a known prefix. -/
theorem getD_append_add {α : Type} (pre l : List α) (k : Nat) (d : α) :
    (pre ++ l).getD (pre.length + k) d = l.getD k d := by
  simp [List.getD_eq_getElem?_getD,
    List.getElem?_append_right (Nat.le_add_right pre.length k)]

end ListLemmas

section VarintLemmas

theorem encodeVarint_ne_nil (n : Nat) : encodeVarint n ≠ [] := by
  rw [encodeVarint]
  split <;> simp

theorem encodeVarint_small {n : Nat} (h : ¬ n > 127) :
    encodeVarint n = [n] := by
  rw [encodeVarint, dif_neg h]

theorem encodeVarint_big {n : Nat} (h : n > 127) :
    encodeVarint n = ((n &&& 127) ||| 128) :: encodeVarint (n >>> 7) := by
  rw [encodeVarint, dif_pos h]

/-- Framing lemma for the varint decoder: decoding at the start of an
encoded value embedded in a larger buffer recovers the value and advances
exactly past it.  `shift` (a multiple of 7) tracks the bit position; the
hypotheses are the invariants maintained by the decoder on well-formed
input below `2^31`. -/
theorem decodeVarintAux_encode : ∀ (n value shift : Nat)
    (pre post : List Nat), shift % 7 = 0 → shift ≤ 28 →
    n < 2 ^ (31 - shift) → value < 2 ^ shift →
    decodeVarintAux (pre ++ (encodeVarint n ++ post)) value shift pre.length
      = ⟨value + n * 2 ^ shift, pre.length + (encodeVarint n).length⟩ := by
  intro n
  induction n using Nat.strong_induction_on with
  | _ n ih =>
    intro value shift pre post hdvd hshift hn hvalue
    rcases Decidable.em (n > 127) with hbig | hsmall
    · -- continuation byte `(n &&& 127) ||| 128`, then the tail bytes
      rw [encodeVarint_big hbig]
      rw [decodeVarintAux]
      have hbyte : (pre ++ ((((n &&& 127) ||| 128) :: encodeVarint (n >>> 7))
          ++ post)).getD pre.length 0 = (n &&& 127) ||| 128 := by
        have h0 : pre.length = pre.length + 0 := rfl
        rw [h0, getD_append_add]
        rfl
      simp only [hbyte]
      have hcont : ((n &&& 127) ||| 128) &&& 128 = 128 := or_128_and_128 _
      rw [hcont]
      simp only [if_neg (by omega : ¬ (128 : Nat) = 0)]
      -- the accumulated chunk
      have hmask : ((n &&& 127) ||| 128) &&& 127 = n % 128 := by
        rw [and_127_eq_mod,
          or_128_eq_add (x := n &&& 127) (by rw [and_127_eq_mod]; omega),
          and_127_eq_mod]
        omega
      have hsh32 : shift % 32 = shift := Nat.mod_eq_of_lt (by omega)
      -- bounds: `n ≥ 128` forces `shift ≤ 21`
      have hshift21 : shift ≤ 21 := by
        rcases Nat.lt_or_ge shift 24 with h24 | h24
        · omega
        · exfalso
          have hle : (2 : Nat) ^ (31 - shift) ≤ 2 ^ 7 :=
            Nat.pow_le_pow_right (by norm_num) (by omega)
          have hlt : n < 2 ^ 7 := Nat.lt_of_lt_of_le hn hle
          norm_num at hlt
          omega
      have hchunk : ((n % 128) <<< (shift % 32)) % 4294967296
          = (n % 128) * 2 ^ shift := by
        rw [hsh32, Nat.shiftLeft_eq]
        apply Nat.mod_eq_of_lt
        have hb : n % 128 < 128 := by omega
        have hp : (2 : Nat) ^ shift ≤ 2 ^ 21 :=
          Nat.pow_le_pow_right (by norm_num) hshift21
        calc n % 128 * 2 ^ shift
            < 128 * 2 ^ shift :=
              (Nat.mul_lt_mul_right (Nat.pos_pow_of_pos shift (by norm_num))).mpr hb
          _ ≤ 128 * 2 ^ 21 := Nat.mul_le_mul_left 128 hp
          _ < 4294967296 := by norm_num
      rw [hmask, hchunk, lor_mul_pow_eq_add value (n % 128) shift hvalue]
      -- re-associate the buffer around the consumed byte
      have hassoc : pre ++ ((((n &&& 127) ||| 128) :: encodeVarint (n >>> 7))
            ++ post)
          = (pre ++ [(n &&& 127) ||| 128]) ++ (encodeVarint (n >>> 7) ++ post) := by
        simp
      have hlen1 : pre.length + 1 = (pre ++ [(n &&& 127) ||| 128]).length := by
        simp
      rw [hassoc, hlen1]
      -- apply the induction hypothesis to the remaining bytes
      have hdec : n >>> 7 < n := by
        rw [Nat.shiftRight_eq_div_pow]
        exact Nat.div_lt_self (by omega) (by norm_num)
      have hdiv : n >>> 7 = n / 128 := by
        rw [Nat.shiftRight_eq_div_pow]
      have hrec := ih (n >>> 7) hdec (value + n % 128 * 2 ^ shift) (shift + 7)
        (pre ++ [(n &&& 127) ||| 128]) post
        (by omega) (by omega)
        (by
          rw [hdiv]
          have h7 : 31 - shift = (31 - (shift + 7)) + 7 := by omega
          rw [h7, Nat.pow_add] at hn
          norm_num at hn
          omega)
        (by
          have : (2 : Nat) ^ (shift + 7) = 2 ^ shift * 128 := by
            rw [Nat.pow_add]
          rw [this]
          have hb : n % 128 < 128 := by omega
          nlinarith [Nat.pos_pow_of_pos shift (show 0 < 2 by norm_num)])
      rw [hrec]
      -- arithmetic: reassemble the value and the length
      have hval : value + n % 128 * 2 ^ shift + n >>> 7 * 2 ^ (shift + 7)
          = value + n * 2 ^ shift := by
        rw [hdiv]
        have hpow : (2 : Nat) ^ (shift + 7) = 2 ^ shift * 128 := by
          rw [Nat.pow_add]
        rw [hpow]
        have hsplit : n % 128 + 128 * (n / 128) = n := Nat.mod_add_div n 128
        nlinarith [hsplit]
      have hlen : (pre ++ [(n &&& 127) ||| 128]).length
            + (encodeVarint (n >>> 7)).length
          = pre.length + (((n &&& 127) ||| 128) :: encodeVarint (n >>> 7)).length := by
        simp
        omega
      rw [hval, hlen]
    · -- final byte: the value itself, below `0x80`
      rw [encodeVarint_small hsmall]
      rw [decodeVarintAux]
      have hbyte : (pre ++ ([n] ++ post)).getD pre.length 0 = n := by
        have h0 : pre.length = pre.length + 0 := rfl
        rw [h0, getD_append_add]
        rfl
      simp only [hbyte]
      have hstop : n &&& 128 = 0 := and_128_eq_zero (by omega)
      rw [hstop]
      simp only [if_pos rfl]
      have hsh32 : shift % 32 = shift := Nat.mod_eq_of_lt (by omega)
      have hmask : n &&& 127 = n := by rw [and_127_eq_mod]; omega
      have hchunk : (n <<< (shift % 32)) % 4294967296 = n * 2 ^ shift := by
        rw [hsh32, Nat.shiftLeft_eq]
        apply Nat.mod_eq_of_lt
        calc n * 2 ^ shift
            < 2 ^ (31 - shift) * 2 ^ shift :=
              (Nat.mul_lt_mul_right (Nat.pos_pow_of_pos shift (by norm_num))).mpr hn
          _ = 2 ^ (31 - shift + shift) := by rw [Nat.pow_add]
          _ ≤ 2 ^ 31 := Nat.pow_le_pow_right (by norm_num) (by omega)
          _ < 4294967296 := by norm_num
      rw [hmask, hchunk, lor_mul_pow_eq_add value n shift hvalue]
      simp

/-- Entry-point form of the framing lemma: a varint embedded after a prefix
decodes to its value, leaving the offset just past its bytes. -/
theorem decodeVarint_encode (n : Nat) (hn : n < 2147483648)
    (pre post : List Nat) :
    decodeVarint (pre ++ (encodeVarint n ++ post)) pre.length
      = ⟨n, pre.length + (encodeVarint n).length⟩ := by
  rw [decodeVarint_eq_aux]
  have h := decodeVarintAux_encode n 0 0 pre post rfl (by omega)
    (by norm_num; omega) (by norm_num)
  simpa using h

end VarintLemmas

/-! ## Data model

The declaration records of `src/tools/types.ts` (the `RTTIMetadata` union,
lines 319-437), restricted to the shapes the serializer reads.  `data` is a
closed sum with one variant per kind family; `kind` is kept as the numeric
`OpCode` so that `REF_CLASS`/`REF_OBJECT` (resp. `REF_UNION`/
`REF_INTERSECTION`) can share a payload exactly as in the source. -/

/-- `RTTIDecorator` (`src/tools/types.ts` lines 273-276). -/
structure RTTIDecorator where
  name : String
  args : List String
deriving DecidableEq, Repr

/-- `RTTIParameter` (`src/tools/types.ts` lines 283-287). -/
structure RTTIParameter where
  name : String
  type : Nat
  decorators : List RTTIDecorator
deriving DecidableEq, Repr

/-- `RTTIPropInfo` (`src/tools/types.ts` lines 307-316), the fields the
serializer reads: name, type, flags, decorators, optional parameter list. -/
structure RTTIPropInfo where
  name : String
  type : Nat
  flags : Nat
  decorators : List RTTIDecorator
  parameters : Option (List RTTIParameter)
deriving DecidableEq, Repr

/-- An enum member value: `string | number` (`src/tools/types.ts` line 366).
JS numbers are modelled as integers, the range the enum codec stores. -/
inductive EnumValue where
  | num (v : Int)
  | str (s : String)
deriving DecidableEq, Repr

/-- One `{ name, value }` enum member. -/
structure RTTIEnumMember where
  name : String
  value : EnumValue
deriving DecidableEq, Repr

/-- Kind-specific payloads (`data` of the `RTTIMetadata` union). -/
inductive RTTIData where
  | prim (t : Nat)
  | classLike (props : List RTTIPropInfo) (generics : List String)
      (decorators : List RTTIDecorator) (bases : List String)
  | func (params : List RTTIParameter) (returnType : Nat)
      (generics : List String) (decorators : List RTTIDecorator)
  | enum (members : List RTTIEnumMember)
  | members (ms : List String)
  | mapped (keyName keyConstraint valueType : String)
  | cond (checkType extendsType trueType falseType : String)
deriving DecidableEq, Repr

/-- `RTTIMetadata`: fully-qualified name, kind tag, payload. -/
structure RTTIMetadata where
  fqName : String
  kind : Nat
  data : RTTIData
deriving DecidableEq, Repr

/-- The kind tag agrees with the payload variant, as the typed union in
`src/tools/types.ts` enforces. -/
def kindOK (meta : RTTIMetadata) : Bool :=
  match meta.data with
  | .prim _ => meta.kind = REF_PRIMITIVE
  | .classLike _ _ _ _ => meta.kind = REF_CLASS ∨ meta.kind = REF_OBJECT
  | .func _ _ _ _ => meta.kind = REF_FUNCTION
  | .enum _ => meta.kind = REF_ENUM
  | .members _ => meta.kind = REF_UNION ∨ meta.kind = REF_INTERSECTION
  | .mapped _ _ _ => meta.kind = REF_MAPPED
  | .cond _ _ _ _ => meta.kind = REF_CONDITIONAL

/-! ## Encoder

`RTTISerializer.serializeMetadata` (`src/tools/serializer.ts` lines
306-496, the varint-based variant).  The serializer interns strings as it
emits bytes, so every helper threads the `StringTable`. -/

/-- State-threading fold: encode each element, accumulating bytes and the
interner state, in the source's left-to-right order. -/
def encFold {α : Type} (f : StringTable → α → List Nat × StringTable) :
    StringTable → List α → List Nat × StringTable
  | st, [] => ([], st)
  | st, a :: rest =>
    let (bs, st1) := f st a
    let (rest', st2) := encFold f st1 rest
    (bs ++ rest', st2)

/-- Intern one string, emit its index as a varint. -/
def encStringIdx (st : StringTable) (s : String) : List Nat × StringTable :=
  let (i, st1) := st.add s
  (encodeVarint i, st1)

/-- Emit a run of interned string indices (used for decorator arguments,
generics and base names; the caller emits the count). -/
def encStringIdxList : StringTable → List String → List Nat × StringTable :=
  encFold encStringIdx

/-- One decorator: name index, argument count, argument indices. -/
def encDecorator (st : StringTable) (d : RTTIDecorator) :
    List Nat × StringTable :=
  let (i, st1) := st.add d.name
  let (ab, st2) := encStringIdxList st1 d.args
  (encodeVarint i ++ (encodeVarint d.args.length ++ ab), st2)

/-- One parameter: name index, type, decorator count, decorators. -/
def encParameter (st : StringTable) (p : RTTIParameter) :
    List Nat × StringTable :=
  let (i, st1) := st.add p.name
  let (db, st2) := encFold encDecorator st1 p.decorators
  (encodeVarint i ++ (encodeVarint p.type
    ++ (encodeVarint p.decorators.length ++ db)), st2)

/-- One class/interface member: name index, type, flags, decorators, then
either the parameter list (count-prefixed) or an explicit zero count when
`parameters` is absent (`src/tools/serializer.ts` lines 343-364). -/
def encProp (st : StringTable) (p : RTTIPropInfo) : List Nat × StringTable :=
  let (i, st1) := st.add p.name
  let (db, st2) := encFold encDecorator st1 p.decorators
  let (pb, st3) :=
    match p.parameters with
    | some ps =>
      let (b, st') := encFold encParameter st2 ps
      (encodeVarint ps.length ++ b, st')
    | none => (encodeVarint 0, st2)
  (encodeVarint i ++ (encodeVarint p.type ++ (encodeVarint p.flags
    ++ (encodeVarint p.decorators.length ++ (db ++ pb)))), st3)

/-- `DataView.setInt32(0, v, true)`: the little-endian bytes of the 32-bit
two's-complement residue of `v`. -/
def int32LEBytes (v : Int) : List Nat :=
  let u := (v % 4294967296).toNat
  [u % 256, u / 256 % 256, u / 65536 % 256, u / 16777216 % 256]

/-- One enum member: name index, then either the `0xff` sentinel plus a
fixed 4-byte little-endian integer, or a varint byte length plus the UTF-8
run (`src/tools/serializer.ts` lines 447-461). -/
def encEnumMember (st : StringTable) (m : RTTIEnumMember) :
    List Nat × StringTable :=
  let (i, st1) := st.add m.name
  let vb :=
    match m.value with
    | .num v => 255 :: int32LEBytes v
    | .str s => encodeVarint (strBytes s).length ++ strBytes s
  (encodeVarint i ++ vb, st1)

/-- `RTTISerializer.serializeMetadata` (`src/tools/serializer.ts` lines
306-496): kind byte, fully-qualified-name index (`getOffset ?? 0`), then
the kind-specific payload.  The `REF_MAPPED` branch (lines 478-484) interns
and emits only `keyName` and `valueType`; `keyConstraint` is never
written. -/
def serializeMetadata (st : StringTable) (meta : RTTIMetadata) :
    List Nat × StringTable :=
  let header := meta.kind :: encodeVarint ((st.getOffset meta.fqName).getD 0)
  match meta.data with
  | .prim t => (header ++ encodeVarint t, st)
  | .classLike props gens decos bases =>
    let (pb, st1) := encFold encProp st props
    let (gb, st2) := encStringIdxList st1 gens
    let (db, st3) := encFold encDecorator st2 decos
    let (bb, st4) := encStringIdxList st3 bases
    (header ++ (encodeVarint props.length ++ pb)
      ++ (encodeVarint gens.length ++ gb)
      ++ (encodeVarint decos.length ++ db)
      ++ (encodeVarint bases.length ++ bb), st4)
  | .func params ret gens decos =>
    let (pb, st1) := encFold encParameter st params
    let (gb, st2) := encStringIdxList st1 gens
    let (db, st3) := encFold encDecorator st2 decos
    (header ++ (encodeVarint params.length ++ pb) ++ encodeVarint ret
      ++ (encodeVarint gens.length ++ gb)
      ++ (encodeVarint decos.length ++ db), st3)
  | .enum ms =>
    let (mb, st1) := encFold encEnumMember st ms
    (header ++ (encodeVarint ms.length ++ mb), st1)
  | .members ms =>
    let (mb, st1) := encStringIdxList st ms
    (header ++ (encodeVarint ms.length ++ mb), st1)
  | .mapped keyName _keyConstraint valueType =>
    let (ki, st1) := st.add keyName
    let (vi, st2) := st1.add valueType
    (header ++ encodeVarint ki ++ encodeVarint vi, st2)
  | .cond c e t f =>
    let (ci, st1) := st.add c
    let (ei, st2) := st1.add e
    let (ti, st3) := st2.add t
    let (fi, st4) := st3.add f
    (header ++ encodeVarint ci ++ encodeVarint ei ++ encodeVarint ti
      ++ encodeVarint fi, st4)

/-- An index entry (`IndexEntry` in `src/tools/protocol.ts` lines 44-49). -/
structure IndexEntry where
  hash : Nat
  stringOffset : Nat
  dataOffset : Nat
  dataLength : Nat
deriving DecidableEq, Repr

/-- `RTTISerializer` instance state (`src/tools/serializer.ts` lines
283-287). -/
structure SerializerState where
  stringTable : StringTable
  index : List IndexEntry
  heapBuffers : List (List Nat)
  currentHeapOffset : Nat
deriving DecidableEq, Repr

/-- A fresh `new RTTISerializer()`. -/
def SerializerState.init : SerializerState := ⟨[], [], [], 0⟩

/-- `RTTISerializer.addType` (`src/tools/serializer.ts` lines 289-304):
intern the name, hash it, serialize the record, append an index entry and
the heap buffer.  Every call appends; no lookup for an existing record of
the same name or shape is made. -/
def addType (s : SerializerState) (meta : RTTIMetadata) : SerializerState :=
  let (stringOffset, st1) := s.stringTable.add meta.fqName
  let hash := fnv1aHash meta.fqName
  let (heapBuffer, st2) := serializeMetadata st1 meta
  { stringTable := st2
    index := s.index ++ [⟨hash, stringOffset, s.currentHeapOffset,
      heapBuffer.length⟩]
    heapBuffers := s.heapBuffers ++ [heapBuffer]
    currentHeapOffset := s.currentHeapOffset + heapBuffer.length }

/-- Little-endian 32-bit write (`Buffer.writeUInt32LE`). -/
def writeUInt32LE (v : Nat) : List Nat :=
  [v % 256, v / 256 % 256, v / 65536 % 256, v / 16777216 % 256]

/-- Little-endian 16-bit write (`Buffer.writeUInt16LE`). -/
def writeUInt16LE (v : Nat) : List Nat :=
  [v % 256, v / 256 % 256]

/-- The three sections returned by `buildBinarySections`. -/
structure BinarySections where
  stringTableBuffer : List Nat
  indexBuffer : List Nat
  heapBuffer : List Nat
deriving DecidableEq, Repr

/-- `RTTISerializer.buildBinarySections` (`src/tools/serializer.ts` lines
498-521): NUL-terminated strings in insertion order, 24-byte index entries
(hash at 0, string offset at 8, data offset at 12, data length at 16,
reserved bytes zero), and the concatenated heap. -/
def buildBinarySections (s : SerializerState) : BinarySections where
  stringTableBuffer := s.stringTable.flatMap (fun str => strBytes str ++ [0])
  indexBuffer := s.index.flatMap (fun e =>
    writeUInt32LE e.hash ++ [0, 0, 0, 0] ++ writeUInt32LE e.stringOffset
      ++ writeUInt32LE e.dataOffset ++ writeUInt32LE e.dataLength
      ++ [0, 0, 0, 0])
  heapBuffer := s.heapBuffers.flatten

/-! ## Decoder

`decodeRTTIEntry` (`src/unnamed/part_009` lines 15-307).  Each helper
mirrors one loop of the source, threading the byte offset. -/

/-- What the decoder returns: one JS object shape per kind family, plus the
bare `{ kind }` object of the `default` branch.  The decoded object carries
no fully-qualified name (the decoder skips the name index), and a mapped
record carries only `keyType` and `valueType`. -/
inductive DecodedEntry where
  | prim (type : Nat)
  | classLike (kind : Nat) (props : List RTTIPropInfo)
      (generics : List String) (decorators : List RTTIDecorator)
      (bases : List String)
  | func (params : List RTTIParameter) (returnType : Nat)
      (generics : List String) (decorators : List RTTIDecorator)
  | enum (members : List RTTIEnumMember)
  | unionLike (kind : Nat) (members : List String)
  | mapped (keyType valueType : String)
  | cond (checkType extendsType trueType falseType : String)
  | unknown (kind : Nat)
deriving DecidableEq, Repr

/-- Generic decode loop: read `count` items with a one-item decoder, each
starting where the previous one stopped.  Every `for` loop of
`decodeRTTIEntry` has this shape. -/
def decListN {α : Type} (D1 : List Nat → (Nat → String) → Nat → α × Nat)
    (buf : List Nat) (getS : Nat → String) : Nat → Nat → List α × Nat
  | 0, offset => ([], offset)
  | n + 1, offset =>
    let (a, off1) := D1 buf getS offset
    let (rest, off') := decListN D1 buf getS n off1
    (a :: rest, off')

/-- One resolved string index. -/
def decStringIdx1 (buf : List Nat) (getS : Nat → String) (offset : Nat) :
    String × Nat :=
  let r := decodeVarint buf offset
  (getS r.value, r.next)

/-- Read `count` string indices, resolving each. -/
def decStringIdxList (buf : List Nat) (getS : Nat → String) :
    Nat → Nat → List String × Nat :=
  decListN decStringIdx1 buf getS

/-- One decorator: name index, argument count, argument indices. -/
def decDecorator (buf : List Nat) (getS : Nat → String) (offset : Nat) :
    RTTIDecorator × Nat :=
  let nameR := decodeVarint buf offset
  let argCtR := decodeVarint buf nameR.next
  let (args, off') := decStringIdxList buf getS argCtR.value argCtR.next
  (⟨getS nameR.value, args⟩, off')

/-- Read `count` decorators. -/
def decDecorators (buf : List Nat) (getS : Nat → String) :
    Nat → Nat → List RTTIDecorator × Nat :=
  decListN decDecorator buf getS

/-- One parameter: name index, type, decorator count, decorators. -/
def decParameter (buf : List Nat) (getS : Nat → String) (offset : Nat) :
    RTTIParameter × Nat :=
  let nameR := decodeVarint buf offset
  let typeR := decodeVarint buf nameR.next
  let ctR := decodeVarint buf typeR.next
  let (ds, off') := decDecorators buf getS ctR.value ctR.next
  (⟨getS nameR.value, typeR.value, ds⟩, off')

/-- Read `count` parameters. -/
def decParameters (buf : List Nat) (getS : Nat → String) :
    Nat → Nat → List RTTIParameter × Nat :=
  decListN decParameter buf getS

/-- One class member (`src/unnamed/part_009` lines 37-104): name, type,
flags, decorators, then a parameter count; a zero count leaves
`parameters` as `undefined`. -/
def decProp (buf : List Nat) (getS : Nat → String) (offset : Nat) :
    RTTIPropInfo × Nat :=
  let nameR := decodeVarint buf offset
  let typeR := decodeVarint buf nameR.next
  let flagsR := decodeVarint buf typeR.next
  let decoCtR := decodeVarint buf flagsR.next
  let (ds, off1) := decDecorators buf getS decoCtR.value decoCtR.next
  let paramCtR := decodeVarint buf off1
  if paramCtR.value > 0 then
    let (ps, off') := decParameters buf getS paramCtR.value paramCtR.next
    (⟨getS nameR.value, typeR.value, flagsR.value, ds, some ps⟩, off')
  else
    (⟨getS nameR.value, typeR.value, flagsR.value, ds, none⟩, paramCtR.next)

/-- Read `count` class members. -/
def decProps (buf : List Nat) (getS : Nat → String) :
    Nat → Nat → List RTTIPropInfo × Nat :=
  decListN decProp buf getS

/-- `b1 | b2 << 8 | b3 << 16 | b4 << 24` as the JS engine computes it: a
signed 32-bit integer. -/
def readInt32LEsigned (buf : List Nat) (offset : Nat) : Int :=
  let u := buf.getD offset 0 + buf.getD (offset + 1) 0 * 256
    + buf.getD (offset + 2) 0 * 65536 + buf.getD (offset + 3) 0 * 16777216
  if u < 2147483648 then (u : Int) else (u : Int) - 4294967296

/-- One enum member (`src/unnamed/part_009` lines 236-255): name index,
then a `0xff`-sentinel check deciding numeric (5 bytes) versus string
(varint length plus that many bytes, clamped like `Uint8Array.slice`). -/
def decEnumMember (buf : List Nat) (getS : Nat → String) (offset : Nat) :
    RTTIEnumMember × Nat :=
  let nameR := decodeVarint buf offset
  if buf.getD nameR.next 0 = 255 then
    (⟨getS nameR.value, .num (readInt32LEsigned buf (nameR.next + 1))⟩,
      nameR.next + 5)
  else
    let lenR := decodeVarint buf nameR.next
    let bytes := (buf.drop lenR.next).take lenR.value
    (⟨getS nameR.value, .str (bytesToStr bytes)⟩, lenR.next + lenR.value)

/-- Read `count` enum members. -/
def decEnumMembers (buf : List Nat) (getS : Nat → String) :
    Nat → Nat → List RTTIEnumMember × Nat :=
  decListN decEnumMember buf getS

/-- `decodeRTTIEntry` (`src/unnamed/part_009` lines 15-307): kind byte,
skipped name varint, then the kind-specific payload; unknown kinds fall to
the `default` branch returning just the kind. -/
def decodeRTTIEntry (buf : List Nat) (getS : Nat → String) : DecodedEntry :=
  let kind := buf.getD 0 0
  let offset := (decodeVarint buf 1).next
  if kind = REF_PRIMITIVE then
    .prim (decodeVarint buf offset).value
  else if kind = REF_CLASS ∨ kind = REF_OBJECT then
    let ctR := decodeVarint buf offset
    let (props, off1) := decProps buf getS ctR.value ctR.next
    let genCtR := decodeVarint buf off1
    let (gens, off2) := decStringIdxList buf getS genCtR.value genCtR.next
    let decoCtR := decodeVarint buf off2
    let (decos, off3) := decDecorators buf getS decoCtR.value decoCtR.next
    let baseCtR := decodeVarint buf off3
    let (bases, _) := decStringIdxList buf getS baseCtR.value baseCtR.next
    .classLike kind props gens decos bases
  else if kind = REF_FUNCTION then
    let ctR := decodeVarint buf offset
    let (params, off1) := decParameters buf getS ctR.value ctR.next
    let retR := decodeVarint buf off1
    let genCtR := decodeVarint buf retR.next
    let (gens, off2) := decStringIdxList buf getS genCtR.value genCtR.next
    let decoCtR := decodeVarint buf off2
    let (decos, _) := decDecorators buf getS decoCtR.value decoCtR.next
    .func params retR.value gens decos
  else if kind = REF_ENUM then
    let ctR := decodeVarint buf offset
    let (ms, _) := decEnumMembers buf getS ctR.value ctR.next
    .enum ms
  else if kind = REF_UNION ∨ kind = REF_INTERSECTION then
    let ctR := decodeVarint buf offset
    let (ms, _) := decStringIdxList buf getS ctR.value ctR.next
    .unionLike kind ms
  else if kind = REF_MAPPED then
    let keyR := decodeVarint buf offset
    let valR := decodeVarint buf keyR.next
    .mapped (getS keyR.value) (getS valR.value)
  else if kind = REF_CONDITIONAL then
    let checkR := decodeVarint buf offset
    let extendsR := decodeVarint buf checkR.next
    let trueR := decodeVarint buf extendsR.next
    let falseR := decodeVarint buf trueR.next
    .cond (getS checkR.value) (getS extendsR.value) (getS trueR.value)
      (getS falseR.value)
  else
    .unknown kind

/-! ## Interner extension infrastructure

The serializer only ever appends to the string table; indices written early
therefore resolve unchanged against any later table state.  `Ext st st'`
says `st'` is `st` with zero or more strings appended. -/

def Ext (st st' : StringTable) : Prop := ∃ t, st ++ t = st'

theorem Ext.rfl {st : StringTable} : Ext st st := ⟨[], by simp⟩

theorem Ext.trans {s1 s2 s3 : StringTable} (h1 : Ext s1 s2) (h2 : Ext s2 s3) :
    Ext s1 s3 := by
  obtain ⟨t1, ht1⟩ := h1
  obtain ⟨t2, ht2⟩ := h2
  exact ⟨t1 ++ t2, by rw [← ht2, ← ht1]; simp⟩

theorem Ext.length_le {s1 s2 : StringTable} (h : Ext s1 s2) :
    s1.length ≤ s2.length := by
  obtain ⟨t, ht⟩ := h
  rw [← ht]
  simp

theorem StringTable.add_ext (st : StringTable) (s : String) :
    Ext st (st.add s).2 := by
  unfold StringTable.add
  split
  · exact Ext.rfl
  · exact ⟨[s], by simp⟩

theorem StringTable.add_fst_lt (st : StringTable) (s : String) :
    (st.add s).1 < (st.add s).2.length := by
  unfold StringTable.add
  split
  · rename_i hmem
    simpa using List.indexOf_lt_length.mpr hmem
  · simp

/-- The central resolution fact: an index handed out by `add` resolves to
the interned string in every extension of the post-`add` table. -/
theorem StringTable.add_resolve {st stF : StringTable} {s : String}
    (hext : Ext (st.add s).2 stF) : stF.resolve (st.add s).1 = s := by
  obtain ⟨t, ht⟩ := hext
  unfold StringTable.add at ht ⊢
  by_cases hmem : s ∈ st
  · simp only [if_pos hmem] at ht ⊢
    have hidx : st.indexOf s < st.length := List.indexOf_lt_length.mpr hmem
    unfold StringTable.resolve
    rw [← ht]
    rw [List.get?_eq_getElem?, List.getElem?_append_left hidx]
    have := List.getElem_indexOf (a := s) (l := st) hidx
    simp [List.getElem?_eq_getElem hidx, this]
  · simp only [if_neg hmem] at ht ⊢
    unfold StringTable.resolve
    rw [← ht]
    have hlt : st.length < (st ++ [s]).length := by simp
    rw [List.get?_eq_getElem?, List.append_assoc,
      List.getElem?_append_right (Nat.le_refl st.length)]
    simp

theorem encFold_ext {α : Type} (f : StringTable → α → List Nat × StringTable)
    (hf : ∀ st a, Ext st (f st a).2) :
    ∀ (l : List α) (st : StringTable), Ext st (encFold f st l).2 := by
  intro l
  induction l with
  | nil => intro st; exact Ext.rfl
  | cons a rest ih =>
    intro st
    simp only [encFold]
    exact (hf st a).trans (ih (f st a).2)

theorem encStringIdx_ext (st : StringTable) (s : String) :
    Ext st (encStringIdx st s).2 :=
  st.add_ext s

theorem encDecorator_ext (st : StringTable) (d : RTTIDecorator) :
    Ext st (encDecorator st d).2 := by
  unfold encDecorator
  exact (st.add_ext d.name).trans
    (encFold_ext encStringIdx encStringIdx_ext d.args (st.add d.name).2)

theorem encParameter_ext (st : StringTable) (p : RTTIParameter) :
    Ext st (encParameter st p).2 := by
  unfold encParameter
  exact (st.add_ext p.name).trans
    (encFold_ext encDecorator encDecorator_ext p.decorators (st.add p.name).2)

theorem encProp_ext (st : StringTable) (p : RTTIPropInfo) :
    Ext st (encProp st p).2 := by
  unfold encProp
  rcases hp : p.parameters with _ | ps
  · simp only [hp]
    exact (st.add_ext p.name).trans
      (encFold_ext encDecorator encDecorator_ext p.decorators _)
  · simp only [hp]
    exact ((st.add_ext p.name).trans
      (encFold_ext encDecorator encDecorator_ext p.decorators _)).trans
      (encFold_ext encParameter encParameter_ext ps _)

theorem encEnumMember_ext (st : StringTable) (m : RTTIEnumMember) :
    Ext st (encEnumMember st m).2 :=
  st.add_ext m.name

theorem serializeMetadata_ext (st : StringTable) (meta : RTTIMetadata) :
    Ext st (serializeMetadata st meta).2 := by
  unfold serializeMetadata
  rcases meta.data with t | ⟨props, gens, decos, bases⟩
    | ⟨params, ret, gens, decos⟩ | ms | ms | ⟨kN, kC, vT⟩ | ⟨c, e, t, f⟩
  · exact Ext.rfl
  · exact (((encFold_ext encProp encProp_ext props st).trans
      (encFold_ext encStringIdx encStringIdx_ext gens _)).trans
      (encFold_ext encDecorator encDecorator_ext decos _)).trans
      (encFold_ext encStringIdx encStringIdx_ext bases _)
  · exact ((encFold_ext encParameter encParameter_ext params st).trans
      (encFold_ext encStringIdx encStringIdx_ext gens _)).trans
      (encFold_ext encDecorator encDecorator_ext decos _)
  · exact encFold_ext encEnumMember encEnumMember_ext ms st
  · exact encFold_ext encStringIdx encStringIdx_ext ms st
  · exact (st.add_ext kN).trans ((st.add kN).2.add_ext vT)
  · exact (((st.add_ext c).trans ((st.add c).2.add_ext e)).trans
      (((st.add c).2.add e).2.add_ext t)).trans
      ((((st.add c).2.add e).2.add t).2.add_ext f)

/-! ## Well-formedness bounds

The decoder reads counts and scalar fields back through the 32-bit varint
path, so a record round-trips only when those numbers fit below `2^31`
(always true of real extractor output).  `propOK` additionally excludes an
explicitly-empty parameter array, which the encoder collapses to the same
bytes as an absent one; `enumValueOK` bounds numeric values to int32 and
excludes string lengths whose varint leads with `0xff`, which the decoder
would mistake for the numeric sentinel. -/

def decoratorOK (d : RTTIDecorator) : Bool :=
  d.args.length < 2147483648

def parameterOK (p : RTTIParameter) : Bool :=
  p.type < 2147483648 && p.decorators.length < 2147483648
    && p.decorators.all decoratorOK

def propOK (p : RTTIPropInfo) : Bool :=
  p.type < 2147483648 && p.flags < 2147483648
    && p.decorators.length < 2147483648 && p.decorators.all decoratorOK
    && (match p.parameters with
        | none => true
        | some ps => decide (0 < ps.length) && ps.length < 2147483648
            && ps.all parameterOK)

def enumValueOK : EnumValue → Bool
  | .num v => decide (-2147483648 ≤ v) && decide (v < 2147483648)
  | .str s => (strBytes s).length < 2147483648
      && !((strBytes s).length > 127 && decide ((strBytes s).length % 128 = 127))

def enumMemberOK (m : RTTIEnumMember) : Bool :=
  enumValueOK m.value

def dataOK (meta : RTTIMetadata) : Bool :=
  match meta.data with
  | .prim t => t < 2147483648
  | .classLike props gens decos bases =>
    props.length < 2147483648 && props.all propOK
      && gens.length < 2147483648 && decos.length < 2147483648
      && decos.all decoratorOK && bases.length < 2147483648
  | .func params ret gens decos =>
    params.length < 2147483648 && params.all parameterOK
      && ret < 2147483648 && gens.length < 2147483648
      && decos.length < 2147483648 && decos.all decoratorOK
  | .enum ms => ms.length < 2147483648 && ms.all enumMemberOK
  | .members ms => ms.length < 2147483648
  | .mapped _ _ _ => true
  | .cond _ _ _ _ => true

/-- What `decodeRTTIEntry` is expected to reconstruct from an encoded
record: the full payload in source order, without the fully-qualified name
(which the decoder skips), and without a mapped record's `keyConstraint`
(which the encoder never writes). -/
def expectedDecode (meta : RTTIMetadata) : DecodedEntry :=
  match meta.data with
  | .prim t => .prim t
  | .classLike props gens decos bases =>
    .classLike meta.kind props gens decos bases
  | .func params ret gens decos => .func params ret gens decos
  | .enum ms => .enum ms
  | .members ms => .unionLike meta.kind ms
  | .mapped keyName _ valueType => .mapped keyName valueType
  | .cond c e t f => .cond c e t f

/-! ## Decode framing lemmas

Each lemma says: decoding at the start of one encoded unit embedded in a
larger buffer recovers the unit and stops exactly past its bytes, provided
every string index involved resolves against a table extending the
encoder's post-state. -/

section Framing

theorem decodeVarint_at {buf pre rest : List Nat} {n : Nat}
    (hn : n < 2147483648) (hbuf : buf = pre ++ encodeVarint n ++ rest) :
    decodeVarint buf pre.length = ⟨n, (pre ++ encodeVarint n).length⟩ := by
  subst hbuf
  rw [List.append_assoc, decodeVarint_encode n hn pre rest]
  congr 1
  simp

theorem encFold_nil {α : Type} (E : StringTable → α → List Nat × StringTable)
    (st : StringTable) : encFold E st [] = ([], st) := rfl

theorem encFold_cons_fst {α : Type}
    (E : StringTable → α → List Nat × StringTable) (st : StringTable)
    (a : α) (l : List α) :
    (encFold E st (a :: l)).1 = (E st a).1 ++ (encFold E (E st a).2 l).1 :=
  rfl

theorem encFold_cons_snd {α : Type}
    (E : StringTable → α → List Nat × StringTable) (st : StringTable)
    (a : α) (l : List α) :
    (encFold E st (a :: l)).2 = (encFold E (E st a).2 l).2 :=
  rfl

theorem encStringIdx_fst (st : StringTable) (s : String) :
    (encStringIdx st s).1 = encodeVarint (st.add s).1 := rfl

theorem encStringIdx_snd (st : StringTable) (s : String) :
    (encStringIdx st s).2 = (st.add s).2 := rfl

/-- An index handed out by any `add` reachable below `stF` is below
`2^31` whenever `stF` is. -/
theorem add_fst_small {st stF : StringTable} {s : String}
    (hext : Ext (st.add s).2 stF) (hlen : stF.length < 2147483648) :
    (st.add s).1 < 2147483648 :=
  Nat.lt_of_lt_of_le (st.add_fst_lt s)
    (Nat.le_trans hext.length_le (Nat.le_of_lt hlen))

theorem decStringIdx1_spec (s : String) (st stF : StringTable)
    (buf pre post : List Nat)
    (hext : Ext (encStringIdx st s).2 stF) (hlen : stF.length < 2147483648)
    (hbuf : buf = pre ++ (encStringIdx st s).1 ++ post) :
    decStringIdx1 buf stF.resolve pre.length
      = (s, (pre ++ (encStringIdx st s).1).length) := by
  rw [encStringIdx_snd] at hext
  rw [encStringIdx_fst] at hbuf ⊢
  unfold decStringIdx1
  rw [decodeVarint_at (add_fst_small hext hlen) hbuf]
  simp [StringTable.add_resolve hext]

/-- Generic loop lemma: if one-unit decoding inverts one-unit encoding,
`count` rounds of it invert the encoder fold. -/
theorem decListN_spec {α : Type} (E : StringTable → α → List Nat × StringTable)
    (D1 : List Nat → (Nat → String) → Nat → α × Nat) (OK : α → Bool)
    (hE_ext : ∀ st a, Ext st (E st a).2)
    (hunit : ∀ (a : α) (st stF : StringTable) (buf pre post : List Nat),
      OK a = true → Ext (E st a).2 stF → stF.length < 2147483648 →
      buf = pre ++ (E st a).1 ++ post →
      D1 buf stF.resolve pre.length = (a, (pre ++ (E st a).1).length)) :
    ∀ (l : List α) (st stF : StringTable) (buf pre post : List Nat),
      l.all OK = true → Ext (encFold E st l).2 stF →
      stF.length < 2147483648 →
      buf = pre ++ (encFold E st l).1 ++ post →
      decListN D1 buf stF.resolve l.length pre.length
        = (l, (pre ++ (encFold E st l).1).length) := by
  intro l
  induction l with
  | nil =>
    intro st stF buf pre post _hOK _hext _hlen hbuf
    simp [decListN, encFold_nil]
  | cons a rest ih =>
    intro st stF buf pre post hOK hext hlen hbuf
    rw [encFold_cons_snd] at hext
    rw [encFold_cons_fst] at hbuf ⊢
    simp only [List.all_cons, Bool.and_eq_true] at hOK
    have hextA : Ext (E st a).2 stF :=
      (encFold_ext E hE_ext rest (E st a).2).trans hext
    have hlength : rest.length + 1 = (a :: rest).length := rfl
    show decListN D1 buf stF.resolve (rest.length + 1) pre.length = _
    rw [decListN]
    simp only [hunit a st stF buf pre ((encFold E (E st a).2 rest).1 ++ post)
      hOK.1 hextA hlen (by rw [hbuf]; try simp)]
    simp only [ih (E st a).2 stF buf (pre ++ (E st a).1) post hOK.2 hext hlen
      (by rw [hbuf]; try simp)]
    simp

theorem decStringIdxList_spec (l : List String) (st stF : StringTable)
    (buf pre post : List Nat)
    (hext : Ext (encStringIdxList st l).2 stF)
    (hlen : stF.length < 2147483648)
    (hbuf : buf = pre ++ (encStringIdxList st l).1 ++ post) :
    decStringIdxList buf stF.resolve l.length pre.length
      = (l, (pre ++ (encStringIdxList st l).1).length) := by
  unfold decStringIdxList encStringIdxList at *
  exact decListN_spec encStringIdx decStringIdx1 (fun _ => true)
    encStringIdx_ext
    (fun a st stF buf pre post _ hext hlen hbuf =>
      decStringIdx1_spec a st stF buf pre post hext hlen hbuf)
    l st stF buf pre post (by simp) hext hlen hbuf

theorem encDecorator_fst (st : StringTable) (d : RTTIDecorator) :
    (encDecorator st d).1 = encodeVarint (st.add d.name).1
      ++ (encodeVarint d.args.length
        ++ (encStringIdxList (st.add d.name).2 d.args).1) := rfl

theorem encDecorator_snd (st : StringTable) (d : RTTIDecorator) :
    (encDecorator st d).2 = (encStringIdxList (st.add d.name).2 d.args).2 :=
  rfl

theorem decDecorator_spec (d : RTTIDecorator) (st stF : StringTable)
    (buf pre post : List Nat) (hOK : decoratorOK d = true)
    (hext : Ext (encDecorator st d).2 stF) (hlen : stF.length < 2147483648)
    (hbuf : buf = pre ++ (encDecorator st d).1 ++ post) :
    decDecorator buf stF.resolve pre.length
      = (d, (pre ++ (encDecorator st d).1).length) := by
  rw [encDecorator_snd] at hext
  rw [encDecorator_fst] at hbuf ⊢
  have hextName : Ext (st.add d.name).2 stF :=
    (encFold_ext encStringIdx encStringIdx_ext d.args (st.add d.name).2).trans
      hext
  have hct : d.args.length < 2147483648 := by
    unfold decoratorOK at hOK
    simpa using hOK
  unfold decDecorator
  simp only [decodeVarint_at (add_fst_small hextName hlen)
    (show buf = pre ++ encodeVarint (st.add d.name).1
        ++ ((encodeVarint d.args.length
          ++ (encStringIdxList (st.add d.name).2 d.args).1) ++ post) by
      rw [hbuf]; simp)]
  simp only [decodeVarint_at hct
    (show buf = (pre ++ encodeVarint (st.add d.name).1)
        ++ encodeVarint d.args.length
        ++ ((encStringIdxList (st.add d.name).2 d.args).1 ++ post) by
      rw [hbuf]; simp)]
  simp only [decStringIdxList_spec d.args (st.add d.name).2 stF buf
    ((pre ++ encodeVarint (st.add d.name).1) ++ encodeVarint d.args.length)
    post hext hlen (by rw [hbuf]; try simp)]
  simp [StringTable.add_resolve hextName]

theorem encParameter_fst (st : StringTable) (p : RTTIParameter) :
    (encParameter st p).1 = encodeVarint (st.add p.name).1
      ++ (encodeVarint p.type ++ (encodeVarint p.decorators.length
        ++ (encFold encDecorator (st.add p.name).2 p.decorators).1)) := rfl

theorem encParameter_snd (st : StringTable) (p : RTTIParameter) :
    (encParameter st p).2
      = (encFold encDecorator (st.add p.name).2 p.decorators).2 := rfl

/-- Decorator-list instance of the loop lemma. -/
theorem decDecorators_spec (l : List RTTIDecorator) (st stF : StringTable)
    (buf pre post : List Nat) (hOK : l.all decoratorOK = true)
    (hext : Ext (encFold encDecorator st l).2 stF)
    (hlen : stF.length < 2147483648)
    (hbuf : buf = pre ++ (encFold encDecorator st l).1 ++ post) :
    decDecorators buf stF.resolve l.length pre.length
      = (l, (pre ++ (encFold encDecorator st l).1).length) := by
  unfold decDecorators
  exact decListN_spec encDecorator decDecorator decoratorOK
    encDecorator_ext decDecorator_spec l st stF buf pre post hOK hext hlen
    hbuf

theorem decParameter_spec (p : RTTIParameter) (st stF : StringTable)
    (buf pre post : List Nat) (hOK : parameterOK p = true)
    (hext : Ext (encParameter st p).2 stF) (hlen : stF.length < 2147483648)
    (hbuf : buf = pre ++ (encParameter st p).1 ++ post) :
    decParameter buf stF.resolve pre.length
      = (p, (pre ++ (encParameter st p).1).length) := by
  rw [encParameter_snd] at hext
  rw [encParameter_fst] at hbuf ⊢
  have hextName : Ext (st.add p.name).2 stF :=
    (encFold_ext encDecorator encDecorator_ext p.decorators
      (st.add p.name).2).trans hext
  unfold parameterOK at hOK
  simp only [Bool.and_eq_true, decide_eq_true_eq] at hOK
  unfold decParameter
  simp only [decodeVarint_at (add_fst_small hextName hlen)
    (show buf = pre ++ encodeVarint (st.add p.name).1
        ++ ((encodeVarint p.type ++ (encodeVarint p.decorators.length
          ++ (encFold encDecorator (st.add p.name).2 p.decorators).1))
          ++ post) by
      rw [hbuf]; simp)]
  simp only [decodeVarint_at hOK.1.1
    (show buf = (pre ++ encodeVarint (st.add p.name).1)
        ++ encodeVarint p.type
        ++ ((encodeVarint p.decorators.length
          ++ (encFold encDecorator (st.add p.name).2 p.decorators).1)
          ++ post) by
      rw [hbuf]; simp)]
  simp only [decodeVarint_at hOK.1.2
    (show buf = ((pre ++ encodeVarint (st.add p.name).1)
          ++ encodeVarint p.type)
        ++ encodeVarint p.decorators.length
        ++ ((encFold encDecorator (st.add p.name).2 p.decorators).1
          ++ post) by
      rw [hbuf]; simp)]
  simp only [decDecorators_spec p.decorators (st.add p.name).2 stF buf
    (((pre ++ encodeVarint (st.add p.name).1) ++ encodeVarint p.type)
      ++ encodeVarint p.decorators.length)
    post hOK.2 hext hlen (by rw [hbuf]; try simp)]
  simp [StringTable.add_resolve hextName]

/-- Parameter-list instance of the loop lemma. -/
theorem decParameters_spec (l : List RTTIParameter) (st stF : StringTable)
    (buf pre post : List Nat) (hOK : l.all parameterOK = true)
    (hext : Ext (encFold encParameter st l).2 stF)
    (hlen : stF.length < 2147483648)
    (hbuf : buf = pre ++ (encFold encParameter st l).1 ++ post) :
    decParameters buf stF.resolve l.length pre.length
      = (l, (pre ++ (encFold encParameter st l).1).length) := by
  unfold decParameters
  exact decListN_spec encParameter decParameter parameterOK
    encParameter_ext decParameter_spec l st stF buf pre post hOK hext hlen
    hbuf

theorem getD_append_left {α : Type} (l l' : List α) (k : Nat) (d : α)
    (hk : k < l.length) :
    (l ++ l').getD k d = l.getD k d := by
  simp [List.getD_eq_getElem?_getD, List.getElem?_append_left hk]

/-- Byte at the start of an embedded chunk. -/
theorem getD_frame (buf pre chunk post : List Nat) (k d : Nat)
    (hbuf : buf = pre ++ chunk ++ post) (hk : k < chunk.length) :
    buf.getD (pre.length + k) d = chunk.getD k d := by
  rw [hbuf, List.append_assoc, getD_append_add, getD_append_left _ _ _ _ hk]

/-- The 4-byte little-endian int32 codec round-trips on int32 values. -/
theorem readInt32LE_at (v : Int) (buf pre post : List Nat)
    (hbuf : buf = pre ++ int32LEBytes v ++ post)
    (h1 : -2147483648 ≤ v) (h2 : v < 2147483648) :
    readInt32LEsigned buf pre.length = v := by
  have hu : (v % 4294967296).toNat < 4294967296 := by omega
  have hb0 : buf.getD pre.length 0 = (int32LEBytes v).getD 0 0 := by
    have h := getD_frame buf pre (int32LEBytes v) post 0 0 hbuf (by
      simp [int32LEBytes])
    simpa using h
  have hb1 := getD_frame buf pre (int32LEBytes v) post 1 0 hbuf (by
    simp [int32LEBytes])
  have hb2 := getD_frame buf pre (int32LEBytes v) post 2 0 hbuf (by
    simp [int32LEBytes])
  have hb3 := getD_frame buf pre (int32LEBytes v) post 3 0 hbuf (by
    simp [int32LEBytes])
  unfold readInt32LEsigned
  rw [hb0, hb1, hb2, hb3]
  simp only [int32LEBytes]
  simp only [List.getD_cons_zero, List.getD_cons_succ]
  omega

theorem encProp_fst_none (st : StringTable) (p : RTTIPropInfo)
    (h : p.parameters = none) :
    (encProp st p).1 = encodeVarint (st.add p.name).1
      ++ (encodeVarint p.type ++ (encodeVarint p.flags
        ++ (encodeVarint p.decorators.length
          ++ ((encFold encDecorator (st.add p.name).2 p.decorators).1
            ++ encodeVarint 0)))) := by
  simp [encProp, h]

theorem encProp_snd_none (st : StringTable) (p : RTTIPropInfo)
    (h : p.parameters = none) :
    (encProp st p).2
      = (encFold encDecorator (st.add p.name).2 p.decorators).2 := by
  simp [encProp, h]

theorem encProp_fst_some (st : StringTable) (p : RTTIPropInfo)
    (ps : List RTTIParameter) (h : p.parameters = some ps) :
    (encProp st p).1 = encodeVarint (st.add p.name).1
      ++ (encodeVarint p.type ++ (encodeVarint p.flags
        ++ (encodeVarint p.decorators.length
          ++ ((encFold encDecorator (st.add p.name).2 p.decorators).1
            ++ (encodeVarint ps.length
              ++ (encFold encParameter
                (encFold encDecorator (st.add p.name).2 p.decorators).2
                ps).1))))) := by
  simp [encProp, h]

theorem encProp_snd_some (st : StringTable) (p : RTTIPropInfo)
    (ps : List RTTIParameter) (h : p.parameters = some ps) :
    (encProp st p).2 = (encFold encParameter
      (encFold encDecorator (st.add p.name).2 p.decorators).2 ps).2 := by
  simp [encProp, h]

theorem decProp_spec (p : RTTIPropInfo) (st stF : StringTable)
    (buf pre post : List Nat) (hOK : propOK p = true)
    (hext : Ext (encProp st p).2 stF) (hlen : stF.length < 2147483648)
    (hbuf : buf = pre ++ (encProp st p).1 ++ post) :
    decProp buf stF.resolve pre.length
      = (p, (pre ++ (encProp st p).1).length) := by
  obtain ⟨pname, ptype, pflags, pdecos, pparams⟩ := p
  unfold propOK at hOK
  simp only [Bool.and_eq_true, decide_eq_true_eq] at hOK
  rcases hp : pparams with _ | ps
  all_goals subst hp
  · -- `parameters` absent: an explicit zero count is written and read back
    rw [encProp_snd_none st _ rfl] at hext
    rw [encProp_fst_none st _ rfl] at hbuf ⊢
    have hextName : Ext ((st.add pname).2) stF :=
      (encFold_ext encDecorator encDecorator_ext pdecos
        (st.add pname).2).trans hext
    unfold decProp
    simp only [decodeVarint_at (add_fst_small hextName hlen)
      (show buf = pre ++ encodeVarint (st.add pname).1
          ++ ((encodeVarint ptype ++ (encodeVarint pflags
            ++ (encodeVarint pdecos.length
              ++ ((encFold encDecorator (st.add pname).2 pdecos).1
                ++ encodeVarint 0)))) ++ post) by
        rw [hbuf]; simp)]
    simp only [decodeVarint_at hOK.1.1.1.1
      (show buf = (pre ++ encodeVarint (st.add pname).1)
          ++ encodeVarint ptype
          ++ ((encodeVarint pflags ++ (encodeVarint pdecos.length
            ++ ((encFold encDecorator (st.add pname).2 pdecos).1
              ++ encodeVarint 0))) ++ post) by
        rw [hbuf]; simp)]
    simp only [decodeVarint_at hOK.1.1.1.2
      (show buf = ((pre ++ encodeVarint (st.add pname).1)
            ++ encodeVarint ptype) ++ encodeVarint pflags
          ++ ((encodeVarint pdecos.length
            ++ ((encFold encDecorator (st.add pname).2 pdecos).1
              ++ encodeVarint 0)) ++ post) by
        rw [hbuf]; simp)]
    simp only [decodeVarint_at hOK.1.1.2
      (show buf = (((pre ++ encodeVarint (st.add pname).1)
            ++ encodeVarint ptype) ++ encodeVarint pflags)
          ++ encodeVarint pdecos.length
          ++ (((encFold encDecorator (st.add pname).2 pdecos).1
            ++ encodeVarint 0) ++ post) by
        rw [hbuf]; simp)]
    simp only [decDecorators_spec pdecos (st.add pname).2 stF buf
      ((((pre ++ encodeVarint (st.add pname).1) ++ encodeVarint ptype)
        ++ encodeVarint pflags) ++ encodeVarint pdecos.length)
      (encodeVarint 0 ++ post) hOK.1.2 hext hlen (by rw [hbuf]; try simp)]
    simp only [decodeVarint_at (show (0 : Nat) < 2147483648 by norm_num)
      (show buf = ((((pre ++ encodeVarint (st.add pname).1)
              ++ encodeVarint ptype) ++ encodeVarint pflags)
            ++ encodeVarint pdecos.length)
          ++ (encFold encDecorator (st.add pname).2 pdecos).1
          ++ encodeVarint 0 ++ post by rw [hbuf]; simp)]
    simp [StringTable.add_resolve hextName]
  · -- `parameters` present (and nonempty, by `propOK`)
    have hOK2 : 0 < ps.length ∧ ps.length < 2147483648
        ∧ ps.all parameterOK = true := by
      have h := hOK.2
      simp only [Bool.and_eq_true, decide_eq_true_eq] at h
      exact ⟨h.1.1, h.1.2, h.2⟩
    rw [encProp_snd_some st _ ps rfl] at hext
    rw [encProp_fst_some st _ ps rfl] at hbuf ⊢
    have hextDecos : Ext (encFold encDecorator (st.add pname).2 pdecos).2
        stF :=
      (encFold_ext encParameter encParameter_ext ps _).trans hext
    have hextName : Ext ((st.add pname).2) stF :=
      (encFold_ext encDecorator encDecorator_ext pdecos
        (st.add pname).2).trans hextDecos
    unfold decProp
    simp only [decodeVarint_at (add_fst_small hextName hlen)
      (show buf = pre ++ encodeVarint (st.add pname).1
          ++ ((encodeVarint ptype ++ (encodeVarint pflags
            ++ (encodeVarint pdecos.length
              ++ ((encFold encDecorator (st.add pname).2 pdecos).1
                ++ (encodeVarint ps.length
                  ++ (encFold encParameter
                    (encFold encDecorator (st.add pname).2 pdecos).2
                    ps).1))))) ++ post) by
        rw [hbuf]; simp)]
    simp only [decodeVarint_at hOK.1.1.1.1
      (show buf = (pre ++ encodeVarint (st.add pname).1)
          ++ encodeVarint ptype
          ++ ((encodeVarint pflags ++ (encodeVarint pdecos.length
            ++ ((encFold encDecorator (st.add pname).2 pdecos).1
              ++ (encodeVarint ps.length
                ++ (encFold encParameter
                  (encFold encDecorator (st.add pname).2 pdecos).2
                  ps).1)))) ++ post) by
        rw [hbuf]; simp)]
    simp only [decodeVarint_at hOK.1.1.1.2
      (show buf = ((pre ++ encodeVarint (st.add pname).1)
            ++ encodeVarint ptype) ++ encodeVarint pflags
          ++ ((encodeVarint pdecos.length
            ++ ((encFold encDecorator (st.add pname).2 pdecos).1
              ++ (encodeVarint ps.length
                ++ (encFold encParameter
                  (encFold encDecorator (st.add pname).2 pdecos).2
                  ps).1))) ++ post) by
        rw [hbuf]; simp)]
    simp only [decodeVarint_at hOK.1.1.2
      (show buf = (((pre ++ encodeVarint (st.add pname).1)
            ++ encodeVarint ptype) ++ encodeVarint pflags)
          ++ encodeVarint pdecos.length
          ++ (((encFold encDecorator (st.add pname).2 pdecos).1
            ++ (encodeVarint ps.length
              ++ (encFold encParameter
                (encFold encDecorator (st.add pname).2 pdecos).2
                ps).1)) ++ post) by
        rw [hbuf]; simp)]
    simp only [decDecorators_spec pdecos (st.add pname).2 stF buf
      ((((pre ++ encodeVarint (st.add pname).1) ++ encodeVarint ptype)
        ++ encodeVarint pflags) ++ encodeVarint pdecos.length)
      ((encodeVarint ps.length
        ++ (encFold encParameter
          (encFold encDecorator (st.add pname).2 pdecos).2 ps).1) ++ post)
      hOK.1.2 hextDecos hlen (by rw [hbuf]; try simp)]
    simp only [decodeVarint_at hOK2.2.1
      (show buf = (((((pre ++ encodeVarint (st.add pname).1)
              ++ encodeVarint ptype) ++ encodeVarint pflags)
            ++ encodeVarint pdecos.length)
          ++ (encFold encDecorator (st.add pname).2 pdecos).1)
          ++ encodeVarint ps.length
          ++ ((encFold encParameter
            (encFold encDecorator (st.add pname).2 pdecos).2 ps).1
            ++ post) by rw [hbuf]; simp)]
    simp only [decParameters_spec ps
      (encFold encDecorator (st.add pname).2 pdecos).2 stF buf
      ((((((pre ++ encodeVarint (st.add pname).1) ++ encodeVarint ptype)
        ++ encodeVarint pflags) ++ encodeVarint pdecos.length)
        ++ (encFold encDecorator (st.add pname).2 pdecos).1)
        ++ encodeVarint ps.length)
      post hOK2.2.2 hext hlen (by rw [hbuf]; try simp)]
    have hpos : ps.length > 0 := hOK2.1
    simp only [if_pos hpos]
    simp [StringTable.add_resolve hextName]

/-- Member-list instance of the loop lemma. -/
theorem decProps_spec (l : List RTTIPropInfo) (st stF : StringTable)
    (buf pre post : List Nat) (hOK : l.all propOK = true)
    (hext : Ext (encFold encProp st l).2 stF)
    (hlen : stF.length < 2147483648)
    (hbuf : buf = pre ++ (encFold encProp st l).1 ++ post) :
    decProps buf stF.resolve l.length pre.length
      = (l, (pre ++ (encFold encProp st l).1).length) := by
  unfold decProps
  exact decListN_spec encProp decProp propOK encProp_ext decProp_spec
    l st stF buf pre post hOK hext hlen hbuf

/-- Byte-view round trip (every `Char` is a valid scalar value). -/
theorem bytesToStr_strBytes (s : String) : bytesToStr (strBytes s) = s := by
  unfold bytesToStr strBytes
  rw [List.map_map]
  have h : (fun b => Char.ofNat b) ∘ (fun c : Char => c.toNat) = id := by
    funext c
    simp [Char.ofNat_toNat]
  rw [h, List.map_id]

theorem encEnumMember_snd (st : StringTable) (m : RTTIEnumMember) :
    (encEnumMember st m).2 = (st.add m.name).2 := by
  unfold encEnumMember
  rcases m.value <;> rfl

theorem encEnumMember_fst_num (st : StringTable) (m : RTTIEnumMember)
    (v : Int) (h : m.value = .num v) :
    (encEnumMember st m).1
      = encodeVarint (st.add m.name).1 ++ (255 :: int32LEBytes v) := by
  simp [encEnumMember, h]

theorem encEnumMember_fst_str (st : StringTable) (m : RTTIEnumMember)
    (s : String) (h : m.value = .str s) :
    (encEnumMember st m).1 = encodeVarint (st.add m.name).1
      ++ (encodeVarint (strBytes s).length ++ strBytes s) := by
  simp [encEnumMember, h]

theorem decEnumMember_spec (m : RTTIEnumMember) (st stF : StringTable)
    (buf pre post : List Nat) (hOK : enumMemberOK m = true)
    (hext : Ext (encEnumMember st m).2 stF) (hlen : stF.length < 2147483648)
    (hbuf : buf = pre ++ (encEnumMember st m).1 ++ post) :
    decEnumMember buf stF.resolve pre.length
      = (m, (pre ++ (encEnumMember st m).1).length) := by
  obtain ⟨mname, mvalue⟩ := m
  rw [encEnumMember_snd] at hext
  unfold enumMemberOK at hOK
  rcases hv : mvalue with v | s
  all_goals subst hv
  · -- numeric value: `0xff` sentinel plus 4-byte little-endian int32
    rw [encEnumMember_fst_num st _ v rfl] at hbuf ⊢
    unfold enumValueOK at hOK
    simp only [Bool.and_eq_true, decide_eq_true_eq] at hOK
    unfold decEnumMember
    simp only [decodeVarint_at (add_fst_small hext hlen)
      (show buf = pre ++ encodeVarint (st.add mname).1
          ++ ((255 :: int32LEBytes v) ++ post) by rw [hbuf]; simp)]
    have hsent : buf.getD (pre ++ encodeVarint (st.add mname).1).length 0
        = 255 := by
      have h := getD_frame buf (pre ++ encodeVarint (st.add mname).1)
        (255 :: int32LEBytes v) post 0 0 (by rw [hbuf]; try simp) (by simp)
      simpa using h
    rw [hsent]
    simp only [if_pos rfl]
    have hread : readInt32LEsigned buf
        ((pre ++ encodeVarint (st.add mname).1).length + 1) = v := by
      have hb : buf = ((pre ++ encodeVarint (st.add mname).1) ++ [255])
          ++ int32LEBytes v ++ post := by rw [hbuf]; simp
      have h := readInt32LE_at v buf
        ((pre ++ encodeVarint (st.add mname).1) ++ [255]) post hb hOK.1
        hOK.2
      simpa using h
    rw [hread]
    simp only [StringTable.add_resolve hext, int32LEBytes]
    simp
    omega
  · -- string value: varint length (never starting `0xff`) plus the bytes
    rw [encEnumMember_fst_str st _ s rfl] at hbuf ⊢
    unfold enumValueOK at hOK
    simp only [Bool.and_eq_true, Bool.not_eq_true', Bool.and_eq_false_iff,
      decide_eq_true_eq, decide_eq_false_iff_not] at hOK
    unfold decEnumMember
    simp only [decodeVarint_at (add_fst_small hext hlen)
      (show buf = pre ++ encodeVarint (st.add mname).1
          ++ ((encodeVarint (strBytes s).length ++ strBytes s) ++ post) by
        rw [hbuf]; simp)]
    -- the first byte of the length varint is never the numeric sentinel
    have hsent : buf.getD (pre ++ encodeVarint (st.add mname).1).length 0
        ≠ 255 := by
      have hfirst : ∀ b tl, encodeVarint (strBytes s).length = b :: tl →
          b ≠ 255 := by
        intro b tl henc hb255
        rcases Decidable.em ((strBytes s).length > 127) with hgt | hle
        · rw [encodeVarint_big hgt] at henc
          have hb : b = ((strBytes s).length &&& 127) ||| 128 :=
            (List.cons.injEq _ _ _ _ ▸ henc).1.symm
          rw [and_127_eq_mod] at hb
          rw [or_128_eq_add (by omega)] at hb
          rcases hOK.2 with h127 | hmod
          · omega
          · omega
        · rw [encodeVarint_small hle] at henc
          have hb : b = (strBytes s).length :=
            (List.cons.injEq _ _ _ _ ▸ henc).1.symm
          omega
      rcases henc : encodeVarint (strBytes s).length with _ | ⟨b, tl⟩
      · exact absurd henc (encodeVarint_ne_nil _)
      · have h := getD_frame buf (pre ++ encodeVarint (st.add mname).1)
          (encodeVarint (strBytes s).length) (strBytes s ++ post) 0 0
          (by rw [hbuf]; try simp) (by rw [henc]; simp)
        simp only [Nat.add_zero] at h
        rw [h, henc]
        simpa using hfirst b tl henc
    rw [if_neg hsent]
    simp only [decodeVarint_at hOK.1
      (show buf = (pre ++ encodeVarint (st.add mname).1)
          ++ encodeVarint (strBytes s).length ++ (strBytes s ++ post) by
        rw [hbuf]; simp)]
    have hdrop : buf.drop ((pre ++ encodeVarint (st.add mname).1)
          ++ encodeVarint (strBytes s).length).length
        = strBytes s ++ post := by
      rw [hbuf]
      rw [show pre ++ (encodeVarint (st.add mname).1
          ++ (encodeVarint (strBytes s).length ++ strBytes s)) ++ post
        = ((pre ++ encodeVarint (st.add mname).1)
          ++ encodeVarint (strBytes s).length) ++ (strBytes s ++ post) by
        simp]
      exact List.drop_left _ _
    rw [hdrop]
    rw [List.take_left' rfl]
    rw [bytesToStr_strBytes]
    simp only [StringTable.add_resolve hext]
    simp
    omega

/-- Enum-member-list instance of the loop lemma. -/
theorem decEnumMembers_spec (l : List RTTIEnumMember) (st stF : StringTable)
    (buf pre post : List Nat) (hOK : l.all enumMemberOK = true)
    (hext : Ext (encFold encEnumMember st l).2 stF)
    (hlen : stF.length < 2147483648)
    (hbuf : buf = pre ++ (encFold encEnumMember st l).1 ++ post) :
    decEnumMembers buf stF.resolve l.length pre.length
      = (l, (pre ++ (encFold encEnumMember st l).1).length) := by
  unfold decEnumMembers
  exact decListN_spec encEnumMember decEnumMember enumMemberOK
    encEnumMember_ext decEnumMember_spec l st stF buf pre post hOK hext
    hlen hbuf

theorem serializeMetadata_prim (st : StringTable) (fq : String)
    (kind t : Nat) :
    serializeMetadata st ⟨fq, kind, .prim t⟩
      = ((kind :: encodeVarint ((st.getOffset fq).getD 0))
          ++ encodeVarint t, st) := rfl

theorem serializeMetadata_members (st : StringTable) (fq : String)
    (kind : Nat) (ms : List String) :
    serializeMetadata st ⟨fq, kind, .members ms⟩
      = ((kind :: encodeVarint ((st.getOffset fq).getD 0))
          ++ (encodeVarint ms.length ++ (encStringIdxList st ms).1),
        (encStringIdxList st ms).2) := rfl

theorem serializeMetadata_mapped (st : StringTable) (fq : String)
    (kind : Nat) (kN kC vT : String) :
    serializeMetadata st ⟨fq, kind, .mapped kN kC vT⟩
      = ((kind :: encodeVarint ((st.getOffset fq).getD 0))
          ++ encodeVarint (st.add kN).1
          ++ encodeVarint ((st.add kN).2.add vT).1,
        ((st.add kN).2.add vT).2) := rfl

theorem serializeMetadata_cond (st : StringTable) (fq : String)
    (kind : Nat) (c e t f : String) :
    serializeMetadata st ⟨fq, kind, .cond c e t f⟩
      = ((kind :: encodeVarint ((st.getOffset fq).getD 0))
          ++ encodeVarint (st.add c).1
          ++ encodeVarint ((st.add c).2.add e).1
          ++ encodeVarint (((st.add c).2.add e).2.add t).1
          ++ encodeVarint ((((st.add c).2.add e).2.add t).2.add f).1,
        ((((st.add c).2.add e).2.add t).2.add f).2) := rfl

theorem serializeMetadata_enum (st : StringTable) (fq : String)
    (kind : Nat) (ms : List RTTIEnumMember) :
    serializeMetadata st ⟨fq, kind, .enum ms⟩
      = ((kind :: encodeVarint ((st.getOffset fq).getD 0))
          ++ (encodeVarint ms.length ++ (encFold encEnumMember st ms).1),
        (encFold encEnumMember st ms).2) := rfl

theorem serializeMetadata_func (st : StringTable) (fq : String)
    (kind ret : Nat) (params : List RTTIParameter) (gens : List String)
    (decos : List RTTIDecorator) :
    serializeMetadata st ⟨fq, kind, .func params ret gens decos⟩
      = ((kind :: encodeVarint ((st.getOffset fq).getD 0))
          ++ (encodeVarint params.length
            ++ (encFold encParameter st params).1)
          ++ encodeVarint ret
          ++ (encodeVarint gens.length
            ++ (encStringIdxList (encFold encParameter st params).2 gens).1)
          ++ (encodeVarint decos.length
            ++ (encFold encDecorator
              (encStringIdxList (encFold encParameter st params).2 gens).2
              decos).1),
        (encFold encDecorator
          (encStringIdxList (encFold encParameter st params).2 gens).2
          decos).2) := rfl

theorem serializeMetadata_classLike (st : StringTable) (fq : String)
    (kind : Nat) (props : List RTTIPropInfo) (gens : List String)
    (decos : List RTTIDecorator) (bases : List String) :
    serializeMetadata st ⟨fq, kind, .classLike props gens decos bases⟩
      = ((kind :: encodeVarint ((st.getOffset fq).getD 0))
          ++ (encodeVarint props.length ++ (encFold encProp st props).1)
          ++ (encodeVarint gens.length
            ++ (encStringIdxList (encFold encProp st props).2 gens).1)
          ++ (encodeVarint decos.length
            ++ (encFold encDecorator
              (encStringIdxList (encFold encProp st props).2 gens).2
              decos).1)
          ++ (encodeVarint bases.length
            ++ (encStringIdxList (encFold encDecorator
              (encStringIdxList (encFold encProp st props).2 gens).2
              decos).2 bases).1),
        (encStringIdxList (encFold encDecorator
          (encStringIdxList (encFold encProp st props).2 gens).2
          decos).2 bases).2) := rfl

/-- The name index written in the header is below `2^31` whenever the
final table is. -/
theorem getOffset_getD_small {st stF : StringTable} {fq : String}
    (hext : Ext st stF) (hlen : stF.length < 2147483648) :
    ((st.getOffset fq).getD 0) < 2147483648 := by
  unfold StringTable.getOffset
  split
  · rename_i hmem
    simp only [Option.getD_some]
    calc st.indexOf fq < st.length := List.indexOf_lt_length.mpr hmem
      _ ≤ stF.length := hext.length_le
      _ < 2147483648 := hlen
  · simp

theorem roundtrip_prim (st stF : StringTable) (fq : String) (t : Nat)
    (ht : t < 2147483648) (hext : Ext st stF)
    (hlen : stF.length < 2147483648) :
    decodeRTTIEntry (serializeMetadata st ⟨fq, REF_PRIMITIVE, .prim t⟩).1
      stF.resolve = .prim t := by
  rw [serializeMetadata_prim]
  have hidx : ((st.getOffset fq).getD 0) < 2147483648 :=
    getOffset_getD_small hext hlen
  have h1 : decodeVarint ((REF_PRIMITIVE
        :: encodeVarint ((st.getOffset fq).getD 0)) ++ encodeVarint t) 1
      = ⟨(st.getOffset fq).getD 0,
        (encodeVarint ((st.getOffset fq).getD 0)).length + 1⟩ := by
    have h := decodeVarint_at hidx
      (show (REF_PRIMITIVE :: encodeVarint ((st.getOffset fq).getD 0))
          ++ encodeVarint t
        = [REF_PRIMITIVE] ++ encodeVarint ((st.getOffset fq).getD 0)
          ++ encodeVarint t by simp)
    simpa using h
  have h2 : decodeVarint ((REF_PRIMITIVE
        :: encodeVarint ((st.getOffset fq).getD 0)) ++ encodeVarint t)
        ((encodeVarint ((st.getOffset fq).getD 0)).length + 1)
      = ⟨t, ((REF_PRIMITIVE :: encodeVarint ((st.getOffset fq).getD 0))
          ++ encodeVarint t).length⟩ := by
    have h := decodeVarint_at ht
      (show (REF_PRIMITIVE :: encodeVarint ((st.getOffset fq).getD 0))
          ++ encodeVarint t
        = (REF_PRIMITIVE :: encodeVarint ((st.getOffset fq).getD 0))
          ++ encodeVarint t ++ [] by simp)
    simpa using h
  unfold decodeRTTIEntry
  simp only [List.cons_append, List.getD_cons_zero] at h1 h2 ⊢
  rw [h1]
  simp only [REF_PRIMITIVE] at h2 ⊢
  simp only [if_true]
  rw [h2]

theorem roundtrip_mapped (st stF : StringTable) (fq kN kC vT : String)
    (hext : Ext ((st.add kN).2.add vT).2 stF)
    (hlen : stF.length < 2147483648) :
    decodeRTTIEntry (serializeMetadata st ⟨fq, REF_MAPPED,
      .mapped kN kC vT⟩).1 stF.resolve = .mapped kN vT := by
  rw [serializeMetadata_mapped]
  have hextK : Ext (st.add kN).2 stF := ((st.add kN).2.add_ext vT).trans hext
  have hidx : ((st.getOffset fq).getD 0) < 2147483648 :=
    getOffset_getD_small ((st.add_ext kN).trans hextK) hlen
  have h1 : decodeVarint ((REF_MAPPED
        :: encodeVarint ((st.getOffset fq).getD 0))
        ++ encodeVarint (st.add kN).1
        ++ encodeVarint ((st.add kN).2.add vT).1) 1
      = ⟨(st.getOffset fq).getD 0,
        (encodeVarint ((st.getOffset fq).getD 0)).length + 1⟩ := by
    have h := decodeVarint_at hidx
      (show (REF_MAPPED :: encodeVarint ((st.getOffset fq).getD 0))
          ++ encodeVarint (st.add kN).1
          ++ encodeVarint ((st.add kN).2.add vT).1
        = [REF_MAPPED] ++ encodeVarint ((st.getOffset fq).getD 0)
          ++ (encodeVarint (st.add kN).1
            ++ encodeVarint ((st.add kN).2.add vT).1) by simp)
    simpa using h
  have h2 := decodeVarint_at (add_fst_small hextK hlen)
    (show (REF_MAPPED :: encodeVarint ((st.getOffset fq).getD 0))
        ++ encodeVarint (st.add kN).1
        ++ encodeVarint ((st.add kN).2.add vT).1
      = (REF_MAPPED :: encodeVarint ((st.getOffset fq).getD 0))
        ++ encodeVarint (st.add kN).1
        ++ encodeVarint ((st.add kN).2.add vT).1 by simp)
  have h3 := decodeVarint_at (add_fst_small hext hlen)
    (show (REF_MAPPED :: encodeVarint ((st.getOffset fq).getD 0))
        ++ encodeVarint (st.add kN).1
        ++ encodeVarint ((st.add kN).2.add vT).1
      = ((REF_MAPPED :: encodeVarint ((st.getOffset fq).getD 0))
        ++ encodeVarint (st.add kN).1)
        ++ encodeVarint ((st.add kN).2.add vT).1 ++ [] by simp)
  simp only [List.cons_append, List.append_nil, List.length_cons,
    List.length_append] at h1 h2 h3 ⊢
  unfold decodeRTTIEntry
  simp only [List.getD_cons_zero]
  rw [if_neg (show ¬ REF_MAPPED = REF_PRIMITIVE by decide),
    if_neg (show ¬ (REF_MAPPED = REF_CLASS ∨ REF_MAPPED = REF_OBJECT)
      by decide),
    if_neg (show ¬ REF_MAPPED = REF_FUNCTION by decide),
    if_neg (show ¬ REF_MAPPED = REF_ENUM by decide),
    if_neg (show ¬ (REF_MAPPED = REF_UNION ∨ REF_MAPPED = REF_INTERSECTION)
      by decide)]
  simp only [if_true]
  rw [h1]
  simp only []
  rw [h2]
  simp only [StringTable.add_resolve hextK]
  rw [h3]
  simp only [StringTable.add_resolve hext]

theorem roundtrip_cond (st stF : StringTable) (fq c e t f : String)
    (hext : Ext ((((st.add c).2.add e).2.add t).2.add f).2 stF)
    (hlen : stF.length < 2147483648) :
    decodeRTTIEntry (serializeMetadata st ⟨fq, REF_CONDITIONAL,
      .cond c e t f⟩).1 stF.resolve = .cond c e t f := by
  rw [serializeMetadata_cond]
  have hextT : Ext (((st.add c).2.add e).2.add t).2 stF :=
    ((((st.add c).2.add e).2.add t).2.add_ext f).trans hext
  have hextE : Ext ((st.add c).2.add e).2 stF :=
    (((st.add c).2.add e).2.add_ext t).trans hextT
  have hextC : Ext (st.add c).2 stF :=
    ((st.add c).2.add_ext e).trans hextE
  have hidx : ((st.getOffset fq).getD 0) < 2147483648 :=
    getOffset_getD_small ((st.add_ext c).trans hextC) hlen
  have h1 : decodeVarint ((REF_CONDITIONAL
        :: encodeVarint ((st.getOffset fq).getD 0))
        ++ encodeVarint (st.add c).1
        ++ encodeVarint ((st.add c).2.add e).1
        ++ encodeVarint (((st.add c).2.add e).2.add t).1
        ++ encodeVarint ((((st.add c).2.add e).2.add t).2.add f).1) 1
      = ⟨(st.getOffset fq).getD 0,
        (encodeVarint ((st.getOffset fq).getD 0)).length + 1⟩ := by
    have h := decodeVarint_at hidx
      (show (REF_CONDITIONAL :: encodeVarint ((st.getOffset fq).getD 0))
          ++ encodeVarint (st.add c).1
          ++ encodeVarint ((st.add c).2.add e).1
          ++ encodeVarint (((st.add c).2.add e).2.add t).1
          ++ encodeVarint ((((st.add c).2.add e).2.add t).2.add f).1
        = [REF_CONDITIONAL] ++ encodeVarint ((st.getOffset fq).getD 0)
          ++ (encodeVarint (st.add c).1
            ++ (encodeVarint ((st.add c).2.add e).1
              ++ (encodeVarint (((st.add c).2.add e).2.add t).1
                ++ encodeVarint ((((st.add c).2.add e).2.add t).2.add
                  f).1))) by simp)
    simpa using h
  have h2 := decodeVarint_at (add_fst_small hextC hlen)
    (show (REF_CONDITIONAL :: encodeVarint ((st.getOffset fq).getD 0))
        ++ encodeVarint (st.add c).1
        ++ encodeVarint ((st.add c).2.add e).1
        ++ encodeVarint (((st.add c).2.add e).2.add t).1
        ++ encodeVarint ((((st.add c).2.add e).2.add t).2.add f).1
      = (REF_CONDITIONAL :: encodeVarint ((st.getOffset fq).getD 0))
        ++ encodeVarint (st.add c).1
        ++ (encodeVarint ((st.add c).2.add e).1
          ++ (encodeVarint (((st.add c).2.add e).2.add t).1
            ++ encodeVarint ((((st.add c).2.add e).2.add t).2.add f).1))
      by simp)
  have h3 := decodeVarint_at (add_fst_small hextE hlen)
    (show (REF_CONDITIONAL :: encodeVarint ((st.getOffset fq).getD 0))
        ++ encodeVarint (st.add c).1
        ++ encodeVarint ((st.add c).2.add e).1
        ++ encodeVarint (((st.add c).2.add e).2.add t).1
        ++ encodeVarint ((((st.add c).2.add e).2.add t).2.add f).1
      = ((REF_CONDITIONAL :: encodeVarint ((st.getOffset fq).getD 0))
        ++ encodeVarint (st.add c).1)
        ++ encodeVarint ((st.add c).2.add e).1
        ++ (encodeVarint (((st.add c).2.add e).2.add t).1
          ++ encodeVarint ((((st.add c).2.add e).2.add t).2.add f).1)
      by simp)
  have h4 := decodeVarint_at (add_fst_small hextT hlen)
    (show (REF_CONDITIONAL :: encodeVarint ((st.getOffset fq).getD 0))
        ++ encodeVarint (st.add c).1
        ++ encodeVarint ((st.add c).2.add e).1
        ++ encodeVarint (((st.add c).2.add e).2.add t).1
        ++ encodeVarint ((((st.add c).2.add e).2.add t).2.add f).1
      = (((REF_CONDITIONAL :: encodeVarint ((st.getOffset fq).getD 0))
        ++ encodeVarint (st.add c).1)
        ++ encodeVarint ((st.add c).2.add e).1)
        ++ encodeVarint (((st.add c).2.add e).2.add t).1
        ++ encodeVarint ((((st.add c).2.add e).2.add t).2.add f).1
      by simp)
  have h5 := decodeVarint_at (add_fst_small hext hlen)
    (show (REF_CONDITIONAL :: encodeVarint ((st.getOffset fq).getD 0))
        ++ encodeVarint (st.add c).1
        ++ encodeVarint ((st.add c).2.add e).1
        ++ encodeVarint (((st.add c).2.add e).2.add t).1
        ++ encodeVarint ((((st.add c).2.add e).2.add t).2.add f).1
      = ((((REF_CONDITIONAL :: encodeVarint ((st.getOffset fq).getD 0))
        ++ encodeVarint (st.add c).1)
        ++ encodeVarint ((st.add c).2.add e).1)
        ++ encodeVarint (((st.add c).2.add e).2.add t).1)
        ++ encodeVarint ((((st.add c).2.add e).2.add t).2.add f).1 ++ []
      by simp)
  simp only [List.cons_append, List.append_nil, List.length_cons,
    List.length_append] at h1 h2 h3 h4 h5 ⊢
  unfold decodeRTTIEntry
  simp only [List.getD_cons_zero]
  rw [if_neg (show ¬ REF_CONDITIONAL = REF_PRIMITIVE by decide),
    if_neg (show ¬ (REF_CONDITIONAL = REF_CLASS
      ∨ REF_CONDITIONAL = REF_OBJECT) by decide),
    if_neg (show ¬ REF_CONDITIONAL = REF_FUNCTION by decide),
    if_neg (show ¬ REF_CONDITIONAL = REF_ENUM by decide),
    if_neg (show ¬ (REF_CONDITIONAL = REF_UNION
      ∨ REF_CONDITIONAL = REF_INTERSECTION) by decide),
    if_neg (show ¬ REF_CONDITIONAL = REF_MAPPED by decide)]
  simp only [if_true]
  rw [h1]
  simp only []
  rw [h2]
  simp only [StringTable.add_resolve hextC]
  rw [h3]
  simp only [StringTable.add_resolve hextE]
  rw [h4]
  simp only [StringTable.add_resolve hextT]
  rw [h5]
  simp only [StringTable.add_resolve hext]

theorem roundtrip_members (st stF : StringTable) (fq : String) (kind : Nat)
    (ms : List String)
    (hkind : kind = REF_UNION ∨ kind = REF_INTERSECTION)
    (hct : ms.length < 2147483648)
    (hext : Ext (encStringIdxList st ms).2 stF)
    (hlen : stF.length < 2147483648) :
    decodeRTTIEntry (serializeMetadata st ⟨fq, kind, .members ms⟩).1
      stF.resolve = .unionLike kind ms := by
  rw [serializeMetadata_members]
  have hidx : ((st.getOffset fq).getD 0) < 2147483648 :=
    getOffset_getD_small ((encFold_ext encStringIdx encStringIdx_ext ms
      st).trans hext) hlen
  have h1 : decodeVarint ((kind
        :: encodeVarint ((st.getOffset fq).getD 0))
        ++ (encodeVarint ms.length ++ (encStringIdxList st ms).1)) 1
      = ⟨(st.getOffset fq).getD 0,
        (encodeVarint ((st.getOffset fq).getD 0)).length + 1⟩ := by
    have h := decodeVarint_at hidx
      (show (kind :: encodeVarint ((st.getOffset fq).getD 0))
          ++ (encodeVarint ms.length ++ (encStringIdxList st ms).1)
        = [kind] ++ encodeVarint ((st.getOffset fq).getD 0)
          ++ (encodeVarint ms.length ++ (encStringIdxList st ms).1)
        by simp)
    simpa using h
  have h2 := decodeVarint_at hct
    (show (kind :: encodeVarint ((st.getOffset fq).getD 0))
        ++ (encodeVarint ms.length ++ (encStringIdxList st ms).1)
      = (kind :: encodeVarint ((st.getOffset fq).getD 0))
        ++ encodeVarint ms.length ++ ((encStringIdxList st ms).1 ++ [])
      by simp)
  have h3 := decStringIdxList_spec ms st stF
    ((kind :: encodeVarint ((st.getOffset fq).getD 0))
      ++ (encodeVarint ms.length ++ (encStringIdxList st ms).1))
    ((kind :: encodeVarint ((st.getOffset fq).getD 0))
      ++ encodeVarint ms.length)
    [] hext hlen (by simp)
  simp only [List.cons_append, List.append_nil, List.length_cons,
    List.length_append] at h1 h2 h3 ⊢
  unfold decodeRTTIEntry
  simp only [List.getD_cons_zero]
  rcases hkind with hk | hk
  all_goals subst hk
  · rw [if_neg (show ¬ REF_UNION = REF_PRIMITIVE by decide),
      if_neg (show ¬ (REF_UNION = REF_CLASS ∨ REF_UNION = REF_OBJECT)
        by decide),
      if_neg (show ¬ REF_UNION = REF_FUNCTION by decide),
      if_neg (show ¬ REF_UNION = REF_ENUM by decide),
      if_pos (show REF_UNION = REF_UNION ∨ REF_UNION = REF_INTERSECTION
        from Or.inl rfl)]
    rw [h1]
    simp only []
    rw [h2]
    simp only []
    rw [h3]
  · rw [if_neg (show ¬ REF_INTERSECTION = REF_PRIMITIVE by decide),
      if_neg (show ¬ (REF_INTERSECTION = REF_CLASS
        ∨ REF_INTERSECTION = REF_OBJECT) by decide),
      if_neg (show ¬ REF_INTERSECTION = REF_FUNCTION by decide),
      if_neg (show ¬ REF_INTERSECTION = REF_ENUM by decide),
      if_pos (show REF_INTERSECTION = REF_UNION
        ∨ REF_INTERSECTION = REF_INTERSECTION from Or.inr rfl)]
    rw [h1]
    simp only []
    rw [h2]
    simp only []
    rw [h3]

theorem roundtrip_enum (st stF : StringTable) (fq : String)
    (ms : List RTTIEnumMember) (hct : ms.length < 2147483648)
    (hOK : ms.all enumMemberOK = true)
    (hext : Ext (encFold encEnumMember st ms).2 stF)
    (hlen : stF.length < 2147483648) :
    decodeRTTIEntry (serializeMetadata st ⟨fq, REF_ENUM, .enum ms⟩).1
      stF.resolve = .enum ms := by
  rw [serializeMetadata_enum]
  have hidx : ((st.getOffset fq).getD 0) < 2147483648 :=
    getOffset_getD_small ((encFold_ext encEnumMember encEnumMember_ext ms
      st).trans hext) hlen
  have h1 : decodeVarint ((REF_ENUM
        :: encodeVarint ((st.getOffset fq).getD 0))
        ++ (encodeVarint ms.length ++ (encFold encEnumMember st ms).1)) 1
      = ⟨(st.getOffset fq).getD 0,
        (encodeVarint ((st.getOffset fq).getD 0)).length + 1⟩ := by
    have h := decodeVarint_at hidx
      (show (REF_ENUM :: encodeVarint ((st.getOffset fq).getD 0))
          ++ (encodeVarint ms.length ++ (encFold encEnumMember st ms).1)
        = [REF_ENUM] ++ encodeVarint ((st.getOffset fq).getD 0)
          ++ (encodeVarint ms.length ++ (encFold encEnumMember st ms).1)
        by simp)
    simpa using h
  have h2 := decodeVarint_at hct
    (show (REF_ENUM :: encodeVarint ((st.getOffset fq).getD 0))
        ++ (encodeVarint ms.length ++ (encFold encEnumMember st ms).1)
      = (REF_ENUM :: encodeVarint ((st.getOffset fq).getD 0))
        ++ encodeVarint ms.length
        ++ ((encFold encEnumMember st ms).1 ++ []) by simp)
  have h3 := decEnumMembers_spec ms st stF
    ((REF_ENUM :: encodeVarint ((st.getOffset fq).getD 0))
      ++ (encodeVarint ms.length ++ (encFold encEnumMember st ms).1))
    ((REF_ENUM :: encodeVarint ((st.getOffset fq).getD 0))
      ++ encodeVarint ms.length)
    [] hOK hext hlen (by simp)
  simp only [List.cons_append, List.append_nil, List.length_cons,
    List.length_append] at h1 h2 h3 ⊢
  unfold decodeRTTIEntry
  simp only [List.getD_cons_zero]
  rw [if_neg (show ¬ REF_ENUM = REF_PRIMITIVE by decide),
    if_neg (show ¬ (REF_ENUM = REF_CLASS ∨ REF_ENUM = REF_OBJECT)
      by decide),
    if_neg (show ¬ REF_ENUM = REF_FUNCTION by decide)]
  simp only [if_true]
  rw [h1]
  simp only []
  rw [h2]
  simp only []
  rw [h3]

theorem roundtrip_func (st stF : StringTable) (fq : String) (ret : Nat)
    (params : List RTTIParameter) (gens : List String)
    (decos : List RTTIDecorator)
    (hctp : params.length < 2147483648)
    (hOKp : params.all parameterOK = true) (hret : ret < 2147483648)
    (hctg : gens.length < 2147483648) (hctd : decos.length < 2147483648)
    (hOKd : decos.all decoratorOK = true)
    (hext : Ext (encFold encDecorator
      (encStringIdxList (encFold encParameter st params).2 gens).2
      decos).2 stF)
    (hlen : stF.length < 2147483648) :
    decodeRTTIEntry (serializeMetadata st ⟨fq, REF_FUNCTION,
      .func params ret gens decos⟩).1 stF.resolve
      = .func params ret gens decos := by
  rw [serializeMetadata_func]
  have hextG : Ext (encStringIdxList (encFold encParameter st params).2
      gens).2 stF :=
    (encFold_ext encDecorator encDecorator_ext decos _).trans hext
  have hextP : Ext (encFold encParameter st params).2 stF :=
    (encFold_ext encStringIdx encStringIdx_ext gens _).trans hextG
  have hidx : ((st.getOffset fq).getD 0) < 2147483648 :=
    getOffset_getD_small ((encFold_ext encParameter encParameter_ext
      params st).trans hextP) hlen
  have h1 : decodeVarint ((REF_FUNCTION
        :: encodeVarint ((st.getOffset fq).getD 0))
        ++ (encodeVarint params.length
          ++ (encFold encParameter st params).1)
        ++ encodeVarint ret
        ++ (encodeVarint gens.length
          ++ (encStringIdxList (encFold encParameter st params).2 gens).1)
        ++ (encodeVarint decos.length
          ++ (encFold encDecorator
            (encStringIdxList (encFold encParameter st params).2 gens).2
            decos).1)) 1
      = ⟨(st.getOffset fq).getD 0,
        (encodeVarint ((st.getOffset fq).getD 0)).length + 1⟩ := by
    have h := decodeVarint_at hidx
      (show (REF_FUNCTION :: encodeVarint ((st.getOffset fq).getD 0))
          ++ (encodeVarint params.length
            ++ (encFold encParameter st params).1)
          ++ encodeVarint ret
          ++ (encodeVarint gens.length
            ++ (encStringIdxList (encFold encParameter st params).2
              gens).1)
          ++ (encodeVarint decos.length
            ++ (encFold encDecorator
              (encStringIdxList (encFold encParameter st params).2 gens).2
              decos).1)
        = [REF_FUNCTION] ++ encodeVarint ((st.getOffset fq).getD 0)
          ++ ((encodeVarint params.length
            ++ (encFold encParameter st params).1)
          ++ (encodeVarint ret
          ++ ((encodeVarint gens.length
            ++ (encStringIdxList (encFold encParameter st params).2
              gens).1)
          ++ (encodeVarint decos.length
            ++ (encFold encDecorator
              (encStringIdxList (encFold encParameter st params).2 gens).2
              decos).1)))) by simp)
    simpa using h
  have h2 := decodeVarint_at hctp
    (show (REF_FUNCTION :: encodeVarint ((st.getOffset fq).getD 0))
        ++ (encodeVarint params.length
          ++ (encFold encParameter st params).1)
        ++ encodeVarint ret
        ++ (encodeVarint gens.length
          ++ (encStringIdxList (encFold encParameter st params).2 gens).1)
        ++ (encodeVarint decos.length
          ++ (encFold encDecorator
            (encStringIdxList (encFold encParameter st params).2 gens).2
            decos).1)
      = (REF_FUNCTION :: encodeVarint ((st.getOffset fq).getD 0))
        ++ encodeVarint params.length
        ++ ((encFold encParameter st params).1
          ++ (encodeVarint ret
          ++ ((encodeVarint gens.length
            ++ (encStringIdxList (encFold encParameter st params).2
              gens).1)
          ++ (encodeVarint decos.length
            ++ (encFold encDecorator
              (encStringIdxList (encFold encParameter st params).2 gens).2
              decos).1)))) by simp)
  have h3 := decParameters_spec params st stF
    ((REF_FUNCTION :: encodeVarint ((st.getOffset fq).getD 0))
      ++ (encodeVarint params.length ++ (encFold encParameter st params).1)
      ++ encodeVarint ret
      ++ (encodeVarint gens.length
        ++ (encStringIdxList (encFold encParameter st params).2 gens).1)
      ++ (encodeVarint decos.length
        ++ (encFold encDecorator
          (encStringIdxList (encFold encParameter st params).2 gens).2
          decos).1))
    ((REF_FUNCTION :: encodeVarint ((st.getOffset fq).getD 0))
      ++ encodeVarint params.length)
    (encodeVarint ret
      ++ ((encodeVarint gens.length
        ++ (encStringIdxList (encFold encParameter st params).2 gens).1)
      ++ (encodeVarint decos.length
        ++ (encFold encDecorator
          (encStringIdxList (encFold encParameter st params).2 gens).2
          decos).1)))
    hOKp hextP hlen (by simp)
  have h4 := decodeVarint_at hret
    (show (REF_FUNCTION :: encodeVarint ((st.getOffset fq).getD 0))
        ++ (encodeVarint params.length
          ++ (encFold encParameter st params).1)
        ++ encodeVarint ret
        ++ (encodeVarint gens.length
          ++ (encStringIdxList (encFold encParameter st params).2 gens).1)
        ++ (encodeVarint decos.length
          ++ (encFold encDecorator
            (encStringIdxList (encFold encParameter st params).2 gens).2
            decos).1)
      = ((REF_FUNCTION :: encodeVarint ((st.getOffset fq).getD 0))
        ++ encodeVarint params.length
        ++ (encFold encParameter st params).1)
        ++ encodeVarint ret
        ++ ((encodeVarint gens.length
          ++ (encStringIdxList (encFold encParameter st params).2 gens).1)
        ++ (encodeVarint decos.length
          ++ (encFold encDecorator
            (encStringIdxList (encFold encParameter st params).2 gens).2
            decos).1)) by simp)
  have h5 := decodeVarint_at hctg
    (show (REF_FUNCTION :: encodeVarint ((st.getOffset fq).getD 0))
        ++ (encodeVarint params.length
          ++ (encFold encParameter st params).1)
        ++ encodeVarint ret
        ++ (encodeVarint gens.length
          ++ (encStringIdxList (encFold encParameter st params).2 gens).1)
        ++ (encodeVarint decos.length
          ++ (encFold encDecorator
            (encStringIdxList (encFold encParameter st params).2 gens).2
            decos).1)
      = (((REF_FUNCTION :: encodeVarint ((st.getOffset fq).getD 0))
        ++ encodeVarint params.length
        ++ (encFold encParameter st params).1)
        ++ encodeVarint ret)
        ++ encodeVarint gens.length
        ++ ((encStringIdxList (encFold encParameter st params).2 gens).1
        ++ (encodeVarint decos.length
          ++ (encFold encDecorator
            (encStringIdxList (encFold encParameter st params).2 gens).2
            decos).1)) by simp)
  have h6 := decStringIdxList_spec gens (encFold encParameter st params).2
    stF
    ((REF_FUNCTION :: encodeVarint ((st.getOffset fq).getD 0))
      ++ (encodeVarint params.length ++ (encFold encParameter st params).1)
      ++ encodeVarint ret
      ++ (encodeVarint gens.length
        ++ (encStringIdxList (encFold encParameter st params).2 gens).1)
      ++ (encodeVarint decos.length
        ++ (encFold encDecorator
          (encStringIdxList (encFold encParameter st params).2 gens).2
          decos).1))
    ((((REF_FUNCTION :: encodeVarint ((st.getOffset fq).getD 0))
      ++ encodeVarint params.length
      ++ (encFold encParameter st params).1)
      ++ encodeVarint ret)
      ++ encodeVarint gens.length)
    (encodeVarint decos.length
      ++ (encFold encDecorator
        (encStringIdxList (encFold encParameter st params).2 gens).2
        decos).1)
    hextG hlen (by simp)
  have h7 := decodeVarint_at hctd
    (show (REF_FUNCTION :: encodeVarint ((st.getOffset fq).getD 0))
        ++ (encodeVarint params.length
          ++ (encFold encParameter st params).1)
        ++ encodeVarint ret
        ++ (encodeVarint gens.length
          ++ (encStringIdxList (encFold encParameter st params).2 gens).1)
        ++ (encodeVarint decos.length
          ++ (encFold encDecorator
            (encStringIdxList (encFold encParameter st params).2 gens).2
            decos).1)
      = ((((REF_FUNCTION :: encodeVarint ((st.getOffset fq).getD 0))
        ++ encodeVarint params.length
        ++ (encFold encParameter st params).1)
        ++ encodeVarint ret)
        ++ encodeVarint gens.length
        ++ (encStringIdxList (encFold encParameter st params).2 gens).1)
        ++ encodeVarint decos.length
        ++ ((encFold encDecorator
          (encStringIdxList (encFold encParameter st params).2 gens).2
          decos).1 ++ []) by simp)
  have h8 := decDecorators_spec decos
    (encStringIdxList (encFold encParameter st params).2 gens).2 stF
    ((REF_FUNCTION :: encodeVarint ((st.getOffset fq).getD 0))
      ++ (encodeVarint params.length ++ (encFold encParameter st params).1)
      ++ encodeVarint ret
      ++ (encodeVarint gens.length
        ++ (encStringIdxList (encFold encParameter st params).2 gens).1)
      ++ (encodeVarint decos.length
        ++ (encFold encDecorator
          (encStringIdxList (encFold encParameter st params).2 gens).2
          decos).1))
    (((((REF_FUNCTION :: encodeVarint ((st.getOffset fq).getD 0))
      ++ encodeVarint params.length
      ++ (encFold encParameter st params).1)
      ++ encodeVarint ret)
      ++ encodeVarint gens.length
      ++ (encStringIdxList (encFold encParameter st params).2 gens).1)
      ++ encodeVarint decos.length)
    [] hOKd hext hlen (by simp)
  simp only [List.cons_append, List.append_nil, List.length_cons,
    List.length_append] at h1 h2 h3 h4 h5 h6 h7 h8 ⊢
  unfold decodeRTTIEntry
  simp only [List.getD_cons_zero]
  rw [if_neg (show ¬ REF_FUNCTION = REF_PRIMITIVE by decide),
    if_neg (show ¬ (REF_FUNCTION = REF_CLASS ∨ REF_FUNCTION = REF_OBJECT)
      by decide)]
  simp only [if_true]
  rw [h1]
  simp only []
  rw [h2]
  simp only []
  rw [h3]
  simp only []
  rw [h4]
  simp only []
  rw [h5]
  simp only []
  rw [h6]
  simp only []
  rw [h7]
  simp only []
  rw [h8]

theorem roundtrip_classLike (st stF : StringTable) (fq : String)
    (kind : Nat) (props : List RTTIPropInfo) (gens : List String)
    (decos : List RTTIDecorator) (bases : List String)
    (hkind : kind = REF_CLASS ∨ kind = REF_OBJECT)
    (hctp : props.length < 2147483648)
    (hOKp : props.all propOK = true)
    (hctg : gens.length < 2147483648) (hctd : decos.length < 2147483648)
    (hOKd : decos.all decoratorOK = true)
    (hctb : bases.length < 2147483648)
    (hext : Ext (encStringIdxList (encFold encDecorator (encStringIdxList (encFold encProp st props).2 gens).2 decos).2 bases).2 stF)
    (hlen : stF.length < 2147483648) :
    decodeRTTIEntry (serializeMetadata st ⟨fq, kind,
      .classLike props gens decos bases⟩).1 stF.resolve
      = .classLike kind props gens decos bases := by
  rw [serializeMetadata_classLike]
  have hextD : Ext (encFold encDecorator (encStringIdxList (encFold encProp st props).2 gens).2 decos).2 stF :=
    (encFold_ext encStringIdx encStringIdx_ext bases _).trans hext
  have hextG : Ext (encStringIdxList (encFold encProp st props).2 gens).2 stF :=
    (encFold_ext encDecorator encDecorator_ext decos _).trans hextD
  have hextP : Ext (encFold encProp st props).2 stF :=
    (encFold_ext encStringIdx encStringIdx_ext gens _).trans hextG
  have hidx : ((st.getOffset fq).getD 0) < 2147483648 :=
    getOffset_getD_small ((encFold_ext encProp encProp_ext props
      st).trans hextP) hlen
  have h1 : decodeVarint ((kind :: encodeVarint ((st.getOffset fq).getD 0))
        ++ (encodeVarint props.length ++ (encFold encProp st props).1)
        ++ (encodeVarint gens.length ++ (encStringIdxList (encFold encProp st props).2 gens).1)
        ++ (encodeVarint decos.length ++ (encFold encDecorator (encStringIdxList (encFold encProp st props).2 gens).2 decos).1)
        ++ (encodeVarint bases.length ++ (encStringIdxList (encFold encDecorator (encStringIdxList (encFold encProp st props).2 gens).2 decos).2 bases).1)) 1
      = ⟨((st.getOffset fq).getD 0),
        (encodeVarint ((st.getOffset fq).getD 0)).length + 1⟩ := by
    have h := decodeVarint_at hidx
      (show (kind :: encodeVarint ((st.getOffset fq).getD 0))
        ++ (encodeVarint props.length ++ (encFold encProp st props).1)
        ++ (encodeVarint gens.length ++ (encStringIdxList (encFold encProp st props).2 gens).1)
        ++ (encodeVarint decos.length ++ (encFold encDecorator (encStringIdxList (encFold encProp st props).2 gens).2 decos).1)
        ++ (encodeVarint bases.length ++ (encStringIdxList (encFold encDecorator (encStringIdxList (encFold encProp st props).2 gens).2 decos).2 bases).1)
      = [kind] ++ encodeVarint ((st.getOffset fq).getD 0)
          ++ ((encodeVarint props.length ++ (encFold encProp st props).1)
          ++ ((encodeVarint gens.length ++ (encStringIdxList (encFold encProp st props).2 gens).1)
          ++ ((encodeVarint decos.length ++ (encFold encDecorator (encStringIdxList (encFold encProp st props).2 gens).2 decos).1)
          ++ (encodeVarint bases.length ++ (encStringIdxList (encFold encDecorator (encStringIdxList (encFold encProp st props).2 gens).2 decos).2 bases).1)))) by simp)
    simpa using h
  have h2 := decodeVarint_at hctp
    (show (kind :: encodeVarint ((st.getOffset fq).getD 0))
        ++ (encodeVarint props.length ++ (encFold encProp st props).1)
        ++ (encodeVarint gens.length ++ (encStringIdxList (encFold encProp st props).2 gens).1)
        ++ (encodeVarint decos.length ++ (encFold encDecorator (encStringIdxList (encFold encProp st props).2 gens).2 decos).1)
        ++ (encodeVarint bases.length ++ (encStringIdxList (encFold encDecorator (encStringIdxList (encFold encProp st props).2 gens).2 decos).2 bases).1)
      = (kind :: encodeVarint ((st.getOffset fq).getD 0))
        ++ encodeVarint props.length
        ++ ((encFold encProp st props).1
          ++ ((encodeVarint gens.length ++ (encStringIdxList (encFold encProp st props).2 gens).1)
          ++ ((encodeVarint decos.length ++ (encFold encDecorator (encStringIdxList (encFold encProp st props).2 gens).2 decos).1)
          ++ (encodeVarint bases.length ++ (encStringIdxList (encFold encDecorator (encStringIdxList (encFold encProp st props).2 gens).2 decos).2 bases).1)))) by simp)
  have h3 := decProps_spec props st stF
    ((kind :: encodeVarint ((st.getOffset fq).getD 0))
        ++ (encodeVarint props.length ++ (encFold encProp st props).1)
        ++ (encodeVarint gens.length ++ (encStringIdxList (encFold encProp st props).2 gens).1)
        ++ (encodeVarint decos.length ++ (encFold encDecorator (encStringIdxList (encFold encProp st props).2 gens).2 decos).1)
        ++ (encodeVarint bases.length ++ (encStringIdxList (encFold encDecorator (encStringIdxList (encFold encProp st props).2 gens).2 decos).2 bases).1))
    ((kind :: encodeVarint ((st.getOffset fq).getD 0))
      ++ encodeVarint props.length)
    ((encodeVarint gens.length ++ (encStringIdxList (encFold encProp st props).2 gens).1)
      ++ ((encodeVarint decos.length ++ (encFold encDecorator (encStringIdxList (encFold encProp st props).2 gens).2 decos).1)
      ++ (encodeVarint bases.length ++ (encStringIdxList (encFold encDecorator (encStringIdxList (encFold encProp st props).2 gens).2 decos).2 bases).1)))
    hOKp hextP hlen (by simp)
  have h4 := decodeVarint_at hctg
    (show (kind :: encodeVarint ((st.getOffset fq).getD 0))
        ++ (encodeVarint props.length ++ (encFold encProp st props).1)
        ++ (encodeVarint gens.length ++ (encStringIdxList (encFold encProp st props).2 gens).1)
        ++ (encodeVarint decos.length ++ (encFold encDecorator (encStringIdxList (encFold encProp st props).2 gens).2 decos).1)
        ++ (encodeVarint bases.length ++ (encStringIdxList (encFold encDecorator (encStringIdxList (encFold encProp st props).2 gens).2 decos).2 bases).1)
      = ((kind :: encodeVarint ((st.getOffset fq).getD 0))
        ++ encodeVarint props.length
        ++ (encFold encProp st props).1)
        ++ encodeVarint gens.length
        ++ ((encStringIdxList (encFold encProp st props).2 gens).1
          ++ ((encodeVarint decos.length ++ (encFold encDecorator (encStringIdxList (encFold encProp st props).2 gens).2 decos).1)
          ++ (encodeVarint bases.length ++ (encStringIdxList (encFold encDecorator (encStringIdxList (encFold encProp st props).2 gens).2 decos).2 bases).1))) by simp)
  have h5 := decStringIdxList_spec gens (encFold encProp st props).2 stF
    ((kind :: encodeVarint ((st.getOffset fq).getD 0))
        ++ (encodeVarint props.length ++ (encFold encProp st props).1)
        ++ (encodeVarint gens.length ++ (encStringIdxList (encFold encProp st props).2 gens).1)
        ++ (encodeVarint decos.length ++ (encFold encDecorator (encStringIdxList (encFold encProp st props).2 gens).2 decos).1)
        ++ (encodeVarint bases.length ++ (encStringIdxList (encFold encDecorator (encStringIdxList (encFold encProp st props).2 gens).2 decos).2 bases).1))
    (((kind :: encodeVarint ((st.getOffset fq).getD 0))
        ++ encodeVarint props.length
        ++ (encFold encProp st props).1)
      ++ encodeVarint gens.length)
    ((encodeVarint decos.length ++ (encFold encDecorator (encStringIdxList (encFold encProp st props).2 gens).2 decos).1)
      ++ (encodeVarint bases.length ++ (encStringIdxList (encFold encDecorator (encStringIdxList (encFold encProp st props).2 gens).2 decos).2 bases).1))
    hextG hlen (by simp)
  have h6 := decodeVarint_at hctd
    (show (kind :: encodeVarint ((st.getOffset fq).getD 0))
        ++ (encodeVarint props.length ++ (encFold encProp st props).1)
        ++ (encodeVarint gens.length ++ (encStringIdxList (encFold encProp st props).2 gens).1)
        ++ (encodeVarint decos.length ++ (encFold encDecorator (encStringIdxList (encFold encProp st props).2 gens).2 decos).1)
        ++ (encodeVarint bases.length ++ (encStringIdxList (encFold encDecorator (encStringIdxList (encFold encProp st props).2 gens).2 decos).2 bases).1)
      = (((kind :: encodeVarint ((st.getOffset fq).getD 0))
        ++ encodeVarint props.length
        ++ (encFold encProp st props).1)
        ++ encodeVarint gens.length
        ++ (encStringIdxList (encFold encProp st props).2 gens).1)
        ++ encodeVarint decos.length
        ++ ((encFold encDecorator (encStringIdxList (encFold encProp st props).2 gens).2 decos).1
          ++ (encodeVarint bases.length ++ (encStringIdxList (encFold encDecorator (encStringIdxList (encFold encProp st props).2 gens).2 decos).2 bases).1)) by simp)
  have h7 := decDecorators_spec decos (encStringIdxList (encFold encProp st props).2 gens).2 stF
    ((kind :: encodeVarint ((st.getOffset fq).getD 0))
        ++ (encodeVarint props.length ++ (encFold encProp st props).1)
        ++ (encodeVarint gens.length ++ (encStringIdxList (encFold encProp st props).2 gens).1)
        ++ (encodeVarint decos.length ++ (encFold encDecorator (encStringIdxList (encFold encProp st props).2 gens).2 decos).1)
        ++ (encodeVarint bases.length ++ (encStringIdxList (encFold encDecorator (encStringIdxList (encFold encProp st props).2 gens).2 decos).2 bases).1))
    ((((kind :: encodeVarint ((st.getOffset fq).getD 0))
        ++ encodeVarint props.length
        ++ (encFold encProp st props).1)
        ++ encodeVarint gens.length
        ++ (encStringIdxList (encFold encProp st props).2 gens).1)
      ++ encodeVarint decos.length)
    (encodeVarint bases.length ++ (encStringIdxList (encFold encDecorator (encStringIdxList (encFold encProp st props).2 gens).2 decos).2 bases).1)
    hOKd hextD hlen (by simp)
  have h8 := decodeVarint_at hctb
    (show (kind :: encodeVarint ((st.getOffset fq).getD 0))
        ++ (encodeVarint props.length ++ (encFold encProp st props).1)
        ++ (encodeVarint gens.length ++ (encStringIdxList (encFold encProp st props).2 gens).1)
        ++ (encodeVarint decos.length ++ (encFold encDecorator (encStringIdxList (encFold encProp st props).2 gens).2 decos).1)
        ++ (encodeVarint bases.length ++ (encStringIdxList (encFold encDecorator (encStringIdxList (encFold encProp st props).2 gens).2 decos).2 bases).1)
      = ((((kind :: encodeVarint ((st.getOffset fq).getD 0))
        ++ encodeVarint props.length
        ++ (encFold encProp st props).1)
        ++ encodeVarint gens.length
        ++ (encStringIdxList (encFold encProp st props).2 gens).1)
        ++ encodeVarint decos.length
        ++ (encFold encDecorator (encStringIdxList (encFold encProp st props).2 gens).2 decos).1)
        ++ encodeVarint bases.length
        ++ ((encStringIdxList (encFold encDecorator (encStringIdxList (encFold encProp st props).2 gens).2 decos).2 bases).1 ++ []) by simp)
  have h9 := decStringIdxList_spec bases (encFold encDecorator (encStringIdxList (encFold encProp st props).2 gens).2 decos).2 stF
    ((kind :: encodeVarint ((st.getOffset fq).getD 0))
        ++ (encodeVarint props.length ++ (encFold encProp st props).1)
        ++ (encodeVarint gens.length ++ (encStringIdxList (encFold encProp st props).2 gens).1)
        ++ (encodeVarint decos.length ++ (encFold encDecorator (encStringIdxList (encFold encProp st props).2 gens).2 decos).1)
        ++ (encodeVarint bases.length ++ (encStringIdxList (encFold encDecorator (encStringIdxList (encFold encProp st props).2 gens).2 decos).2 bases).1))
    (((((kind :: encodeVarint ((st.getOffset fq).getD 0))
        ++ encodeVarint props.length
        ++ (encFold encProp st props).1)
        ++ encodeVarint gens.length
        ++ (encStringIdxList (encFold encProp st props).2 gens).1)
        ++ encodeVarint decos.length
        ++ (encFold encDecorator (encStringIdxList (encFold encProp st props).2 gens).2 decos).1)
      ++ encodeVarint bases.length)
    [] hext hlen (by simp)
  simp only [List.cons_append, List.append_nil, List.length_cons,
    List.length_append] at h1 h2 h3 h4 h5 h6 h7 h8 h9 ⊢
  unfold decodeRTTIEntry
  simp only [List.getD_cons_zero]
  rcases hkind with hk | hk
  all_goals subst hk
  · rw [if_neg (show ¬ REF_CLASS = REF_PRIMITIVE by decide),
      if_pos (show REF_CLASS = REF_CLASS ∨ REF_CLASS = REF_OBJECT
        from Or.inl rfl)]
    rw [h1]
    simp only []
    rw [h2]
    simp only []
    rw [h3]
    simp only []
    rw [h4]
    simp only []
    rw [h5]
    simp only []
    rw [h6]
    simp only []
    rw [h7]
    simp only []
    rw [h8]
    simp only []
    rw [h9]
  · rw [if_neg (show ¬ REF_OBJECT = REF_PRIMITIVE by decide),
      if_pos (show REF_OBJECT = REF_CLASS ∨ REF_OBJECT = REF_OBJECT
        from Or.inr rfl)]
    rw [h1]
    simp only []
    rw [h2]
    simp only []
    rw [h3]
    simp only []
    rw [h4]
    simp only []
    rw [h5]
    simp only []
    rw [h6]
    simp only []
    rw [h7]
    simp only []
    rw [h8]
    simp only []
    rw [h9]

/-- Master round trip: decoding the serializer's bytes through any table
extending the serializer's post-state reconstructs the record's payload
(`expectedDecode`). -/
theorem serializeMetadata_roundtrip (meta : RTTIMetadata)
    (st stF : StringTable) (hk : kindOK meta = true)
    (hd : dataOK meta = true)
    (hext : Ext (serializeMetadata st meta).2 stF)
    (hlen : stF.length < 2147483648) :
    decodeRTTIEntry (serializeMetadata st meta).1 stF.resolve
      = expectedDecode meta := by
  obtain ⟨fq, kind, data⟩ := meta
  rcases data with t | ⟨props, gens, decos, bases⟩
    | ⟨params, ret, gens, decos⟩ | ms | ms | ⟨kN, kC, vT⟩ | ⟨c, e, t, f⟩
  · simp only [kindOK, decide_eq_true_eq] at hk
    subst hk
    simp only [dataOK, decide_eq_true_eq] at hd
    simp only [serializeMetadata_prim] at hext
    simp only [expectedDecode]
    exact roundtrip_prim st stF fq t hd hext hlen
  · simp only [kindOK, decide_eq_true_eq, Bool.or_eq_true] at hk
    simp only [dataOK, Bool.and_eq_true, decide_eq_true_eq] at hd
    simp only [serializeMetadata_classLike] at hext
    simp only [expectedDecode]
    exact roundtrip_classLike st stF fq kind props gens decos bases
      (by rcases hk with h | h
          · exact Or.inl (by simpa using h)
          · exact Or.inr (by simpa using h))
      hd.1.1.1.1.1 hd.1.1.1.1.2 hd.1.1.1.2 hd.1.1.2 hd.1.2 hd.2 hext hlen
  · simp only [kindOK, decide_eq_true_eq] at hk
    subst hk
    simp only [dataOK, Bool.and_eq_true, decide_eq_true_eq] at hd
    simp only [serializeMetadata_func] at hext
    simp only [expectedDecode]
    exact roundtrip_func st stF fq ret params gens decos
      hd.1.1.1.1.1 hd.1.1.1.1.2 hd.1.1.1.2 hd.1.1.2 hd.1.2 hd.2 hext hlen
  · simp only [kindOK, decide_eq_true_eq] at hk
    subst hk
    simp only [dataOK, Bool.and_eq_true, decide_eq_true_eq] at hd
    simp only [serializeMetadata_enum] at hext
    simp only [expectedDecode]
    exact roundtrip_enum st stF fq ms hd.1 hd.2 hext hlen
  · simp only [kindOK, decide_eq_true_eq, Bool.or_eq_true] at hk
    simp only [dataOK, decide_eq_true_eq] at hd
    simp only [serializeMetadata_members] at hext
    simp only [expectedDecode]
    exact roundtrip_members st stF fq kind ms
      (by rcases hk with h | h
          · exact Or.inl (by simpa using h)
          · exact Or.inr (by simpa using h))
      hd hext hlen
  · simp only [kindOK, decide_eq_true_eq] at hk
    subst hk
    simp only [serializeMetadata_mapped] at hext
    simp only [expectedDecode]
    exact roundtrip_mapped st stF fq kN kC vT hext hlen
  · simp only [kindOK, decide_eq_true_eq] at hk
    subst hk
    simp only [serializeMetadata_cond] at hext
    simp only [expectedDecode]
    exact roundtrip_cond st stF fq c e t f hext hlen

end Framing

/-! ## Container builder

`src/tools/compiler.ts` lines 693-716: assemble header, string table,
index and lz4-compressed heap into one buffer.  The lz4 library is an
external collaborator; it enters the model as an explicit `compress` /
`decompress` function pair. -/

/-- `Buffer.readUInt32LE`. -/
def readUInt32LE (buf : List Nat) (i : Nat) : Nat :=
  buf.getD i 0 + buf.getD (i + 1) 0 * 256 + buf.getD (i + 2) 0 * 65536
    + buf.getD (i + 3) 0 * 16777216

/-- `Buffer.readUInt16LE`. -/
def readUInt16LE (buf : List Nat) (i : Nat) : Nat :=
  buf.getD i 0 + buf.getD (i + 1) 0 * 256

/-- `buf.subarray(a, b)` (clamping, like JS). -/
def jsSub (buf : List Nat) (a b : Nat) : List Nat :=
  (buf.take b).drop a

/-- The container bytes written by the build (`src/tools/compiler.ts`
lines 699-713): 32-byte header (magic, version, bitmap `0x0001`, three
section sizes, zero padding), then string table, index, compressed heap. -/
def buildContainer (compress : List Nat → List Nat)
    (s : SerializerState) : List Nat :=
  let sections := buildBinarySections s
  let compressedHeap := compress sections.heapBuffer
  writeUInt32LE META_MAGIC ++ writeUInt16LE PROTOCOL_VERSION
    ++ writeUInt16LE 1
    ++ writeUInt32LE sections.stringTableBuffer.length
    ++ writeUInt32LE sections.indexBuffer.length
    ++ writeUInt32LE compressedHeap.length
    ++ [0, 0, 0, 0, 0, 0, 0, 0, 0, 0, 0, 0]
    ++ sections.stringTableBuffer ++ sections.indexBuffer ++ compressedHeap

/-! ## Container reader (Store)

`MetadataStore` from `src/unnamed/part_008` lines 18-98 (the identical
variant sits in `src/lib/hydrator.ts` lines 110-190).  `load` parses the
header fields but compares none of them against `META_MAGIC` or
`PROTOCOL_VERSION`; it proceeds straight to section parsing. -/

/-- `MetadataHeader` (`src/unnamed/part_008` lines 6-13). -/
structure MetadataHeader where
  magic : Nat
  version : Nat
  bitmap : Nat
  stringTableSize : Nat
  indexTableSize : Nat
  heapSize : Nat
deriving DecidableEq, Repr

/-- Store state after `load`. -/
structure MetadataStore where
  header : MetadataHeader
  strings : List String
  index : List IndexEntry
  heap : List Nat
deriving DecidableEq, Repr

/-- `stringTableBuf.indexOf(0, pos)`, with the source's fallback to the
buffer length when no NUL remains. -/
def findNulFrom (buf : List Nat) (pos : Nat) : Nat :=
  match (buf.drop pos).findIdx? (fun b => b = 0) with
  | some k => pos + k
  | none => buf.length

theorem findNulFrom_ge (buf : List Nat) (pos : Nat) (h : pos < buf.length) :
    pos ≤ findNulFrom buf pos := by
  unfold findNulFrom
  split
  · omega
  · omega

/-- The string-table parse loop (`src/unnamed/part_008` lines 46-52):
split on NUL bytes, decoding each run. -/
def parseStringsFrom (buf : List Nat) (pos : Nat) : List String :=
  if h : pos < buf.length then
    let e := findNulFrom buf pos
    bytesToStr ((buf.take e).drop pos) :: parseStringsFrom buf (e + 1)
  else []
termination_by buf.length + 1 - pos
decreasing_by
  have := findNulFrom_ge buf pos h
  omega

/-- The index parse loop (`src/unnamed/part_008` lines 54-62): 24-byte
entries, fields at offsets 0, 8, 12, 16. -/
def parseIndexFrom (buf : List Nat) (i : Nat) : List IndexEntry :=
  if h : i < buf.length then
    ⟨readUInt32LE buf i, readUInt32LE buf (i + 8), readUInt32LE buf (i + 12),
      readUInt32LE buf (i + 16)⟩ :: parseIndexFrom buf (i + 24)
  else []
termination_by buf.length - i
decreasing_by omega

/-- Structural twin of `parseStringsFrom` on an iteration bound (each pass
consumes at least one byte); equal to the loop whenever the bound covers
the buffer, which `MetadataStore.load` always arranges. -/
def parseStringsFuel (buf : List Nat) : Nat → Nat → List String
  | 0, _pos => []
  | fuel + 1, pos =>
    if pos < buf.length then
      bytesToStr ((buf.take (findNulFrom buf pos)).drop pos)
        :: parseStringsFuel buf fuel (findNulFrom buf pos + 1)
    else []

theorem parseStringsFuel_eq (buf : List Nat) : ∀ (fuel pos : Nat),
    buf.length + 1 ≤ fuel + pos →
    parseStringsFuel buf fuel pos = parseStringsFrom buf pos := by
  intro fuel
  induction fuel with
  | zero =>
    intro pos h
    rw [parseStringsFuel, parseStringsFrom]
    rw [dif_neg (by omega)]
  | succ fuel ih =>
    intro pos h
    rw [parseStringsFuel, parseStringsFrom]
    by_cases hp : pos < buf.length
    · rw [if_pos hp, dif_pos hp]
      have he := findNulFrom_ge buf pos hp
      rw [ih (findNulFrom buf pos + 1) (by omega)]
    · rw [if_neg hp, dif_neg hp]

attribute [irreducible] parseStringsFuel

/-- Structural twin of `parseIndexFrom` on an iteration bound. -/
def parseIndexFuel (buf : List Nat) : Nat → Nat → List IndexEntry
  | 0, _i => []
  | fuel + 1, i =>
    if i < buf.length then
      ⟨readUInt32LE buf i, readUInt32LE buf (i + 8),
        readUInt32LE buf (i + 12), readUInt32LE buf (i + 16)⟩
        :: parseIndexFuel buf fuel (i + 24)
    else []

theorem parseIndexFuel_eq (buf : List Nat) : ∀ (fuel i : Nat),
    buf.length ≤ fuel + i →
    parseIndexFuel buf fuel i = parseIndexFrom buf i := by
  intro fuel
  induction fuel with
  | zero =>
    intro i h
    rw [parseIndexFuel, parseIndexFrom]
    rw [dif_neg (by omega)]
  | succ fuel ih =>
    intro i h
    rw [parseIndexFuel, parseIndexFrom]
    by_cases hp : i < buf.length
    · rw [if_pos hp, dif_pos hp]
      rw [ih (i + 24) (by omega)]
    · rw [if_neg hp, dif_neg hp]

attribute [irreducible] parseIndexFuel

/-- `MetadataStore.load` (`src/unnamed/part_008` lines 24-63): read the
header fields, slice the three sections by the header's sizes, decompress
the heap, parse strings and index.  No magic or version comparison is
made anywhere on this path. -/
def MetadataStore.load (decompress : List Nat → List Nat)
    (buf : List Nat) : MetadataStore :=
  let header : MetadataHeader :=
    { magic := readUInt32LE buf 0
      version := readUInt16LE buf 4
      bitmap := readUInt16LE buf 6
      stringTableSize := readUInt32LE buf 8
      indexTableSize := readUInt32LE buf 12
      heapSize := readUInt32LE buf 16 }
  let stringTableBuf := jsSub buf 32 (32 + header.stringTableSize)
  let indexBuf := jsSub buf (32 + header.stringTableSize)
    (32 + header.stringTableSize + header.indexTableSize)
  let compressedHeap := jsSub buf
    (32 + header.stringTableSize + header.indexTableSize)
    (32 + header.stringTableSize + header.indexTableSize + header.heapSize)
  { header := header
    strings := parseStringsFuel stringTableBuf (stringTableBuf.length + 1) 0
    index := parseIndexFuel indexBuf indexBuf.length 0
    heap := decompress compressedHeap }

/-- `MetadataStore.getEntryByName` (`src/unnamed/part_008` lines 65-69):
index of the name in the string table, then the first index entry whose
`stringOffset` equals it. -/
def MetadataStore.getEntryByName (store : MetadataStore) (name : String) :
    Option IndexEntry :=
  if name ∈ store.strings then
    store.index.find? (fun e => e.stringOffset == store.strings.indexOf name)
  else none

/-- `MetadataStore.getEntryByHash` (`src/unnamed/part_008` lines 71-73):
the first index entry carrying the queried hash. -/
def MetadataStore.getEntryByHash (store : MetadataStore) (hash : Nat) :
    Option IndexEntry :=
  store.index.find? (fun e => e.hash == hash)

/-- `MetadataStore.getMetadataBuffer` (`src/unnamed/part_008` lines
75-80): the heap slice `[dataOffset, dataOffset + dataLength)`. -/
def MetadataStore.getMetadataBuffer (store : MetadataStore)
    (e : IndexEntry) : List Nat :=
  jsSub store.heap e.dataOffset (e.dataOffset + e.dataLength)

/-- The fully-qualified-name index stored inside an encoded record: the
varint following the kind byte.  `decodeRTTIEntry` skips it; resolving it
through the store's table is how the record's own name is read back. -/
def recordOwnName (store : MetadataStore) (bytes : List Nat) : String :=
  StringTable.resolve store.strings (decodeVarint bytes 1).value

/-! ## Incremental cache step

`src/tools/compiler.ts` lines 653-668: per extracted record, compare the
content hash against `cache.types[fqName]`; on a hit push the cached
record, otherwise overwrite the entry and push the fresh record.
`hashType` (sha1 of the record's JSON, line 20-23) enters the model as an
explicit fingerprint function. -/

/-- One `cache.types` entry: `{ fqName, hash, meta }`. -/
structure TypeCacheEntry where
  hash : Nat
  meta : RTTIMetadata
deriving DecidableEq, Repr

/-- JS object property lookup (first matching key). -/
def assocGet (m : List (String × TypeCacheEntry)) (k : String) :
    Option TypeCacheEntry :=
  (m.find? (fun p => p.1 == k)).map (fun p => p.2)

/-- JS object property assignment: overwrite in place, else append. -/
def assocSet (m : List (String × TypeCacheEntry)) (k : String)
    (v : TypeCacheEntry) : List (String × TypeCacheEntry) :=
  if (m.find? (fun p => p.1 == k)).isSome then
    m.map (fun p => if p.1 == k then (k, v) else p)
  else m ++ [(k, v)]

/-- Lines 653-668 for one extracted record. -/
def cacheStep (hashType : RTTIMetadata → Nat)
    (types : List (String × TypeCacheEntry)) (meta : RTTIMetadata) :
    List (String × TypeCacheEntry) × RTTIMetadata :=
  let typeHash := hashType meta
  match assocGet types meta.fqName with
  | some cached =>
    if cached.hash = typeHash then (types, cached.meta)
    else (assocSet types meta.fqName ⟨typeHash, meta⟩, meta)
  | none => (assocSet types meta.fqName ⟨typeHash, meta⟩, meta)

/-- The per-file extraction loop's cache interaction: thread `cacheStep`
over the records extracted this pass, collecting `allTypes`. -/
def cachePass (hashType : RTTIMetadata → Nat)
    (types : List (String × TypeCacheEntry)) :
    List RTTIMetadata → List (String × TypeCacheEntry) × List RTTIMetadata
  | [] => (types, [])
  | meta :: rest =>
    let (types1, pushed) := cacheStep hashType types meta
    let (types2, pushedRest) := cachePass hashType types1 rest
    (types2, pushed :: pushedRest)

/-- The serialization loop (`src/tools/compiler.ts` lines 688-692): every
record in `allTypes` goes through `addType`, unconditionally. -/
def serializeAll (metas : List RTTIMetadata) : SerializerState :=
  metas.foldl addType SerializerState.init

/-! ## Build output file operations

`src/tools/compiler.ts` lines 708-716: the container is written directly
to `metadata.bin` with one `writeFile`, then the cache file is written.
No temporary path and no rename are involved. -/

/-- A file-system operation performed by the build's output phase. -/
inductive FsOp where
  | write (path : String) (data : List Nat)
  | rename (src dst : String)
deriving DecidableEq, Repr

/-- The build's output phase as the sequence of file-system operations it
performs (`fs.promises.writeFile` at line 715, `fs.writeFileSync` at line
716). -/
def buildOutputOps (compress : List Nat → List Nat) (s : SerializerState)
    (cacheBytes : List Nat) : List FsOp :=
  [.write "metadata.bin" (buildContainer compress s),
   .write "metadata.cache" cacheBytes]

/-- Atomic replacement as the spec demands it: the final path is never the
direct target of a write, and the bytes arrive by renaming a temporary
file into place. -/
def atomicReplace (ops : List FsOp) (finalPath : String) : Prop :=
  (∀ op ∈ ops, ∀ data, op ≠ FsOp.write finalPath data)
    ∧ ∃ tmp, tmp ≠ finalPath ∧ FsOp.rename tmp finalPath ∈ ops

/-! ## Interner harness

Repeated use of `StringTable.add` (`src/tools/protocol.ts` lines 51-74) as
one build performs it: `internN` interns one value N times collecting the
returned indices; `internAll` threads a whole insertion sequence. -/

/-- Intern the same string `n` times, collecting the handed-out indices. -/
def internN (st : StringTable) (s : String) : Nat → List Nat × StringTable
  | 0 => ([], st)
  | n + 1 =>
    let (i, st1) := st.add s
    let (rest, st2) := internN st1 s n
    (i :: rest, st2)

/-- Intern a sequence of strings left to right. -/
def internAll (st : StringTable) : List String → StringTable
  | [] => st
  | s :: rest => internAll (st.add s).2 rest

/-- A second `add` of the same string returns the same index and leaves the
table untouched. -/
theorem StringTable.add_idem (st : StringTable) (s : String) :
    (st.add s).2.add s = ((st.add s).1, (st.add s).2) := by
  unfold StringTable.add
  by_cases hmem : s ∈ st
  · simp [hmem]
  · simp only [if_neg hmem]
    have hmem2 : s ∈ st ++ [s] := by simp
    rw [if_pos hmem2]
    have hidx : (st ++ [s]).indexOf s = st.length := by
      rw [List.indexOf_append_of_not_mem hmem]
      simp [List.indexOf_cons_self]
    simp [hidx]

/-- `add` preserves duplicate-freeness of the table. -/
theorem StringTable.add_nodup {st : StringTable} (h : st.Nodup)
    (s : String) : (st.add s).2.Nodup := by
  unfold StringTable.add
  by_cases hmem : s ∈ st
  · simpa [hmem]
  · simp only [if_neg hmem]
    simpa using List.Nodup.append h (List.nodup_singleton s)
      (by simpa using hmem)

/-- Step equation of `internN` with the scrutinees pulled out. -/
theorem internN_succ (st : StringTable) (s : String) (n : Nat) :
    internN st s (n + 1)
      = ((StringTable.add st s).1
          :: (internN (StringTable.add st s).2 s n).1,
         (internN (StringTable.add st s).2 s n).2) := by
  show (match StringTable.add st s with
    | (i, st1) =>
      match internN st1 s n with
      | (rest, st2) => (i :: rest, st2)) = _
  rcases StringTable.add st s with ⟨a, st1⟩
  simp only []

theorem internAll_nodup {st : StringTable} (h : st.Nodup) :
    ∀ l : List String, (internAll st l).Nodup := by
  intro l
  induction l generalizing st with
  | nil => exact h
  | cons s rest ih => exact ih (StringTable.add_nodup h s)

/-! ## Cache-step and serializer-loop facts shared by the claims -/

theorem find?_map_overwrite (m : List (String × TypeCacheEntry))
    (k k' : String) (v : TypeCacheEntry) (h : k' ≠ k) :
    (m.map (fun p => if p.1 == k then (k, v) else p)).find?
        (fun p => p.1 == k')
      = m.find? (fun p => p.1 == k') := by
  induction m with
  | nil => rfl
  | cons p rest ih =>
    simp only [List.map_cons]
    by_cases hpk : p.1 = k
    · have h1 : (p.1 == k) = true := by simp [hpk]
      have h2 : (p.1 == k') = false := by simp [hpk, Ne.symm h]
      have h3 : ((k, v).1 == k') = false := by simp [Ne.symm h]
      rw [if_pos h1, List.find?_cons_of_neg _ (by simp [h3]),
        List.find?_cons_of_neg _ (by simp [h2]), ih]
    · have h1 : (p.1 == k) = false := by simp [hpk]
      rw [if_neg (by simp [h1])]
      by_cases hpk' : p.1 = k'
      · rw [List.find?_cons_of_pos _ (by simp [hpk']),
          List.find?_cons_of_pos _ (by simp [hpk'])]
      · rw [List.find?_cons_of_neg _ (by simp [hpk']),
          List.find?_cons_of_neg _ (by simp [hpk']), ih]

theorem find?_append_single (m : List (String × TypeCacheEntry))
    (k k' : String) (v : TypeCacheEntry) (h : k' ≠ k) :
    ((m ++ [(k, v)]).find? (fun p => p.1 == k'))
      = m.find? (fun p => p.1 == k') := by
  induction m with
  | nil =>
    simp only [List.nil_append]
    rw [List.find?_cons_of_neg _ (by simp [Ne.symm h])]
  | cons p rest ih =>
    by_cases hpk' : p.1 = k'
    · rw [List.cons_append, List.find?_cons_of_pos _ (by simp [hpk']),
        List.find?_cons_of_pos _ (by simp [hpk'])]
    · rw [List.cons_append, List.find?_cons_of_neg _ (by simp [hpk']),
        List.find?_cons_of_neg _ (by simp [hpk']), ih]

/-- Writing cache key `k` leaves every other key's entry unchanged. -/
theorem assocGet_assocSet_ne (m : List (String × TypeCacheEntry))
    (k k' : String) (v : TypeCacheEntry) (h : k' ≠ k) :
    assocGet (assocSet m k v) k' = assocGet m k' := by
  unfold assocGet assocSet
  split
  · rw [find?_map_overwrite m k k' v h]
  · rw [find?_append_single m k k' v h]

/-- The serializer loop appends one heap record per registered type. -/
theorem serializeAll_heap_length :
    ∀ (metas : List RTTIMetadata) (s : SerializerState),
      (metas.foldl addType s).heapBuffers.length
        = s.heapBuffers.length + metas.length := by
  intro metas
  induction metas with
  | nil => intro s; simp
  | cons m rest ih =>
    intro s
    rw [List.foldl_cons, ih]
    have hstep : (addType s m).heapBuffers.length
        = s.heapBuffers.length + 1 := by
      unfold addType
      simp
    rw [hstep, List.length_cons]
    omega

/-- Step equation of `cachePass` with the scrutinees pulled out. -/
theorem cachePass_cons (hashType : RTTIMetadata → Nat)
    (types : List (String × TypeCacheEntry)) (m : RTTIMetadata)
    (rest : List RTTIMetadata) :
    cachePass hashType types (m :: rest)
      = ((cachePass hashType (cacheStep hashType types m).1 rest).1,
         (cacheStep hashType types m).2
           :: (cachePass hashType (cacheStep hashType types m).1 rest).2) := by
  show (match cacheStep hashType types m with
    | (types1, pushed) =>
      match cachePass hashType types1 rest with
      | (types2, pushedRest) => (types2, pushed :: pushedRest)) = _
  rcases cacheStep hashType types m with ⟨t1, p⟩
  simp only []

/-- A pass in which every record's stored hash matches returns the cache
unchanged. -/
theorem cachePass_all_hits (hashType : RTTIMetadata → Nat) :
    ∀ (metas : List RTTIMetadata) (types : List (String × TypeCacheEntry)),
      (∀ m ∈ metas, ∃ c, assocGet types m.fqName = some c
          ∧ c.hash = hashType m) →
      (cachePass hashType types metas).1 = types := by
  intro metas
  induction metas with
  | nil => intro types _; rfl
  | cons m rest ih =>
    intro types hall
    obtain ⟨c, hc, hh⟩ := hall m (by simp)
    have hstep : cacheStep hashType types m = (types, c.meta) := by
      unfold cacheStep
      rw [hc]
      simp only []
      rw [if_pos hh]
    rw [cachePass_cons, hstep]
    simp only []
    exact ih types (fun mm hmm => hall mm (by simp [hmm]))

/-! ## Build-and-load pipeline facts

Everything the name/hash lookup claims need: a closed form for `addType`,
the shape of every serialized record, round-trips for the container
builder's three sections, and a per-position characterization of the
serializer state after a build. -/

theorem fnv1aStep_lt (h c : Nat) : fnv1aStep h c < 4294967296 :=
  Nat.mod_lt _ (by norm_num)

/-- `fnv1aHash` always fits an unsigned 32-bit field. -/
theorem fnv1aHash_lt (s : String) : fnv1aHash s < 4294967296 := by
  unfold fnv1aHash
  have key : ∀ (l : List Nat) (a : Nat), a < 4294967296 →
      l.foldl fnv1aStep a < 4294967296 := by
    intro l
    induction l with
    | nil => intro a ha; simpa using ha
    | cons b rest ih =>
      intro a ha
      rw [List.foldl_cons]
      exact ih _ (fnv1aStep_lt a b)
  exact key _ _ (by norm_num)

/-- After `add`, `getOffset` of the same string returns exactly the index
`add` handed out. -/
theorem getOffset_after_add (st : StringTable) (s : String) :
    StringTable.getOffset (StringTable.add st s).2 s
      = some (StringTable.add st s).1 := by
  unfold StringTable.add StringTable.getOffset
  by_cases hmem : s ∈ st
  · simp [hmem]
  · simp only [if_neg hmem]
    have hmem2 : s ∈ st ++ [s] := by simp
    rw [if_pos hmem2]
    have hidx : (st ++ [s]).indexOf s = st.length := by
      rw [List.indexOf_append_of_not_mem hmem]
      simp [List.indexOf_cons_self]
    simp [hidx]

/-- `add` preserves duplicate-freeness (same fact as for the interner
harness, stated on the serializer's table). -/
theorem foldl_addType_nodup {st : StringTable} (h : st.Nodup) (s : String) :
    (StringTable.add st s).2.Nodup := by
  unfold StringTable.add
  by_cases hmem : s ∈ st
  · simpa [hmem]
  · simp only [if_neg hmem]
    simpa using List.Nodup.append h (List.nodup_singleton s)
      (by simpa using hmem)

/-- Closed form of one `addType` call. -/
theorem addType_eq (s : SerializerState) (m : RTTIMetadata) :
    addType s m
      = { stringTable :=
            (serializeMetadata (StringTable.add s.stringTable m.fqName).2 m).2
          index := s.index ++ [⟨fnv1aHash m.fqName,
            (StringTable.add s.stringTable m.fqName).1,
            s.currentHeapOffset,
            (serializeMetadata
              (StringTable.add s.stringTable m.fqName).2 m).1.length⟩]
          heapBuffers := s.heapBuffers
            ++ [(serializeMetadata
                  (StringTable.add s.stringTable m.fqName).2 m).1]
          currentHeapOffset := s.currentHeapOffset
            + (serializeMetadata
                (StringTable.add s.stringTable m.fqName).2 m).1.length } := by
  show (let (stringOffset, st1) := s.stringTable.add m.fqName
    let hash := fnv1aHash m.fqName
    let (heapBuffer, st2) := serializeMetadata st1 m
    ({ stringTable := st2
       index := s.index ++ [(⟨hash, stringOffset, s.currentHeapOffset,
         heapBuffer.length⟩ : IndexEntry)]
       heapBuffers := s.heapBuffers ++ [heapBuffer]
       currentHeapOffset := s.currentHeapOffset + heapBuffer.length }
      : SerializerState)) = _
  rcases StringTable.add s.stringTable m.fqName with ⟨so, st1⟩
  simp only []

/-- Every serialized record is its kind byte, then the interned-name
varint, then a kind-specific payload. -/
theorem serializeMetadata_shape (st : StringTable) (meta : RTTIMetadata) :
    ∃ payload : List Nat,
      (serializeMetadata st meta).1
        = meta.kind :: (encodeVarint ((StringTable.getOffset st
            meta.fqName).getD 0) ++ payload) := by
  obtain ⟨fq, kind, data⟩ := meta
  cases data with
  | prim t =>
    exact ⟨encodeVarint t, by rw [serializeMetadata_prim]; simp⟩
  | classLike props gens decos bases =>
    refine ⟨(encodeVarint props.length ++ (encFold encProp st props).1)
      ++ (encodeVarint gens.length
        ++ (encStringIdxList (encFold encProp st props).2 gens).1)
      ++ (encodeVarint decos.length
        ++ (encFold encDecorator
          (encStringIdxList (encFold encProp st props).2 gens).2 decos).1)
      ++ (encodeVarint bases.length
        ++ (encStringIdxList (encFold encDecorator
          (encStringIdxList (encFold encProp st props).2 gens).2
          decos).2 bases).1), ?_⟩
    rw [serializeMetadata_classLike]
    simp
  | func params ret gens decos =>
    refine ⟨(encodeVarint params.length
        ++ (encFold encParameter st params).1)
      ++ encodeVarint ret
      ++ (encodeVarint gens.length
        ++ (encStringIdxList (encFold encParameter st params).2 gens).1)
      ++ (encodeVarint decos.length
        ++ (encFold encDecorator
          (encStringIdxList (encFold encParameter st params).2 gens).2
          decos).1), ?_⟩
    rw [serializeMetadata_func]
    simp
  | enum ms =>
    refine ⟨encodeVarint ms.length ++ (encFold encEnumMember st ms).1, ?_⟩
    rw [serializeMetadata_enum]
    simp
  | members ms =>
    refine ⟨encodeVarint ms.length ++ (encStringIdxList st ms).1, ?_⟩
    rw [serializeMetadata_members]
    simp
  | mapped kN kC vT =>
    refine ⟨encodeVarint (StringTable.add st kN).1
      ++ encodeVarint ((StringTable.add st kN).2.add vT).1, ?_⟩
    rw [serializeMetadata_mapped]
    simp
  | cond c e t f =>
    refine ⟨encodeVarint (StringTable.add st c).1
      ++ encodeVarint ((StringTable.add st c).2.add e).1
      ++ encodeVarint (((StringTable.add st c).2.add e).2.add t).1
      ++ encodeVarint ((((StringTable.add st c).2.add e).2.add t).2.add f).1,
      ?_⟩
    rw [serializeMetadata_cond]
    simp

/-- The string table only grows across `addType`. -/
theorem addType_ext (s : SerializerState) (m : RTTIMetadata) :
    Ext s.stringTable (addType s m).stringTable := by
  rw [addType_eq]
  exact Ext.trans (StringTable.add_ext _ _) (serializeMetadata_ext _ _)

theorem foldl_addType_ext (metas : List RTTIMetadata) :
    ∀ s0 : SerializerState,
      Ext s0.stringTable (metas.foldl addType s0).stringTable := by
  induction metas with
  | nil => intro s0; exact Ext.rfl
  | cons m rest ih =>
    intro s0
    rw [List.foldl_cons]
    exact Ext.trans (addType_ext s0 m) (ih (addType s0 m))

theorem foldl_addType_index_length (metas : List RTTIMetadata) :
    ∀ s0 : SerializerState,
      (metas.foldl addType s0).index.length
        = s0.index.length + metas.length := by
  induction metas with
  | nil => intro s0; simp
  | cons m rest ih =>
    intro s0
    rw [List.foldl_cons, ih, addType_eq]
    simp
    omega

theorem foldl_addType_heap_length' (metas : List RTTIMetadata) :
    ∀ s0 : SerializerState,
      (metas.foldl addType s0).heapBuffers.length
        = s0.heapBuffers.length + metas.length := by
  intro s0
  exact serializeAll_heap_length metas s0

theorem foldl_addType_index_prefix (metas : List RTTIMetadata) :
    ∀ s0 : SerializerState, ∃ extra,
      (metas.foldl addType s0).index = s0.index ++ extra := by
  induction metas with
  | nil => intro s0; exact ⟨[], by simp⟩
  | cons m rest ih =>
    intro s0
    obtain ⟨e2, he2⟩ := ih (addType s0 m)
    rw [List.foldl_cons, he2, addType_eq]
    exact ⟨(⟨fnv1aHash m.fqName, (StringTable.add s0.stringTable m.fqName).1,
      s0.currentHeapOffset,
      (serializeMetadata (StringTable.add s0.stringTable m.fqName).2
        m).1.length⟩ : IndexEntry) :: e2, by simp⟩

theorem foldl_addType_heap_prefix (metas : List RTTIMetadata) :
    ∀ s0 : SerializerState, ∃ extra,
      (metas.foldl addType s0).heapBuffers = s0.heapBuffers ++ extra := by
  induction metas with
  | nil => intro s0; exact ⟨[], by simp⟩
  | cons m rest ih =>
    intro s0
    obtain ⟨e2, he2⟩ := ih (addType s0 m)
    rw [List.foldl_cons, he2, addType_eq]
    exact ⟨(serializeMetadata (StringTable.add s0.stringTable m.fqName).2
      m).1 :: e2, by simp⟩

/-- `readUInt32LE` of an embedded `writeUInt32LE` recovers the value. -/
theorem readUInt32LE_write_at (v : Nat) (buf pre post : List Nat)
    (hv : v < 4294967296)
    (hbuf : buf = pre ++ writeUInt32LE v ++ post) :
    readUInt32LE buf pre.length = v := by
  have hb0 : buf.getD pre.length 0 = (writeUInt32LE v).getD 0 0 := by
    have h := getD_frame buf pre (writeUInt32LE v) post 0 0 hbuf (by
      simp [writeUInt32LE])
    simpa using h
  have hb1 := getD_frame buf pre (writeUInt32LE v) post 1 0 hbuf (by
    simp [writeUInt32LE])
  have hb2 := getD_frame buf pre (writeUInt32LE v) post 2 0 hbuf (by
    simp [writeUInt32LE])
  have hb3 := getD_frame buf pre (writeUInt32LE v) post 3 0 hbuf (by
    simp [writeUInt32LE])
  unfold readUInt32LE
  rw [hb0, hb1, hb2, hb3]
  simp only [writeUInt32LE]
  simp only [List.getD_cons_zero, List.getD_cons_succ]
  omega

/-- `readUInt16LE` of an embedded `writeUInt16LE` recovers the value. -/
theorem readUInt16LE_write_at (v : Nat) (buf pre post : List Nat)
    (hv : v < 65536)
    (hbuf : buf = pre ++ writeUInt16LE v ++ post) :
    readUInt16LE buf pre.length = v := by
  have hb0 : buf.getD pre.length 0 = (writeUInt16LE v).getD 0 0 := by
    have h := getD_frame buf pre (writeUInt16LE v) post 0 0 hbuf (by
      simp [writeUInt16LE])
    simpa using h
  have hb1 := getD_frame buf pre (writeUInt16LE v) post 1 0 hbuf (by
    simp [writeUInt16LE])
  unfold readUInt16LE
  rw [hb0, hb1]
  simp only [writeUInt16LE]
  simp only [List.getD_cons_zero, List.getD_cons_succ]
  omega

/-- `subarray` slices an embedded chunk out exactly. -/
theorem jsSub_extract (pre mid post : List Nat) :
    jsSub (pre ++ mid ++ post) pre.length (pre.length + mid.length)
      = mid := by
  unfold jsSub
  rw [List.append_assoc, ← List.length_append pre mid]
  rw [show pre ++ (mid ++ post) = (pre ++ mid) ++ post by simp]
  rw [List.take_left' (by simp)]
  exact List.drop_left' (by simp)

/-- Loading the bytes `buildContainer` wrote recovers the header fields,
the two parsed sections and the decompressed heap, provided each section
length fits its 32-bit header field. -/
theorem load_buildContainer (compress decompress : List Nat → List Nat)
    (s : SerializerState) (stb idxb ch : List Nat)
    (hstb : (buildBinarySections s).stringTableBuffer = stb)
    (hidxb : (buildBinarySections s).indexBuffer = idxb)
    (hch : compress (buildBinarySections s).heapBuffer = ch)
    (h1 : stb.length < 4294967296) (h2 : idxb.length < 4294967296)
    (h3 : ch.length < 4294967296) :
    MetadataStore.load decompress (buildContainer compress s)
      = ⟨⟨META_MAGIC, PROTOCOL_VERSION, 1, stb.length, idxb.length,
          ch.length⟩,
         parseStringsFrom stb 0, parseIndexFrom idxb 0, decompress ch⟩ := by
  have hbuf : buildContainer compress s
      = writeUInt32LE META_MAGIC ++ writeUInt16LE PROTOCOL_VERSION
        ++ writeUInt16LE 1 ++ writeUInt32LE stb.length
        ++ writeUInt32LE idxb.length ++ writeUInt32LE ch.length
        ++ [0, 0, 0, 0, 0, 0, 0, 0, 0, 0, 0, 0] ++ stb ++ idxb ++ ch := by
    unfold buildContainer
    simp only []
    rw [hstb, hidxb, hch]
  have hmag : readUInt32LE (buildContainer compress s) 0 = META_MAGIC := by
    have h := readUInt32LE_write_at META_MAGIC (buildContainer compress s)
      [] (writeUInt16LE PROTOCOL_VERSION ++ writeUInt16LE 1
        ++ writeUInt32LE stb.length ++ writeUInt32LE idxb.length
        ++ writeUInt32LE ch.length ++ [0, 0, 0, 0, 0, 0, 0, 0, 0, 0, 0, 0]
        ++ stb ++ idxb ++ ch)
      (by norm_num [META_MAGIC]) (by rw [hbuf]; try simp)
    simpa using h
  have hver : readUInt16LE (buildContainer compress s) 4
      = PROTOCOL_VERSION := by
    have h := readUInt16LE_write_at PROTOCOL_VERSION
      (buildContainer compress s) (writeUInt32LE META_MAGIC)
      (writeUInt16LE 1 ++ writeUInt32LE stb.length
        ++ writeUInt32LE idxb.length ++ writeUInt32LE ch.length
        ++ [0, 0, 0, 0, 0, 0, 0, 0, 0, 0, 0, 0] ++ stb ++ idxb ++ ch)
      (by norm_num [PROTOCOL_VERSION]) (by rw [hbuf]; try simp)
    simpa using h
  have hbit : readUInt16LE (buildContainer compress s) 6 = 1 := by
    have h := readUInt16LE_write_at 1 (buildContainer compress s)
      (writeUInt32LE META_MAGIC ++ writeUInt16LE PROTOCOL_VERSION)
      (writeUInt32LE stb.length ++ writeUInt32LE idxb.length
        ++ writeUInt32LE ch.length ++ [0, 0, 0, 0, 0, 0, 0, 0, 0, 0, 0, 0]
        ++ stb ++ idxb ++ ch)
      (by norm_num) (by rw [hbuf]; try simp)
    simpa using h
  have h8 : readUInt32LE (buildContainer compress s) 8 = stb.length := by
    have h := readUInt32LE_write_at stb.length (buildContainer compress s)
      (writeUInt32LE META_MAGIC ++ writeUInt16LE PROTOCOL_VERSION
        ++ writeUInt16LE 1)
      (writeUInt32LE idxb.length ++ writeUInt32LE ch.length
        ++ [0, 0, 0, 0, 0, 0, 0, 0, 0, 0, 0, 0] ++ stb ++ idxb ++ ch)
      h1 (by rw [hbuf]; try simp)
    simpa using h
  have h12 : readUInt32LE (buildContainer compress s) 12 = idxb.length := by
    have h := readUInt32LE_write_at idxb.length (buildContainer compress s)
      (writeUInt32LE META_MAGIC ++ writeUInt16LE PROTOCOL_VERSION
        ++ writeUInt16LE 1 ++ writeUInt32LE stb.length)
      (writeUInt32LE ch.length ++ [0, 0, 0, 0, 0, 0, 0, 0, 0, 0, 0, 0]
        ++ stb ++ idxb ++ ch)
      h2 (by rw [hbuf]; try simp)
    simpa using h
  have h16 : readUInt32LE (buildContainer compress s) 16 = ch.length := by
    have h := readUInt32LE_write_at ch.length (buildContainer compress s)
      (writeUInt32LE META_MAGIC ++ writeUInt16LE PROTOCOL_VERSION
        ++ writeUInt16LE 1 ++ writeUInt32LE stb.length
        ++ writeUInt32LE idxb.length)
      ([0, 0, 0, 0, 0, 0, 0, 0, 0, 0, 0, 0] ++ stb ++ idxb ++ ch)
      h3 (by rw [hbuf]; try simp)
    simpa using h
  have hsl1 : jsSub (buildContainer compress s) 32 (32 + stb.length)
      = stb := by
    have h := jsSub_extract
      (writeUInt32LE META_MAGIC ++ writeUInt16LE PROTOCOL_VERSION
        ++ writeUInt16LE 1 ++ writeUInt32LE stb.length
        ++ writeUInt32LE idxb.length ++ writeUInt32LE ch.length
        ++ [0, 0, 0, 0, 0, 0, 0, 0, 0, 0, 0, 0])
      stb (idxb ++ ch)
    rw [show buildContainer compress s
      = (writeUInt32LE META_MAGIC ++ writeUInt16LE PROTOCOL_VERSION
        ++ writeUInt16LE 1 ++ writeUInt32LE stb.length
        ++ writeUInt32LE idxb.length ++ writeUInt32LE ch.length
        ++ [0, 0, 0, 0, 0, 0, 0, 0, 0, 0, 0, 0]) ++ stb ++ (idxb ++ ch)
      by rw [hbuf]; try simp]
    simpa using h
  have hsl2 : jsSub (buildContainer compress s) (32 + stb.length)
      (32 + stb.length + idxb.length) = idxb := by
    have h := jsSub_extract
      (writeUInt32LE META_MAGIC ++ writeUInt16LE PROTOCOL_VERSION
        ++ writeUInt16LE 1 ++ writeUInt32LE stb.length
        ++ writeUInt32LE idxb.length ++ writeUInt32LE ch.length
        ++ [0, 0, 0, 0, 0, 0, 0, 0, 0, 0, 0, 0] ++ stb)
      idxb ch
    rw [show buildContainer compress s
      = (writeUInt32LE META_MAGIC ++ writeUInt16LE PROTOCOL_VERSION
        ++ writeUInt16LE 1 ++ writeUInt32LE stb.length
        ++ writeUInt32LE idxb.length ++ writeUInt32LE ch.length
        ++ [0, 0, 0, 0, 0, 0, 0, 0, 0, 0, 0, 0] ++ stb) ++ idxb ++ ch
      by rw [hbuf]; try simp]
    have hlen : (writeUInt32LE META_MAGIC ++ writeUInt16LE PROTOCOL_VERSION
        ++ writeUInt16LE 1 ++ writeUInt32LE stb.length
        ++ writeUInt32LE idxb.length ++ writeUInt32LE ch.length
        ++ [0, 0, 0, 0, 0, 0, 0, 0, 0, 0, 0, 0] ++ stb).length
      = 32 + stb.length := by
      simp [writeUInt32LE, writeUInt16LE]
      omega
    rw [hlen] at h
    exact h
  have hsl3 : jsSub (buildContainer compress s)
      (32 + stb.length + idxb.length)
      (32 + stb.length + idxb.length + ch.length) = ch := by
    have h := jsSub_extract
      (writeUInt32LE META_MAGIC ++ writeUInt16LE PROTOCOL_VERSION
        ++ writeUInt16LE 1 ++ writeUInt32LE stb.length
        ++ writeUInt32LE idxb.length ++ writeUInt32LE ch.length
        ++ [0, 0, 0, 0, 0, 0, 0, 0, 0, 0, 0, 0] ++ stb ++ idxb)
      ch []
    rw [show buildContainer compress s
      = (writeUInt32LE META_MAGIC ++ writeUInt16LE PROTOCOL_VERSION
        ++ writeUInt16LE 1 ++ writeUInt32LE stb.length
        ++ writeUInt32LE idxb.length ++ writeUInt32LE ch.length
        ++ [0, 0, 0, 0, 0, 0, 0, 0, 0, 0, 0, 0] ++ stb ++ idxb) ++ ch ++ []
      by rw [hbuf]; try simp]
    have hlen : (writeUInt32LE META_MAGIC ++ writeUInt16LE PROTOCOL_VERSION
        ++ writeUInt16LE 1 ++ writeUInt32LE stb.length
        ++ writeUInt32LE idxb.length ++ writeUInt32LE ch.length
        ++ [0, 0, 0, 0, 0, 0, 0, 0, 0, 0, 0, 0] ++ stb ++ idxb).length
      = 32 + stb.length + idxb.length := by
      simp [writeUInt32LE, writeUInt16LE]
      omega
    rw [hlen] at h
    exact h
  have e1 : MetadataStore.load decompress (buildContainer compress s)
      = ⟨⟨readUInt32LE (buildContainer compress s) 0,
          readUInt16LE (buildContainer compress s) 4,
          readUInt16LE (buildContainer compress s) 6,
          readUInt32LE (buildContainer compress s) 8,
          readUInt32LE (buildContainer compress s) 12,
          readUInt32LE (buildContainer compress s) 16⟩,
         parseStringsFuel (jsSub (buildContainer compress s) 32
            (32 + readUInt32LE (buildContainer compress s) 8))
          ((jsSub (buildContainer compress s) 32
            (32 + readUInt32LE (buildContainer compress s) 8)).length + 1) 0,
         parseIndexFuel (jsSub (buildContainer compress s)
            (32 + readUInt32LE (buildContainer compress s) 8)
            (32 + readUInt32LE (buildContainer compress s) 8
              + readUInt32LE (buildContainer compress s) 12))
          (jsSub (buildContainer compress s)
            (32 + readUInt32LE (buildContainer compress s) 8)
            (32 + readUInt32LE (buildContainer compress s) 8
              + readUInt32LE (buildContainer compress s) 12)).length 0,
         decompress (jsSub (buildContainer compress s)
            (32 + readUInt32LE (buildContainer compress s) 8
              + readUInt32LE (buildContainer compress s) 12)
            (32 + readUInt32LE (buildContainer compress s) 8
              + readUInt32LE (buildContainer compress s) 12
              + readUInt32LE (buildContainer compress s) 16))⟩ := rfl
  rw [e1, hmag, hver, hbit, h8, h12, h16, hsl1, hsl2, hsl3]
  rw [parseStringsFuel_eq stb (stb.length + 1) 0 (by omega)]
  rw [parseIndexFuel_eq idxb idxb.length 0 (by omega)]

/-- Position of the NUL terminating an embedded NUL-free run. -/
theorem findNulFrom_at (l1 rest : List Nat) (h : ∀ b ∈ l1, b ≠ 0) :
    findNulFrom (l1 ++ 0 :: rest) 0 = l1.length := by
  unfold findNulFrom
  rw [List.drop_zero, List.findIdx?_append]
  have hnone : l1.findIdx? (fun b => b = 0) = none := by
    rw [List.findIdx?_eq_none_iff]
    intro x hx
    simpa using h x hx
  rw [hnone]
  simp

/-- `findNulFrom` is translation-invariant. -/
theorem findNulFrom_shift (pre rest : List Nat) (pos : Nat) :
    findNulFrom (pre ++ rest) (pre.length + pos)
      = pre.length + findNulFrom rest pos := by
  unfold findNulFrom
  have hd : (pre ++ rest).drop (pre.length + pos) = rest.drop pos := by
    rw [List.drop_append_eq_append_drop]
    simp
  rw [hd]
  cases hfi : (rest.drop pos).findIdx? (fun b => b = 0) with
  | none => simp
  | some k =>
    simp only []
    omega

/-- The string parse loop is translation-invariant (fuel form). -/
theorem parseStringsFuel_shift (pre : List Nat) :
    ∀ (fuel : Nat) (rest : List Nat) (pos : Nat),
      parseStringsFuel (pre ++ rest) fuel (pre.length + pos)
        = parseStringsFuel rest fuel pos := by
  intro fuel
  induction fuel with
  | zero =>
    intro rest pos
    rw [parseStringsFuel, parseStringsFuel]
  | succ fuel ih =>
    intro rest pos
    rw [parseStringsFuel, parseStringsFuel]
    by_cases hp : pos < rest.length
    · rw [if_pos (by simp; omega), if_pos hp]
      rw [findNulFrom_shift pre rest pos]
      have hsl : ((pre ++ rest).take (pre.length + findNulFrom rest pos)).drop
            (pre.length + pos)
          = (rest.take (findNulFrom rest pos)).drop pos := by
        rw [List.take_append_eq_append_take, List.drop_append_eq_append_drop]
        simp [List.take_of_length_le, List.drop_of_length_le]
      rw [hsl]
      rw [show pre.length + findNulFrom rest pos + 1
        = pre.length + (findNulFrom rest pos + 1) by omega]
      rw [ih rest (findNulFrom rest pos + 1)]
    · rw [if_neg (by simp; omega), if_neg hp]

/-- The string parse loop is translation-invariant. -/
theorem parseStringsFrom_shift (pre rest : List Nat) (pos : Nat) :
    parseStringsFrom (pre ++ rest) (pre.length + pos)
      = parseStringsFrom rest pos := by
  rw [← parseStringsFuel_eq (pre ++ rest) ((pre ++ rest).length + 1)
    (pre.length + pos) (by omega)]
  rw [← parseStringsFuel_eq rest ((pre ++ rest).length + 1) pos
    (by simp; omega)]
  exact parseStringsFuel_shift pre _ rest pos

/-- Parsing the NUL-terminated concatenation recovers the table, provided
no stored string contains a NUL character. -/
theorem parseStrings_roundtrip :
    ∀ (table : List String),
      (∀ str ∈ table, ∀ c ∈ str.data, c.toNat ≠ 0) →
      parseStringsFrom (table.flatMap (fun s => strBytes s ++ [0])) 0
        = table := by
  intro table
  induction table with
  | nil =>
    intro _
    rw [parseStringsFrom]
    simp
  | cons s rest ih =>
    intro hok
    rw [List.flatMap_cons, parseStringsFrom]
    rw [dif_pos (by simp)]
    have hsb : ∀ b ∈ strBytes s, b ≠ 0 := by
      intro b hb
      unfold strBytes at hb
      obtain ⟨c, hc, hcb⟩ := List.mem_map.mp hb
      rw [← hcb]
      exact hok s (by simp) c hc
    have hnul : findNulFrom ((strBytes s ++ [0])
          ++ List.flatMap rest (fun t => strBytes t ++ [0])) 0
        = (strBytes s).length := by
      have h := findNulFrom_at (strBytes s)
        (List.flatMap rest (fun t => strBytes t ++ [0])) hsb
      rw [show (strBytes s ++ [0])
          ++ List.flatMap rest (fun t => strBytes t ++ [0])
        = strBytes s
          ++ 0 :: List.flatMap rest (fun t => strBytes t ++ [0]) by simp]
      exact h
    rw [hnul]
    simp only []
    have hsl : (((strBytes s ++ [0])
          ++ List.flatMap rest (fun t => strBytes t ++ [0])).take
            (strBytes s).length).drop 0
        = strBytes s := by
      rw [List.drop_zero, List.append_assoc,
        List.take_append_eq_append_take]
      simp
    rw [hsl, bytesToStr_strBytes]
    have htail : parseStringsFrom ((strBytes s ++ [0])
          ++ List.flatMap rest (fun t => strBytes t ++ [0]))
          ((strBytes s).length + 1)
        = parseStringsFrom
            (List.flatMap rest (fun t => strBytes t ++ [0])) 0 := by
      have h := parseStringsFrom_shift (strBytes s ++ [0])
        (List.flatMap rest (fun t => strBytes t ++ [0])) 0
      simpa using h
    rw [htail]
    rw [ih (fun str hstr => hok str (by simp [hstr]))]

/-- `readUInt32LE` is translation-invariant. -/
theorem readUInt32LE_shift (pre rest : List Nat) (k : Nat) :
    readUInt32LE (pre ++ rest) (pre.length + k) = readUInt32LE rest k := by
  unfold readUInt32LE
  rw [show pre.length + k + 1 = pre.length + (k + 1) by omega,
    show pre.length + k + 2 = pre.length + (k + 2) by omega,
    show pre.length + k + 3 = pre.length + (k + 3) by omega,
    getD_append_add, getD_append_add, getD_append_add, getD_append_add]

/-- The index parse loop is translation-invariant (fuel form). -/
theorem parseIndexFuel_shift (pre : List Nat) :
    ∀ (fuel : Nat) (rest : List Nat) (i : Nat),
      parseIndexFuel (pre ++ rest) fuel (pre.length + i)
        = parseIndexFuel rest fuel i := by
  intro fuel
  induction fuel with
  | zero =>
    intro rest i
    rw [parseIndexFuel, parseIndexFuel]
  | succ fuel ih =>
    intro rest i
    rw [parseIndexFuel, parseIndexFuel]
    by_cases hp : i < rest.length
    · rw [if_pos (by simp; omega), if_pos hp]
      rw [readUInt32LE_shift,
        show pre.length + i + 8 = pre.length + (i + 8) by omega,
        readUInt32LE_shift,
        show pre.length + i + 12 = pre.length + (i + 12) by omega,
        readUInt32LE_shift,
        show pre.length + i + 16 = pre.length + (i + 16) by omega,
        readUInt32LE_shift,
        show pre.length + i + 24 = pre.length + (i + 24) by omega,
        ih rest (i + 24)]
    · rw [if_neg (by simp; omega), if_neg hp]

/-- The index parse loop is translation-invariant. -/
theorem parseIndexFrom_shift (pre rest : List Nat) (i : Nat) :
    parseIndexFrom (pre ++ rest) (pre.length + i) = parseIndexFrom rest i := by
  rw [← parseIndexFuel_eq (pre ++ rest) (pre ++ rest).length
    (pre.length + i) (by omega)]
  rw [← parseIndexFuel_eq rest (pre ++ rest).length i (by simp; omega)]
  exact parseIndexFuel_shift pre _ rest i

/-- Parsing the 24-byte index encoding recovers the entries, provided
every field fits 32 bits. -/
theorem parseIndex_roundtrip :
    ∀ (entries : List IndexEntry),
      (∀ e ∈ entries, e.hash < 4294967296 ∧ e.stringOffset < 4294967296
        ∧ e.dataOffset < 4294967296 ∧ e.dataLength < 4294967296) →
      parseIndexFrom (entries.flatMap (fun e => writeUInt32LE e.hash
        ++ [0, 0, 0, 0] ++ writeUInt32LE e.stringOffset
        ++ writeUInt32LE e.dataOffset ++ writeUInt32LE e.dataLength
        ++ [0, 0, 0, 0])) 0 = entries := by
  intro entries
  induction entries with
  | nil =>
    intro _
    rw [parseIndexFrom]
    simp
  | cons e rest ih =>
    intro hok
    obtain ⟨hh, hso, hdo, hdl⟩ := hok e (by simp)
    rw [List.flatMap_cons, parseIndexFrom]
    rw [dif_pos (by simp [writeUInt32LE])]
    have c0 : readUInt32LE ((writeUInt32LE e.hash ++ [0, 0, 0, 0]
          ++ writeUInt32LE e.stringOffset ++ writeUInt32LE e.dataOffset
          ++ writeUInt32LE e.dataLength ++ [0, 0, 0, 0])
          ++ List.flatMap rest (fun e => writeUInt32LE e.hash
            ++ [0, 0, 0, 0] ++ writeUInt32LE e.stringOffset
            ++ writeUInt32LE e.dataOffset ++ writeUInt32LE e.dataLength
            ++ [0, 0, 0, 0])) 0 = e.hash := by
      have h := readUInt32LE_write_at e.hash ((writeUInt32LE e.hash ++ [0, 0, 0, 0]
          ++ writeUInt32LE e.stringOffset ++ writeUInt32LE e.dataOffset
          ++ writeUInt32LE e.dataLength ++ [0, 0, 0, 0])
          ++ List.flatMap rest (fun e => writeUInt32LE e.hash
            ++ [0, 0, 0, 0] ++ writeUInt32LE e.stringOffset
            ++ writeUInt32LE e.dataOffset ++ writeUInt32LE e.dataLength
            ++ [0, 0, 0, 0])) [] ([0, 0, 0, 0]
          ++ writeUInt32LE e.stringOffset ++ writeUInt32LE e.dataOffset
          ++ writeUInt32LE e.dataLength ++ [0, 0, 0, 0]
          ++ List.flatMap rest (fun e => writeUInt32LE e.hash
            ++ [0, 0, 0, 0] ++ writeUInt32LE e.stringOffset
            ++ writeUInt32LE e.dataOffset ++ writeUInt32LE e.dataLength
            ++ [0, 0, 0, 0])) hh (by simp)
      simpa using h
    have c8 : readUInt32LE ((writeUInt32LE e.hash ++ [0, 0, 0, 0]
          ++ writeUInt32LE e.stringOffset ++ writeUInt32LE e.dataOffset
          ++ writeUInt32LE e.dataLength ++ [0, 0, 0, 0])
          ++ List.flatMap rest (fun e => writeUInt32LE e.hash
            ++ [0, 0, 0, 0] ++ writeUInt32LE e.stringOffset
            ++ writeUInt32LE e.dataOffset ++ writeUInt32LE e.dataLength
            ++ [0, 0, 0, 0])) 8 = e.stringOffset := by
      have h := readUInt32LE_write_at e.stringOffset ((writeUInt32LE e.hash ++ [0, 0, 0, 0]
          ++ writeUInt32LE e.stringOffset ++ writeUInt32LE e.dataOffset
          ++ writeUInt32LE e.dataLength ++ [0, 0, 0, 0])
          ++ List.flatMap rest (fun e => writeUInt32LE e.hash
            ++ [0, 0, 0, 0] ++ writeUInt32LE e.stringOffset
            ++ writeUInt32LE e.dataOffset ++ writeUInt32LE e.dataLength
            ++ [0, 0, 0, 0]))
        (writeUInt32LE e.hash ++ [0, 0, 0, 0])
        (writeUInt32LE e.dataOffset ++ writeUInt32LE e.dataLength
          ++ [0, 0, 0, 0]
          ++ List.flatMap rest (fun e => writeUInt32LE e.hash
            ++ [0, 0, 0, 0] ++ writeUInt32LE e.stringOffset
            ++ writeUInt32LE e.dataOffset ++ writeUInt32LE e.dataLength
            ++ [0, 0, 0, 0])) hso (by simp)
      have hl : (writeUInt32LE e.hash ++ ([0, 0, 0, 0] : List Nat)).length
          = 8 := by simp [writeUInt32LE]
      rw [hl] at h
      exact h
    have c12 : readUInt32LE ((writeUInt32LE e.hash ++ [0, 0, 0, 0]
          ++ writeUInt32LE e.stringOffset ++ writeUInt32LE e.dataOffset
          ++ writeUInt32LE e.dataLength ++ [0, 0, 0, 0])
          ++ List.flatMap rest (fun e => writeUInt32LE e.hash
            ++ [0, 0, 0, 0] ++ writeUInt32LE e.stringOffset
            ++ writeUInt32LE e.dataOffset ++ writeUInt32LE e.dataLength
            ++ [0, 0, 0, 0])) 12 = e.dataOffset := by
      have h := readUInt32LE_write_at e.dataOffset ((writeUInt32LE e.hash ++ [0, 0, 0, 0]
          ++ writeUInt32LE e.stringOffset ++ writeUInt32LE e.dataOffset
          ++ writeUInt32LE e.dataLength ++ [0, 0, 0, 0])
          ++ List.flatMap rest (fun e => writeUInt32LE e.hash
            ++ [0, 0, 0, 0] ++ writeUInt32LE e.stringOffset
            ++ writeUInt32LE e.dataOffset ++ writeUInt32LE e.dataLength
            ++ [0, 0, 0, 0]))
        (writeUInt32LE e.hash ++ [0, 0, 0, 0]
          ++ writeUInt32LE e.stringOffset)
        (writeUInt32LE e.dataLength ++ [0, 0, 0, 0]
          ++ List.flatMap rest (fun e => writeUInt32LE e.hash
            ++ [0, 0, 0, 0] ++ writeUInt32LE e.stringOffset
            ++ writeUInt32LE e.dataOffset ++ writeUInt32LE e.dataLength
            ++ [0, 0, 0, 0])) hdo (by simp)
      have hl : (writeUInt32LE e.hash ++ ([0, 0, 0, 0] : List Nat)
          ++ writeUInt32LE e.stringOffset).length = 12 := by
        simp [writeUInt32LE]
      rw [hl] at h
      exact h
    have c16 : readUInt32LE ((writeUInt32LE e.hash ++ [0, 0, 0, 0]
          ++ writeUInt32LE e.stringOffset ++ writeUInt32LE e.dataOffset
          ++ writeUInt32LE e.dataLength ++ [0, 0, 0, 0])
          ++ List.flatMap rest (fun e => writeUInt32LE e.hash
            ++ [0, 0, 0, 0] ++ writeUInt32LE e.stringOffset
            ++ writeUInt32LE e.dataOffset ++ writeUInt32LE e.dataLength
            ++ [0, 0, 0, 0])) 16 = e.dataLength := by
      have h := readUInt32LE_write_at e.dataLength ((writeUInt32LE e.hash ++ [0, 0, 0, 0]
          ++ writeUInt32LE e.stringOffset ++ writeUInt32LE e.dataOffset
          ++ writeUInt32LE e.dataLength ++ [0, 0, 0, 0])
          ++ List.flatMap rest (fun e => writeUInt32LE e.hash
            ++ [0, 0, 0, 0] ++ writeUInt32LE e.stringOffset
            ++ writeUInt32LE e.dataOffset ++ writeUInt32LE e.dataLength
            ++ [0, 0, 0, 0]))
        (writeUInt32LE e.hash ++ [0, 0, 0, 0]
          ++ writeUInt32LE e.stringOffset ++ writeUInt32LE e.dataOffset)
        ([0, 0, 0, 0]
          ++ List.flatMap rest (fun e => writeUInt32LE e.hash
            ++ [0, 0, 0, 0] ++ writeUInt32LE e.stringOffset
            ++ writeUInt32LE e.dataOffset ++ writeUInt32LE e.dataLength
            ++ [0, 0, 0, 0])) hdl (by simp)
      have hl : (writeUInt32LE e.hash ++ ([0, 0, 0, 0] : List Nat)
          ++ writeUInt32LE e.stringOffset
          ++ writeUInt32LE e.dataOffset).length = 16 := by
        simp [writeUInt32LE]
      rw [hl] at h
      exact h
    have ctail : parseIndexFrom ((writeUInt32LE e.hash ++ [0, 0, 0, 0]
          ++ writeUInt32LE e.stringOffset ++ writeUInt32LE e.dataOffset
          ++ writeUInt32LE e.dataLength ++ [0, 0, 0, 0])
          ++ List.flatMap rest (fun e => writeUInt32LE e.hash
            ++ [0, 0, 0, 0] ++ writeUInt32LE e.stringOffset
            ++ writeUInt32LE e.dataOffset ++ writeUInt32LE e.dataLength
            ++ [0, 0, 0, 0])) (0 + 24)
        = rest := by
      have h := parseIndexFrom_shift (writeUInt32LE e.hash ++ [0, 0, 0, 0]
          ++ writeUInt32LE e.stringOffset ++ writeUInt32LE e.dataOffset
          ++ writeUInt32LE e.dataLength ++ [0, 0, 0, 0])
        (List.flatMap rest (fun e => writeUInt32LE e.hash
            ++ [0, 0, 0, 0] ++ writeUInt32LE e.stringOffset
            ++ writeUInt32LE e.dataOffset ++ writeUInt32LE e.dataLength
            ++ [0, 0, 0, 0])) 0
      have hl : (writeUInt32LE e.hash ++ ([0, 0, 0, 0] : List Nat)
          ++ writeUInt32LE e.stringOffset ++ writeUInt32LE e.dataOffset
          ++ writeUInt32LE e.dataLength ++ [0, 0, 0, 0]).length = 24 := by
        simp [writeUInt32LE]
      rw [hl] at h
      rw [show (0 : Nat) + 24 = 24 + 0 by omega]
      rw [h, ih (fun x hx => hok x (by simp [hx]))]
    rw [c0, c8, c12, c16, ctail]

/-- Projection forms of `addType_eq` used in position arithmetic. -/
theorem addType_index_length (s : SerializerState) (m : RTTIMetadata) :
    (addType s m).index.length = s.index.length + 1 := by
  rw [addType_eq]
  simp

theorem addType_heap_length (s : SerializerState) (m : RTTIMetadata) :
    (addType s m).heapBuffers.length = s.heapBuffers.length + 1 := by
  rw [addType_eq]
  simp

/-- Per-position characterization of the serializer state a fold of
`addType` leaves behind: the `i`-th new index entry carries the FNV-1a
hash of the `i`-th record's name, a string offset that resolves to that
name through the final table, the running data offset, and the length of
the `i`-th heap record, whose bytes start with the kind byte and the
name-offset varint. -/
theorem foldl_addType_entry :
    ∀ (metas : List RTTIMetadata) (s0 : SerializerState) (i : Nat)
      (hi : i < metas.length)
      (hoff : s0.currentHeapOffset = (s0.heapBuffers.map List.length).sum),
      ∃ so bytes,
        (metas.foldl addType s0).index.getD (s0.index.length + i)
            ⟨0, 0, 0, 0⟩
          = ⟨fnv1aHash (metas.get ⟨i, hi⟩).fqName, so,
             (((metas.foldl addType s0).heapBuffers.take
                (s0.heapBuffers.length + i)).map List.length).sum,
             bytes.length⟩
        ∧ (metas.foldl addType s0).heapBuffers.getD
            (s0.heapBuffers.length + i) [] = bytes
        ∧ (∃ payload, bytes = (metas.get ⟨i, hi⟩).kind
            :: (encodeVarint so ++ payload))
        ∧ so < (metas.foldl addType s0).stringTable.length
        ∧ StringTable.resolve (metas.foldl addType s0).stringTable so
            = (metas.get ⟨i, hi⟩).fqName := by
  intro metas
  induction metas with
  | nil =>
    intro s0 i hi _
    exact absurd hi (by simp)
  | cons m rest ih =>
    intro s0 i hi hoff
    have hst1 : (addType s0 m).stringTable
        = (serializeMetadata
            (StringTable.add s0.stringTable m.fqName).2 m).2 := by
      rw [addType_eq]
    have hext : Ext (StringTable.add s0.stringTable m.fqName).2
        (List.foldl addType (addType s0 m) rest).stringTable := by
      refine Ext.trans ?_ (foldl_addType_ext rest (addType s0 m))
      rw [hst1]
      exact serializeMetadata_ext _ _
    cases i with
    | zero =>
      obtain ⟨extraI, hEI⟩ := foldl_addType_index_prefix rest (addType s0 m)
      obtain ⟨extraH, hEH⟩ := foldl_addType_heap_prefix rest (addType s0 m)
      rw [List.foldl_cons]
      refine ⟨(StringTable.add s0.stringTable m.fqName).1,
        (serializeMetadata (StringTable.add s0.stringTable m.fqName).2 m).1,
        ?_, ?_, ?_, ?_, ?_⟩
      · rw [hEI, hEH, addType_eq]
        simp only []
        rw [List.append_assoc s0.index]
        rw [getD_append_add s0.index]
        have htk : ((s0.heapBuffers
              ++ [(serializeMetadata
                  (StringTable.add s0.stringTable m.fqName).2 m).1]
              ++ extraH).take (s0.heapBuffers.length + 0))
            = s0.heapBuffers := by
          rw [List.append_assoc, List.take_append_eq_append_take]
          simp
        rw [htk]
        simp [hoff]
      · rw [hEH, addType_eq]
        simp only []
        rw [List.append_assoc s0.heapBuffers]
        rw [getD_append_add s0.heapBuffers]
        simp
      · obtain ⟨payload, hp⟩ := serializeMetadata_shape
          (StringTable.add s0.stringTable m.fqName).2 m
        rw [getOffset_after_add] at hp
        exact ⟨payload, by simpa using hp⟩
      · have h1 := StringTable.add_fst_lt s0.stringTable m.fqName
        have h2 := Ext.length_le hext
        omega
      · have h := @StringTable.add_resolve s0.stringTable _ m.fqName hext
        simpa using h
    | succ j =>
      have hj : j < rest.length := by simpa using hi
      have hoff1 : (addType s0 m).currentHeapOffset
          = ((addType s0 m).heapBuffers.map List.length).sum := by
        rw [addType_eq]
        simp [hoff]
      obtain ⟨so, bytes, h1, h2, h3, h4, h5⟩ := ih (addType s0 m) j hj hoff1
      have hIL := addType_index_length s0 m
      have hHL := addType_heap_length s0 m
      rw [List.foldl_cons]
      refine ⟨so, bytes, ?_, ?_, ?_, ?_, ?_⟩
      · rw [show s0.index.length + (j + 1)
          = (addType s0 m).index.length + j by omega]
        rw [show s0.heapBuffers.length + (j + 1)
          = (addType s0 m).heapBuffers.length + j by omega]
        simpa using h1
      · rw [show s0.heapBuffers.length + (j + 1)
          = (addType s0 m).heapBuffers.length + j by omega]
        simpa using h2
      · simpa using h3
      · exact h4
      · simpa using h5

/-- Duplicate-freeness of the interner table survives every encoder (the
table is only ever touched through `StringTable.add`). -/
theorem add_nodup' {st : StringTable} (h : st.Nodup) (s : String) :
    (StringTable.add st s).2.Nodup := foldl_addType_nodup h s

theorem encFold_nodup {α : Type}
    (f : StringTable → α → List Nat × StringTable)
    (hf : ∀ st a, st.Nodup → (f st a).2.Nodup) :
    ∀ (l : List α) (st : StringTable), st.Nodup → (encFold f st l).2.Nodup := by
  intro l
  induction l with
  | nil => intro st h; exact h
  | cons a rest ih =>
    intro st h
    simp only [encFold]
    exact ih (f st a).2 (hf st a h)

theorem encStringIdx_nodup (st : StringTable) (s : String) (h : st.Nodup) :
    (encStringIdx st s).2.Nodup := add_nodup' h s

theorem encDecorator_nodup (st : StringTable) (d : RTTIDecorator)
    (h : st.Nodup) : (encDecorator st d).2.Nodup := by
  unfold encDecorator
  exact encFold_nodup encStringIdx (fun st s h => encStringIdx_nodup st s h)
    d.args (st.add d.name).2 (add_nodup' h d.name)

theorem encParameter_nodup (st : StringTable) (p : RTTIParameter)
    (h : st.Nodup) : (encParameter st p).2.Nodup := by
  unfold encParameter
  exact encFold_nodup encDecorator (fun st d h => encDecorator_nodup st d h)
    p.decorators (st.add p.name).2 (add_nodup' h p.name)

theorem encProp_nodup (st : StringTable) (p : RTTIPropInfo)
    (h : st.Nodup) : (encProp st p).2.Nodup := by
  unfold encProp
  rcases hp : p.parameters with _ | ps
  · simp only [hp]
    exact encFold_nodup encDecorator (fun st d h => encDecorator_nodup st d h)
      p.decorators _ (add_nodup' h p.name)
  · simp only [hp]
    exact encFold_nodup encParameter
      (fun st q h => encParameter_nodup st q h) ps _
      (encFold_nodup encDecorator (fun st d h => encDecorator_nodup st d h)
        p.decorators _ (add_nodup' h p.name))

theorem encEnumMember_nodup (st : StringTable) (m : RTTIEnumMember)
    (h : st.Nodup) : (encEnumMember st m).2.Nodup := add_nodup' h m.name

theorem serializeMetadata_nodup (st : StringTable) (meta : RTTIMetadata)
    (h : st.Nodup) : (serializeMetadata st meta).2.Nodup := by
  unfold serializeMetadata
  rcases meta.data with t | ⟨props, gens, decos, bases⟩
    | ⟨params, ret, gens, decos⟩ | ms | ms | ⟨kN, kC, vT⟩ | ⟨c, e, t, f⟩
  · exact h
  · exact encFold_nodup encStringIdx
      (fun st s h => encStringIdx_nodup st s h) bases _
      (encFold_nodup encDecorator (fun st d h => encDecorator_nodup st d h)
        decos _
        (encFold_nodup encStringIdx
          (fun st s h => encStringIdx_nodup st s h) gens _
          (encFold_nodup encProp (fun st p h => encProp_nodup st p h)
            props st h)))
  · exact encFold_nodup encDecorator
      (fun st d h => encDecorator_nodup st d h) decos _
      (encFold_nodup encStringIdx
        (fun st s h => encStringIdx_nodup st s h) gens _
        (encFold_nodup encParameter
          (fun st p h => encParameter_nodup st p h) params st h))
  · exact encFold_nodup encEnumMember
      (fun st m h => encEnumMember_nodup st m h) ms st h
  · exact encFold_nodup encStringIdx
      (fun st s h => encStringIdx_nodup st s h) ms st h
  · exact add_nodup' (add_nodup' h kN) vT
  · exact add_nodup' (add_nodup' (add_nodup' (add_nodup' h c) e) t) f

/-- The whole build keeps the string table duplicate-free. -/
theorem foldl_addType_table_nodup :
    ∀ (metas : List RTTIMetadata) (s0 : SerializerState),
      s0.stringTable.Nodup → (metas.foldl addType s0).stringTable.Nodup := by
  intro metas
  induction metas with
  | nil => intro s0 h; exact h
  | cons m rest ih =>
    intro s0 h
    rw [List.foldl_cons]
    refine ih (addType s0 m) ?_
    rw [addType_eq]
    exact serializeMetadata_nodup _ m (add_nodup' h m.fqName)

/-- `find?` returns the first element past a run of failures. -/
theorem find?_first {α : Type} (p : α → Bool) (l1 : List α) (e : α)
    (l2 : List α) (h1 : ∀ x ∈ l1, p x = false) (h2 : p e = true) :
    (l1 ++ e :: l2).find? p = some e := by
  induction l1 with
  | nil =>
    rw [List.nil_append]
    exact List.find?_cons_of_pos _ h2
  | cons x rest ih =>
    rw [List.cons_append, List.find?_cons_of_neg _ (by
      rw [h1 x (by simp)]; simp)]
    exact ih (fun y hy => h1 y (by simp [hy]))

/-- Slicing a flattened heap at a chunk's offset recovers the chunk. -/
theorem flatten_extract (A : List (List Nat)) (b : List Nat)
    (C : List (List Nat)) :
    jsSub (A ++ b :: C).flatten ((A.map List.length).sum)
      ((A.map List.length).sum + b.length) = b := by
  have hfl : (A ++ b :: C).flatten = A.flatten ++ b ++ C.flatten := by
    simp
  have hlen : A.flatten.length = (A.map List.length).sum := by
    simp [List.length_flatten]
  rw [hfl, ← hlen]
  exact jsSub_extract A.flatten b C.flatten

/-- Sum of the first `k` chunk lengths is bounded by the total. -/
theorem sum_take_le (l : List (List Nat)) (k : Nat) :
    ((l.take k).map List.length).sum ≤ (l.map List.length).sum := by
  have h : ((l.map List.length).take k).sum ≤ (l.map List.length).sum := by
    conv_rhs => rw [← List.take_append_drop k (l.map List.length)]
    rw [List.sum_append]
    exact Nat.le_add_right _ _
  simpa [List.map_take] using h

/-- One more chunk adds its length to the running offset. -/
theorem sum_take_succ_getD (l : List (List Nat)) (k : Nat)
    (hk : k < l.length) :
    ((l.take (k + 1)).map List.length).sum
      = ((l.take k).map List.length).sum + (l.getD k []).length := by
  rw [List.take_succ]
  have h : l[k]?.toList = [l.get ⟨k, hk⟩] := by
    simp [List.getElem?_eq_getElem hk]
  rw [h, List.map_append, List.sum_append]
  simp [List.getD_eq_getElem?_getD, List.getElem?_eq_getElem hk]

theorem serializeAll_index_length (metas : List RTTIMetadata) :
    (serializeAll metas).index.length = metas.length := by
  have h := foldl_addType_index_length metas SerializerState.init
  simpa [serializeAll, SerializerState.init] using h

theorem serializeAll_heap_buffers_length (metas : List RTTIMetadata) :
    (serializeAll metas).heapBuffers.length = metas.length := by
  have h := serializeAll_heap_length metas SerializerState.init
  simpa [serializeAll, SerializerState.init] using h

theorem foldl_addType_offset :
    ∀ (metas : List RTTIMetadata) (s0 : SerializerState),
      s0.currentHeapOffset = (s0.heapBuffers.map List.length).sum →
      (metas.foldl addType s0).currentHeapOffset
        = ((metas.foldl addType s0).heapBuffers.map List.length).sum := by
  intro metas
  induction metas with
  | nil => intro s0 h; exact h
  | cons m rest ih =>
    intro s0 h
    rw [List.foldl_cons]
    refine ih (addType s0 m) ?_
    rw [addType_eq]
    simp [h]

theorem serializeAll_offset (metas : List RTTIMetadata) :
    (serializeAll metas).currentHeapOffset
      = ((serializeAll metas).heapBuffers.map List.length).sum := by
  have h := foldl_addType_offset metas SerializerState.init
    (by simp [SerializerState.init])
  simpa [serializeAll] using h

/-- `foldl_addType_entry` specialized to a build from the fresh state. -/
theorem serializeAll_entry (metas : List RTTIMetadata) (i : Nat)
    (hi : i < metas.length) :
    ∃ so bytes,
      (serializeAll metas).index.getD i ⟨0, 0, 0, 0⟩
        = ⟨fnv1aHash (metas.get ⟨i, hi⟩).fqName, so,
           (((serializeAll metas).heapBuffers.take i).map List.length).sum,
           bytes.length⟩
      ∧ (serializeAll metas).heapBuffers.getD i [] = bytes
      ∧ (∃ payload, bytes = (metas.get ⟨i, hi⟩).kind
          :: (encodeVarint so ++ payload))
      ∧ so < (serializeAll metas).stringTable.length
      ∧ StringTable.resolve (serializeAll metas).stringTable so
          = (metas.get ⟨i, hi⟩).fqName := by
  have h := foldl_addType_entry metas SerializerState.init i hi
    (by simp [SerializerState.init])
  simpa [serializeAll, SerializerState.init] using h

theorem serializeAll_table_nodup (metas : List RTTIMetadata) :
    (serializeAll metas).stringTable.Nodup := by
  have h := foldl_addType_table_nodup metas SerializerState.init
    (by simp [SerializerState.init])
  simpa [serializeAll] using h

/-- Every index entry of a build fits the 32-bit index fields, given the
stated size bounds. -/
theorem serializeAll_index_bounds (metas : List RTTIMetadata)
    (hlen : (serializeAll metas).stringTable.length < 2147483648)
    (hheap : (serializeAll metas).currentHeapOffset < 4294967296) :
    ∀ e ∈ (serializeAll metas).index,
      e.hash < 4294967296 ∧ e.stringOffset < 4294967296
        ∧ e.dataOffset < 4294967296 ∧ e.dataLength < 4294967296 := by
  intro e he
  obtain ⟨j, hj, hje⟩ := List.mem_iff_getElem.mp he
  have hj' : j < metas.length := by
    rw [← serializeAll_index_length metas]
    exact hj
  obtain ⟨so, bytes, hidx, hhb, hshape, hso, hres⟩ :=
    serializeAll_entry metas j hj'
  have hgetD : (serializeAll metas).index.getD j ⟨0, 0, 0, 0⟩ = e := by
    rw [List.getD_eq_getElem?_getD, List.getElem?_eq_getElem hj]
    simpa using hje
  rw [hgetD] at hidx
  have hjheap : j < (serializeAll metas).heapBuffers.length := by
    rw [serializeAll_heap_buffers_length]
    exact hj'
  have hsum : (((serializeAll metas).heapBuffers.take j).map
        List.length).sum + bytes.length
      ≤ ((serializeAll metas).heapBuffers.map List.length).sum := by
    have h1 := sum_take_succ_getD (serializeAll metas).heapBuffers j hjheap
    rw [hhb] at h1
    have h2 := sum_take_le (serializeAll metas).heapBuffers (j + 1)
    omega
  rw [← serializeAll_offset] at hsum
  rw [hidx]
  refine ⟨?_, ?_, ?_, ?_⟩
  · exact fnv1aHash_lt _
  · simp only []
    omega
  · simp only []
    omega
  · simp only []
    omega

/-- Loading a build's container recovers the serializer's table, index and
flattened heap. -/
theorem store_of_build (compress decompress : List Nat → List Nat)
    (hcomp : ∀ b, decompress (compress b) = b)
    (metas : List RTTIMetadata)
    (hstr : ∀ str ∈ (serializeAll metas).stringTable,
      ∀ c ∈ str.data, c.toNat ≠ 0)
    (hlen : (serializeAll metas).stringTable.length < 2147483648)
    (hheap : (serializeAll metas).currentHeapOffset < 4294967296)
    (hsz1 : (buildBinarySections
      (serializeAll metas)).stringTableBuffer.length < 4294967296)
    (hsz2 : (buildBinarySections
      (serializeAll metas)).indexBuffer.length < 4294967296)
    (hsz3 : (compress (buildBinarySections
      (serializeAll metas)).heapBuffer).length < 4294967296) :
    (MetadataStore.load decompress
        (buildContainer compress (serializeAll metas))).strings
      = (serializeAll metas).stringTable
    ∧ (MetadataStore.load decompress
        (buildContainer compress (serializeAll metas))).index
      = (serializeAll metas).index
    ∧ (MetadataStore.load decompress
        (buildContainer compress (serializeAll metas))).heap
      = (serializeAll metas).heapBuffers.flatten := by
  have hload := load_buildContainer compress decompress (serializeAll metas)
    (buildBinarySections (serializeAll metas)).stringTableBuffer
    (buildBinarySections (serializeAll metas)).indexBuffer
    (compress (buildBinarySections (serializeAll metas)).heapBuffer)
    rfl rfl rfl hsz1 hsz2 hsz3
  rw [hload]
  refine ⟨?_, ?_, ?_⟩
  · show parseStringsFrom ((serializeAll metas).stringTable.flatMap
        (fun str => strBytes str ++ [0])) 0 = _
    exact parseStrings_roundtrip _ hstr
  · show parseIndexFrom ((serializeAll metas).index.flatMap
        (fun e => writeUInt32LE e.hash ++ [0, 0, 0, 0]
          ++ writeUInt32LE e.stringOffset ++ writeUInt32LE e.dataOffset
          ++ writeUInt32LE e.dataLength ++ [0, 0, 0, 0])) 0 = _
    exact parseIndex_roundtrip _ (serializeAll_index_bounds metas hlen hheap)
  · show decompress (compress
        (buildBinarySections (serializeAll metas)).heapBuffer) = _
    rw [hcomp]
    rfl

/-! ## Claims -/

/-- Claim C10: for every non-negative integer below `2^31`, decoding the
bytes produced by `encodeVarint` at offset 0 returns the value with `next`
equal to the encoded byte length: the varint codec round-trips exactly on
that range. -/
theorem C10_varint_roundtrip (n : Nat) (h : n < 2147483648) :
    decodeVarint (encodeVarint n) 0 = ⟨n, (encodeVarint n).length⟩ := by
  have hrt := decodeVarint_encode n h [] []
  simpa using hrt

/-- Witness for C10 at `n = 300` (a two-byte varint). -/
theorem C10_varint_roundtrip_witness :
    (300 : Nat) < 2147483648
      ∧ decodeVarint (encodeVarint 300) 0 = ⟨300, (encodeVarint 300).length⟩ :=
  ⟨by decide, C10_varint_roundtrip 300 (by decide)⟩

/-- Claim C5 counterexample: registering the same two-member union shape
twice (once under an alias name, once as the inline occurrence) appends
two separate index entries and two separate heap records; nothing collapses
them to one. -/
theorem C5_counterexample :
    (RTTIData.members ["A", "B"] = RTTIData.members ["A", "B"])
      ∧ (addType (addType SerializerState.init
          ⟨"UAlias", REF_UNION, .members ["A", "B"]⟩)
          ⟨"U", REF_UNION, .members ["A", "B"]⟩).index.length = 2
      ∧ (addType (addType SerializerState.init
          ⟨"UAlias", REF_UNION, .members ["A", "B"]⟩)
          ⟨"U", REF_UNION, .members ["A", "B"]⟩).heapBuffers.length = 2
      ∧ (2 : Nat) ≠ 1 := by
  refine ⟨rfl, ?_, ?_, by decide⟩ <;> with_unfolding_all decide

/-- Claim C5 (amended): `addType` never deduplicates: every registration,
identical shape or not, appends exactly one index entry and one heap
record. -/
theorem C5_addType_always_appends (s : SerializerState)
    (meta : RTTIMetadata) :
    (addType s meta).index.length = s.index.length + 1
      ∧ (addType s meta).heapBuffers.length = s.heapBuffers.length + 1 := by
  unfold addType
  simp

/-- Claim C9 counterexample: the build's output phase writes the container
bytes directly to `metadata.bin`; there is no write-to-temporary-then-
rename, so the atomic-replacement pattern the claim asserts is absent. -/
theorem C9_counterexample :
    ¬ atomicReplace (buildOutputOps id SerializerState.init [])
      "metadata.bin" := by
  intro h
  exact h.1 (FsOp.write "metadata.bin" (buildContainer id
      SerializerState.init))
    (by simp [buildOutputOps])
    (buildContainer id SerializerState.init) rfl

/-- Claim C9 (amended): the output phase is exactly one direct write of
the container to the final path followed by one write of the cache file;
it performs no rename at all. -/
theorem C9_direct_write (compress : List Nat → List Nat)
    (s : SerializerState) (cacheBytes : List Nat) :
    buildOutputOps compress s cacheBytes
        = [FsOp.write "metadata.bin" (buildContainer compress s),
           FsOp.write "metadata.cache" cacheBytes]
      ∧ ∀ op ∈ buildOutputOps compress s cacheBytes,
          ∀ a b, op ≠ FsOp.rename a b := by
  refine ⟨rfl, ?_⟩
  intro op hop a b
  simp only [buildOutputOps, List.mem_cons, List.mem_singleton] at hop
  rcases hop with h | h | h
  · subst h; simp
  · subst h; simp
  · simp at h

/-- Witness for C9 (amended), discharging the membership hypothesis at the
container write itself. -/
theorem C9_direct_write_witness :
    FsOp.write "metadata.bin" (buildContainer id SerializerState.init)
      ≠ FsOp.rename "metadata.bin.tmp" "metadata.bin" :=
  (C9_direct_write id SerializerState.init []).2
    (FsOp.write "metadata.bin" (buildContainer id SerializerState.init))
    (by simp [buildOutputOps]) "metadata.bin.tmp" "metadata.bin"

/-- Claim C3 counterexample: decoding the truncated buffer `[7]` (a union
record cut off before its member count) raises no error: it returns the
very same ordinary record as the well-formed empty-union buffer
`[7, 0, 0]`, so truncation is indistinguishable from success. -/
theorem C3_counterexample :
    decodeRTTIEntry [REF_UNION] (fun _ => "")
        = decodeRTTIEntry [REF_UNION, 0, 0] (fun _ => "")
      ∧ decodeRTTIEntry [REF_UNION] (fun _ => "")
        = .unionLike REF_UNION [] := by
  constructor <;> with_unfolding_all decide

/-- Claim C3 (amended): the decoder is total and never signals an error:
an unrecognized kind tag falls to the `default` branch and yields a bare
record carrying just that kind, and a truncated buffer (reads past the end
produce zero bytes) yields an ordinary record. -/
theorem C3_decoder_total :
    (∀ (k : Nat) (rest : List Nat) (getS : Nat → String),
        k ∉ ([1, 3, 4, 5, 7, 8, 9, 11, 12] : List Nat) →
        decodeRTTIEntry (k :: rest) getS = .unknown k)
      ∧ (∀ getS : Nat → String,
          decodeRTTIEntry [REF_UNION] getS = .unionLike REF_UNION []) := by
  constructor
  · intro k rest getS hk
    simp only [List.mem_cons, List.mem_singleton, not_or] at hk
    obtain ⟨h1, h3, h4, h5, h7, h8, h9, h11, h12, _⟩ := hk
    unfold decodeRTTIEntry
    simp only [List.getD_cons_zero]
    rw [if_neg (by simpa [REF_PRIMITIVE] using h1),
      if_neg (by simp [REF_CLASS, REF_OBJECT]; exact ⟨h4, h3⟩),
      if_neg (by simpa [REF_FUNCTION] using h5),
      if_neg (by simpa [REF_ENUM] using h9),
      if_neg (by simp [REF_UNION, REF_INTERSECTION]; exact ⟨h7, h8⟩),
      if_neg (by simpa [REF_MAPPED] using h11),
      if_neg (by simpa [REF_CONDITIONAL] using h12)]
  · intro getS
    unfold decodeRTTIEntry
    rw [show decodeVarint [REF_UNION] 1 = ⟨0, 2⟩ by
      with_unfolding_all decide]
    simp [decStringIdxList, decListN, REF_UNION, REF_PRIMITIVE, REF_CLASS,
      REF_OBJECT, REF_FUNCTION, REF_ENUM,
      show decodeVarint [7] 2 = ⟨0, 3⟩ by
        with_unfolding_all decide]

/-- Witness for C3 (amended), at kind tag `99`. -/
theorem C3_decoder_total_witness :
    (99 : Nat) ∉ ([1, 3, 4, 5, 7, 8, 9, 11, 12] : List Nat)
      ∧ decodeRTTIEntry (99 :: [1, 2, 3]) (fun _ => "")
          = .unknown 99
      ∧ decodeRTTIEntry [REF_UNION] (fun _ => "")
          = .unionLike REF_UNION [] :=
  ⟨by decide,
    C3_decoder_total.1 99 [1, 2, 3] (fun _ => "") (by decide),
    C3_decoder_total.2 (fun _ => "")⟩

/-- Claim C1 counterexample: two mapped records differing only in their
key constraint serialize to byte-identical records (the encoder never
writes `keyConstraint`), so no decoder can recover it: the mapped key
constraint does not survive the round trip.  The decoded record carries
only the key name and the value type. -/
theorem C1_counterexample :
    serializeMetadata [] ⟨"M", REF_MAPPED, .mapped "K" "Keys" "number"⟩
        = serializeMetadata [] ⟨"M", REF_MAPPED, .mapped "K" "Other" "number"⟩
      ∧ RTTIMetadata.mk "M" REF_MAPPED (.mapped "K" "Keys" "number")
          ≠ ⟨"M", REF_MAPPED, .mapped "K" "Other" "number"⟩
      ∧ decodeRTTIEntry
          (serializeMetadata []
            ⟨"M", REF_MAPPED, .mapped "K" "Keys" "number"⟩).1
          (StringTable.resolve (serializeMetadata []
            ⟨"M", REF_MAPPED, .mapped "K" "Keys" "number"⟩).2)
          = .mapped "K" "number" := by
  refine ⟨by with_unfolding_all decide, by decide, ?_⟩
  with_unfolding_all decide

/-- Claim C1 (amended): for every record of the §3 data model whose counts
and scalar fields fit the varint range (`dataOK`) and whose kind tag
matches its payload (`kindOK`), decoding the serialized bytes while
resolving string indices through any table extending the serializer's
post-state reconstructs the record's payload with every list in source
order (`expectedDecode`): the fully-qualified name is skipped by the
decoder, and a mapped record keeps its key name and value type but loses
its key constraint. -/
theorem C1_roundtrip (meta : RTTIMetadata) (st stF : StringTable)
    (hk : kindOK meta = true) (hd : dataOK meta = true)
    (hext : Ext (serializeMetadata st meta).2 stF)
    (hlen : stF.length < 2147483648) :
    decodeRTTIEntry (serializeMetadata st meta).1 (StringTable.resolve stF)
      = expectedDecode meta :=
  serializeMetadata_roundtrip meta st stF hk hd hext hlen

/-- Witness for C1 (amended) at a class record exercising members,
decorators, parameters and bases. -/
theorem C1_roundtrip_witness :
    kindOK ⟨"C", REF_CLASS, .classLike
        [⟨"id", 1, 0, [⟨"deco", ["a1"]⟩], none⟩,
         ⟨"m", 2, 5, [], some [⟨"p", 3, [⟨"pd", []⟩]⟩]⟩]
        ["T"] [⟨"entity", []⟩] ["Base"]⟩ = true
      ∧ decodeRTTIEntry (serializeMetadata [] ⟨"C", REF_CLASS, .classLike
          [⟨"id", 1, 0, [⟨"deco", ["a1"]⟩], none⟩,
           ⟨"m", 2, 5, [], some [⟨"p", 3, [⟨"pd", []⟩]⟩]⟩]
          ["T"] [⟨"entity", []⟩] ["Base"]⟩).1
        (StringTable.resolve (serializeMetadata [] ⟨"C", REF_CLASS,
          .classLike
          [⟨"id", 1, 0, [⟨"deco", ["a1"]⟩], none⟩,
           ⟨"m", 2, 5, [], some [⟨"p", 3, [⟨"pd", []⟩]⟩]⟩]
          ["T"] [⟨"entity", []⟩] ["Base"]⟩).2)
        = expectedDecode ⟨"C", REF_CLASS, .classLike
          [⟨"id", 1, 0, [⟨"deco", ["a1"]⟩], none⟩,
           ⟨"m", 2, 5, [], some [⟨"p", 3, [⟨"pd", []⟩]⟩]⟩]
          ["T"] [⟨"entity", []⟩] ["Base"]⟩ :=
  ⟨by decide,
    C1_roundtrip _ [] _ (by decide) (by decide) Ext.rfl
      (by with_unfolding_all decide)⟩

/-- Claim C6 counterexample: a string member value of 255 bytes has a
varint length prefix whose first byte is `0xff`, the numeric sentinel; the
decoder misreads the member as a number, so the sentinel fails to
distinguish numeric from string values and the decoded member value
differs from the encoded one. -/
theorem C6_counterexample :
    decodeRTTIEntry
        (serializeMetadata [] ⟨"E", REF_ENUM,
          .enum [⟨"A", .str ⟨List.replicate 255 'a'⟩⟩]⟩).1
        (StringTable.resolve (serializeMetadata [] ⟨"E", REF_ENUM,
          .enum [⟨"A", .str ⟨List.replicate 255 'a'⟩⟩]⟩).2)
        = .enum [⟨"A", .num 1633771777⟩]
      ∧ expectedDecode ⟨"E", REF_ENUM,
          .enum [⟨"A", .str ⟨List.replicate 255 'a'⟩⟩]⟩
        ≠ .enum [⟨"A", .num 1633771777⟩] := by
  have henc0 : encodeVarint 0 = [0] := by with_unfolding_all decide
  have henc1 : encodeVarint 1 = [1] := by with_unfolding_all decide
  have henc255 : encodeVarint 255 = [255, 1] := by with_unfolding_all decide
  have hsb : strBytes ⟨List.replicate 255 'a'⟩ = List.replicate 255 97 := by
    unfold strBytes
    simp only [List.map_replicate]
    rfl
  have hB : (serializeMetadata [] ⟨"E", REF_ENUM,
        .enum [⟨"A", .str ⟨List.replicate 255 'a'⟩⟩]⟩).1
      = [9, 0, 1, 0, 255, 1] ++ List.replicate 255 97 := by
    rw [serializeMetadata_enum]
    rw [show (StringTable.getOffset [] "E").getD 0 = 0 from rfl]
    rw [show ([(⟨"A", .str ⟨List.replicate 255 'a'⟩⟩ : RTTIEnumMember)]
      : List RTTIEnumMember).length = 1 from rfl]
    simp only [encFold_cons_fst, encFold_nil]
    rw [encEnumMember_fst_str [] _ ⟨List.replicate 255 'a'⟩ rfl]
    rw [show (StringTable.add [] "A").1 = 0 from rfl]
    rw [hsb]
    rw [show (List.replicate 255 (97 : Nat)).length = 255 from by simp]
    rw [henc0, henc1, henc255]
    simp only [REF_ENUM, List.cons_append, List.nil_append,
      List.append_assoc, List.append_nil, List.singleton_append]
  have hT : (serializeMetadata [] ⟨"E", REF_ENUM,
        .enum [⟨"A", .str ⟨List.replicate 255 'a'⟩⟩]⟩).2 = ["A"] := by
    rw [serializeMetadata_enum]
    simp [encFold, encEnumMember, StringTable.add]
  refine ⟨?_, by simp [expectedDecode]⟩
  rw [hB, hT]
  have h1 : decodeVarint ([9, 0, 1, 0, 255, 1] ++ List.replicate 255 97) 1
      = ⟨0, 2⟩ := by
    have h := decodeVarint_at (n := 0) (by norm_num)
      (show [9, 0, 1, 0, 255, 1] ++ List.replicate 255 97
        = [9] ++ encodeVarint 0 ++ ([1, 0, 255, 1] ++ List.replicate 255 97)
        by rw [henc0]; simp)
    simpa [henc0] using h
  have h2 : decodeVarint ([9, 0, 1, 0, 255, 1] ++ List.replicate 255 97) 2
      = ⟨1, 3⟩ := by
    have h := decodeVarint_at (n := 1) (by norm_num)
      (show [9, 0, 1, 0, 255, 1] ++ List.replicate 255 97
        = [9, 0] ++ encodeVarint 1 ++ ([0, 255, 1] ++ List.replicate 255 97)
        by rw [henc1]; simp)
    simpa [henc1] using h
  have h3 : decodeVarint ([9, 0, 1, 0, 255, 1] ++ List.replicate 255 97) 3
      = ⟨0, 4⟩ := by
    have h := decodeVarint_at (n := 0) (by norm_num)
      (show [9, 0, 1, 0, 255, 1] ++ List.replicate 255 97
        = [9, 0, 1] ++ encodeVarint 0 ++ ([255, 1] ++ List.replicate 255 97)
        by rw [henc0]; simp)
    simpa [henc0] using h
  have hsent : ([9, 0, 1, 0, 255, 1]
      ++ List.replicate 255 97).getD 4 0 = 255 := by
    rw [getD_append_left _ _ _ _ (by norm_num)]
    rfl
  have hb5 : ([9, 0, 1, 0, 255, 1]
      ++ List.replicate 255 97).getD 5 0 = 1 := by
    rw [getD_append_left _ _ _ _ (by norm_num)]
    rfl
  have hrep : ∀ k, k < 255 → ([9, 0, 1, 0, 255, 1]
      ++ List.replicate 255 97).getD (6 + k) 0 = 97 := by
    intro k hk
    rw [show (6 + k) = ([9, 0, 1, 0, 255, 1] : List Nat).length + k by rfl]
    rw [getD_append_add]
    rw [List.getD_eq_getElem?_getD, List.getElem?_replicate_of_lt hk]
    rfl
  have hread : readInt32LEsigned ([9, 0, 1, 0, 255, 1]
      ++ List.replicate 255 97) 5 = 1633771777 := by
    unfold readInt32LEsigned
    rw [hb5, show (5 + 1 : Nat) = 6 + 0 by norm_num,
      show (5 + 2 : Nat) = 6 + 1 by norm_num,
      show (5 + 3 : Nat) = 6 + 2 by norm_num,
      hrep 0 (by norm_num), hrep 1 (by norm_num), hrep 2 (by norm_num)]
    norm_num
  have hk9 : ([9, 0, 1, 0, 255, 1]
      ++ List.replicate 255 97 : List Nat).getD 0 0 = 9 := by
    rw [getD_append_left _ _ _ _ (by norm_num)]
    rfl
  unfold decodeRTTIEntry
  rw [hk9]
  rw [if_neg (show ¬ (9 : Nat) = REF_PRIMITIVE by decide),
    if_neg (show ¬ ((9 : Nat) = REF_CLASS ∨ (9 : Nat) = REF_OBJECT)
      by decide),
    if_neg (show ¬ (9 : Nat) = REF_FUNCTION by decide),
    if_pos (show (9 : Nat) = REF_ENUM from rfl)]
  rw [h1]
  simp only []
  rw [h2]
  simp only [decEnumMembers, decListN, decEnumMember]
  rw [h3]
  simp only [hsent, if_pos rfl, hread]
  simp [StringTable.resolve]

/-- Claim C6 (amended): in an encoded enum record every numeric member
value is a `0xff` sentinel byte followed by a fixed 4-byte little-endian
integer and every string value is a length-prefixed UTF-8 run, exactly as
claimed; the sentinel correctly separates the two cases — and hence
decoded member values equal the encoded ones — for every enum record
whose numeric values are 32-bit and whose string byte lengths do not have
a varint encoding beginning with `0xff` (`enumMemberOK`). -/
theorem C6_enum_roundtrip (st stF : StringTable) (fq : String)
    (ms : List RTTIEnumMember) (hct : ms.length < 2147483648)
    (hOK : ms.all enumMemberOK = true)
    (hext : Ext (encFold encEnumMember st ms).2 stF)
    (hlen : stF.length < 2147483648) :
    decodeRTTIEntry (serializeMetadata st ⟨fq, REF_ENUM, .enum ms⟩).1
      (StringTable.resolve stF) = .enum ms :=
  roundtrip_enum st stF fq ms hct hOK hext hlen

/-- Witness for C6 (amended) at an enum with a negative numeric member
and a string member. -/
theorem C6_enum_roundtrip_witness :
    ([⟨"A", .num (-5)⟩, ⟨"B", .str "x"⟩] : List RTTIEnumMember).all
        enumMemberOK = true
      ∧ decodeRTTIEntry (serializeMetadata [] ⟨"E", REF_ENUM,
          .enum [⟨"A", .num (-5)⟩, ⟨"B", .str "x"⟩]⟩).1
        (StringTable.resolve (serializeMetadata [] ⟨"E", REF_ENUM,
          .enum [⟨"A", .num (-5)⟩, ⟨"B", .str "x"⟩]⟩).2)
        = .enum [⟨"A", .num (-5)⟩, ⟨"B", .str "x"⟩] :=
  ⟨by decide,
    C6_enum_roundtrip [] _ "E" _ (by decide) (by decide) Ext.rfl
      (by with_unfolding_all decide)⟩

/-- Claim C7: interning the same string `N` times hands out the same index
every time; `resolve` of that index returns the interned string; after any
insertion sequence starting from a duplicate-free table the table holds
exactly one copy of each distinct string, the `i`-th stored string's offset
is `i`, and the serialized string-table section is the NUL-terminated
copies concatenated in first-insertion order. -/
theorem C7_interner_contract (s : String) (st : StringTable)
    (l : List String) (hnd : st.Nodup) :
    (∀ N, (internN st s N).1
        = List.replicate N (StringTable.add st s).1)
    ∧ StringTable.resolve (StringTable.add st s).2 (StringTable.add st s).1
        = s
    ∧ (internAll st l).Nodup
    ∧ (∀ i (h : i < (internAll st l).length),
        StringTable.getOffset (internAll st l)
          ((internAll st l).get ⟨i, h⟩) = some i)
    ∧ ∀ idx heaps off,
        (buildBinarySections ⟨internAll st l, idx, heaps, off⟩).stringTableBuffer
          = (internAll st l).flatMap (fun str => strBytes str ++ [0]) := by
  have hnd' : (internAll st l).Nodup := internAll_nodup hnd l
  refine ⟨?_, StringTable.add_resolve Ext.rfl, hnd', ?_, fun _ _ _ => rfl⟩
  · have key : ∀ n, internN (StringTable.add st s).2 s n
        = (List.replicate n (StringTable.add st s).1,
            (StringTable.add st s).2) := by
      intro n
      induction n with
      | zero => rfl
      | succ n ih =>
        rw [internN_succ, StringTable.add_idem, ih]
        simp [List.replicate_succ]
    intro N
    cases N with
    | zero => rfl
    | succ n =>
      rw [internN_succ, key n]
      simp [List.replicate_succ]
  · intro i h
    have hmem : (internAll st l).get ⟨i, h⟩ ∈ internAll st l :=
      List.get_mem _ _ h
    unfold StringTable.getOffset
    rw [if_pos hmem, List.get_indexOf hnd' ⟨i, h⟩]

/-- Witness for C7 at `s = "a"`, `st = []`, `l = ["x", "y", "x"]`. -/
theorem C7_interner_contract_witness :
    ([] : StringTable).Nodup
    ∧ ((∀ N, (internN [] "a" N).1
          = List.replicate N (StringTable.add [] "a").1)
      ∧ StringTable.resolve (StringTable.add [] "a").2
          (StringTable.add [] "a").1 = "a"
      ∧ (internAll [] ["x", "y", "x"]).Nodup
      ∧ (∀ i (h : i < (internAll [] ["x", "y", "x"]).length),
          StringTable.getOffset (internAll [] ["x", "y", "x"])
            ((internAll [] ["x", "y", "x"]).get ⟨i, h⟩) = some i)
      ∧ ∀ idx heaps off,
          (buildBinarySections
              ⟨internAll [] ["x", "y", "x"], idx, heaps, off⟩).stringTableBuffer
            = (internAll [] ["x", "y", "x"]).flatMap
                (fun str => strBytes str ++ [0])) :=
  ⟨List.nodup_nil, C7_interner_contract "a" [] ["x", "y", "x"] List.nodup_nil⟩

/-- Claim C4 counterexample: a rebuild in which no declaration's content
hash changed (the cache pass reuses its single entry and leaves the cache
unchanged) still re-encodes that record into the heap, because the
serializer loop registers every record of `allTypes` unconditionally: one
record is re-encoded, not zero. -/
theorem C4_counterexample :
    cachePass (fun _ => 7)
        [("A", ⟨7, ⟨"A", REF_PRIMITIVE, RTTIData.prim 1⟩⟩)]
        [⟨"A", REF_PRIMITIVE, RTTIData.prim 1⟩]
      = ([("A", ⟨7, ⟨"A", REF_PRIMITIVE, RTTIData.prim 1⟩⟩)],
         [⟨"A", REF_PRIMITIVE, RTTIData.prim 1⟩])
    ∧ (serializeAll [⟨"A", REF_PRIMITIVE, RTTIData.prim 1⟩]).heapBuffers.length = 1
    ∧ (1 : Nat) ≠ 0 := by
  refine ⟨?_, ?_, by decide⟩ <;> with_unfolding_all decide

/-- Claim C4 (amended): the cache-entry half of the claim holds — a hash
hit reuses the cached record and leaves the cache untouched, a cache write
touches only the record's own key, and a pass consisting only of hits
returns the cache unchanged — but the serializer loop re-encodes every
record of the pass into the heap regardless, so a no-change build
re-encodes `metas.length` records rather than zero. -/
theorem C4_cache_locality (hashType : RTTIMetadata → Nat)
    (types : List (String × TypeCacheEntry)) (meta : RTTIMetadata)
    (metas : List RTTIMetadata) :
    (∀ c, assocGet types meta.fqName = some c → c.hash = hashType meta →
        cacheStep hashType types meta = (types, c.meta))
    ∧ (∀ k, k ≠ meta.fqName →
        assocGet (cacheStep hashType types meta).1 k = assocGet types k)
    ∧ ((∀ m ∈ metas, ∃ c, assocGet types m.fqName = some c
          ∧ c.hash = hashType m) →
        (cachePass hashType types metas).1 = types)
    ∧ (serializeAll metas).heapBuffers.length = metas.length := by
  refine ⟨?_, ?_, cachePass_all_hits hashType metas types, ?_⟩
  · intro c hc hh
    unfold cacheStep
    rw [hc]
    simp only []
    rw [if_pos hh]
  · intro k hk
    unfold cacheStep
    cases hget : assocGet types meta.fqName with
    | none =>
      simp only []
      exact assocGet_assocSet_ne _ _ _ _ hk
    | some c =>
      simp only []
      by_cases hh : c.hash = hashType meta
      · rw [if_pos hh]
      · rw [if_neg hh]
        simp only []
        exact assocGet_assocSet_ne _ _ _ _ hk
  · have h := serializeAll_heap_length metas SerializerState.init
    simpa [serializeAll, SerializerState.init] using h

/-- Witness for C4 (amended) on a one-entry cache whose hash matches. -/
theorem C4_cache_locality_witness :
    cacheStep (fun _ => 7)
        [("A", ⟨7, ⟨"A", REF_PRIMITIVE, RTTIData.prim 1⟩⟩)]
        ⟨"A", REF_PRIMITIVE, RTTIData.prim 1⟩
      = ([("A", ⟨7, ⟨"A", REF_PRIMITIVE, RTTIData.prim 1⟩⟩)],
         ⟨"A", REF_PRIMITIVE, RTTIData.prim 1⟩)
    ∧ assocGet (cacheStep (fun _ => 7)
        [("A", ⟨7, ⟨"A", REF_PRIMITIVE, RTTIData.prim 1⟩⟩)]
        ⟨"A", REF_PRIMITIVE, RTTIData.prim 1⟩).1 "B"
      = assocGet [("A", ⟨7, ⟨"A", REF_PRIMITIVE, RTTIData.prim 1⟩⟩)] "B"
    ∧ (cachePass (fun _ => 7)
        [("A", ⟨7, ⟨"A", REF_PRIMITIVE, RTTIData.prim 1⟩⟩)]
        [⟨"A", REF_PRIMITIVE, RTTIData.prim 1⟩]).1
      = [("A", ⟨7, ⟨"A", REF_PRIMITIVE, RTTIData.prim 1⟩⟩)]
    ∧ (serializeAll [⟨"A", REF_PRIMITIVE, RTTIData.prim 1⟩]).heapBuffers.length
      = [(⟨"A", REF_PRIMITIVE, RTTIData.prim 1⟩ : RTTIMetadata)].length := by
  obtain ⟨h1, h2, h3, h4⟩ := C4_cache_locality (fun _ => 7)
    [("A", ⟨7, ⟨"A", REF_PRIMITIVE, RTTIData.prim 1⟩⟩)]
    ⟨"A", REF_PRIMITIVE, RTTIData.prim 1⟩
    [⟨"A", REF_PRIMITIVE, RTTIData.prim 1⟩]
  refine ⟨h1 ⟨7, ⟨"A", REF_PRIMITIVE, RTTIData.prim 1⟩⟩ rfl rfl, h2 "B" (by decide), ?_, h4⟩
  refine h3 (fun m hm => ?_)
  have hm' : m = ⟨"A", REF_PRIMITIVE, RTTIData.prim 1⟩ := by simpa using hm
  subst hm'
  exact ⟨⟨7, ⟨"A", REF_PRIMITIVE, RTTIData.prim 1⟩⟩, rfl, rfl⟩

/-- The binary sections of a one-record build, used as the body of a
container whose header is corrupted. -/
def oneRecordSections : BinarySections :=
  buildBinarySections (serializeAll [⟨"A", REF_PRIMITIVE, RTTIData.prim 2⟩])

/-- A container whose 32-byte header carries magic `0` and version `99`
over the valid sections of a one-record build. -/
def badHeaderContainer : List Nat :=
  writeUInt32LE 0 ++ writeUInt16LE 99 ++ writeUInt16LE 1
    ++ writeUInt32LE oneRecordSections.stringTableBuffer.length
    ++ writeUInt32LE oneRecordSections.indexBuffer.length
    ++ writeUInt32LE oneRecordSections.heapBuffer.length
    ++ [0, 0, 0, 0, 0, 0, 0, 0, 0, 0, 0, 0]
    ++ oneRecordSections.stringTableBuffer
    ++ oneRecordSections.indexBuffer
    ++ oneRecordSections.heapBuffer

/-- Claim C2 (code bug): `MetadataStore.load` compares neither the magic
nor the version field against the compiled-in constants.  A container
whose header carries magic `0` and version `99` is loaded without any
failure, both lookups succeed against it, and the looked-up entry's heap
bytes resolve to the registered record's own name — the container is fully
trusted despite the wrong magic, and no distinguishable magic- or
version-mismatch result exists anywhere on the load path. -/
theorem C2_header_never_validated :
    (MetadataStore.load id badHeaderContainer).header.magic = 0
    ∧ (0 : Nat) ≠ META_MAGIC
    ∧ (MetadataStore.load id badHeaderContainer).header.version = 99
    ∧ (99 : Nat) ≠ PROTOCOL_VERSION
    ∧ MetadataStore.getEntryByName (MetadataStore.load id badHeaderContainer)
        "A" = some ⟨fnv1aHash "A", 0, 0, (serializeMetadata [] ⟨"A", REF_PRIMITIVE, RTTIData.prim 2⟩).1.length⟩
    ∧ MetadataStore.getEntryByHash (MetadataStore.load id badHeaderContainer)
        (fnv1aHash "A") = some ⟨fnv1aHash "A", 0, 0, (serializeMetadata [] ⟨"A", REF_PRIMITIVE, RTTIData.prim 2⟩).1.length⟩
    ∧ recordOwnName (MetadataStore.load id badHeaderContainer)
        (MetadataStore.getMetadataBuffer
          (MetadataStore.load id badHeaderContainer)
          ⟨fnv1aHash "A", 0, 0, (serializeMetadata [] ⟨"A", REF_PRIMITIVE, RTTIData.prim 2⟩).1.length⟩)
      = "A" := by
  refine ⟨?_, by decide, ?_, by decide, ?_, ?_, ?_⟩
  · with_unfolding_all decide
  · with_unfolding_all decide
  · with_unfolding_all rfl
  · with_unfolding_all rfl
  · with_unfolding_all decide

/-- Claim C8 (amended): for a build whose fully-qualified names are
pairwise distinct (with NUL-free names, a table below `2^31` entries and
sections fitting their 32-bit header fields), looking the loaded container
up by a registered name always returns an index entry whose addressed heap
bytes decode to a record whose own name is the queried name; the hash
lookup does the same only under the additional hypothesis that no earlier
registered name collides with the queried name's FNV-1a hash. -/
theorem C8_lookup_correct (compress decompress : List Nat → List Nat)
    (hcomp : ∀ b, decompress (compress b) = b)
    (metas : List RTTIMetadata) (i : Nat) (hi : i < metas.length)
    (store : MetadataStore) (fq : String)
    (hstore : store = MetadataStore.load decompress
      (buildContainer compress (serializeAll metas)))
    (hfq : fq = (metas.get ⟨i, hi⟩).fqName)
    (hnd : (metas.map RTTIMetadata.fqName).Nodup)
    (hstr : ∀ str ∈ (serializeAll metas).stringTable,
      ∀ c ∈ str.data, c.toNat ≠ 0)
    (hlen : (serializeAll metas).stringTable.length < 2147483648)
    (hheap : (serializeAll metas).currentHeapOffset < 4294967296)
    (hsz1 : (buildBinarySections
      (serializeAll metas)).stringTableBuffer.length < 4294967296)
    (hsz2 : (buildBinarySections
      (serializeAll metas)).indexBuffer.length < 4294967296)
    (hsz3 : (compress (buildBinarySections
      (serializeAll metas)).heapBuffer).length < 4294967296) :
    (∃ e, MetadataStore.getEntryByName store fq = some e
        ∧ recordOwnName store (MetadataStore.getMetadataBuffer store e) = fq)
    ∧ ((∀ j (hj : j < i), fnv1aHash
          (metas.get ⟨j, Nat.lt_trans hj hi⟩).fqName ≠ fnv1aHash fq) →
      ∃ e, MetadataStore.getEntryByHash store (fnv1aHash fq) = some e
        ∧ recordOwnName store
            (MetadataStore.getMetadataBuffer store e) = fq) := by
  subst hfq
  obtain ⟨hstrings, hindex, hheapEq⟩ := store_of_build compress decompress
    hcomp metas hstr hlen hheap hsz1 hsz2 hsz3
  rw [← hstore] at hstrings hindex hheapEq
  obtain ⟨so, bytes, hidx, hhb, ⟨payload, hshape⟩, hso, hres⟩ :=
    serializeAll_entry metas i hi
  have hidxlen : i < (serializeAll metas).index.length := by
    rw [serializeAll_index_length]
    exact hi
  have hheapi : i < (serializeAll metas).heapBuffers.length := by
    rw [serializeAll_heap_buffers_length]
    exact hi
  have hE : (serializeAll metas).index.get ⟨i, hidxlen⟩
      = ⟨fnv1aHash (metas.get ⟨i, hi⟩).fqName, so,
         (((serializeAll metas).heapBuffers.take i).map List.length).sum,
         bytes.length⟩ := by
    have h := hidx
    rw [List.getD_eq_getElem?_getD, List.getElem?_eq_getElem hidxlen] at h
    simpa using h
  have hB : (serializeAll metas).heapBuffers.get ⟨i, hheapi⟩ = bytes := by
    have h := hhb
    rw [List.getD_eq_getElem?_getD, List.getElem?_eq_getElem hheapi] at h
    simpa using h
  have hso31 : so < 2147483648 := Nat.lt_trans hso hlen
  have hvar : decodeVarint bytes 1
      = ⟨so, ([(metas.get ⟨i, hi⟩).kind] ++ encodeVarint so).length⟩ := by
    have h := decodeVarint_at hso31
      (show bytes = [(metas.get ⟨i, hi⟩).kind] ++ encodeVarint so ++ payload
        by rw [hshape]; simp)
    simpa using h
  have hheapSlice : MetadataStore.getMetadataBuffer store
      ⟨fnv1aHash (metas.get ⟨i, hi⟩).fqName, so,
        (((serializeAll metas).heapBuffers.take i).map List.length).sum,
        bytes.length⟩ = bytes := by
    unfold MetadataStore.getMetadataBuffer
    rw [hheapEq]
    simp only []
    have hsplit : (serializeAll metas).heapBuffers
        = (serializeAll metas).heapBuffers.take i
          ++ bytes :: (serializeAll metas).heapBuffers.drop (i + 1) := by
      rw [← hB, List.get_cons_drop, List.take_append_drop]
    have h := flatten_extract ((serializeAll metas).heapBuffers.take i)
      bytes ((serializeAll metas).heapBuffers.drop (i + 1))
    rw [← hsplit] at h
    exact h
  have hOwn : recordOwnName store bytes = (metas.get ⟨i, hi⟩).fqName := by
    unfold recordOwnName
    rw [hvar]
    simp only []
    rw [hstrings]
    exact hres
  have hnodupT := serializeAll_table_nodup metas
  have hgetso : (serializeAll metas).stringTable[so]
      = (metas.get ⟨i, hi⟩).fqName := by
    unfold StringTable.resolve at hres
    rw [List.get?_eq_getElem?, List.getElem?_eq_getElem hso] at hres
    simpa using hres
  have hmemfq : (metas.get ⟨i, hi⟩).fqName
      ∈ (serializeAll metas).stringTable := by
    rw [← hgetso]
    exact List.getElem_mem hso
  have hindexOf : (serializeAll metas).stringTable.indexOf
      (metas.get ⟨i, hi⟩).fqName = so := by
    rw [← hgetso]
    exact List.indexOf_getElem hnodupT so hso
  have hfqne : ∀ j (hj : j < metas.length), j ≠ i →
      (metas.get ⟨j, hj⟩).fqName ≠ (metas.get ⟨i, hi⟩).fqName := by
    intro j hj hne heq
    have hjm : j < (metas.map RTTIMetadata.fqName).length := by simpa using hj
    have him : i < (metas.map RTTIMetadata.fqName).length := by simpa using hi
    have h1 : (metas.map RTTIMetadata.fqName).get ⟨j, hjm⟩
        = (metas.map RTTIMetadata.fqName).get ⟨i, him⟩ := by
      simp only [List.get_eq_getElem, List.getElem_map]
      exact heq
    have h2 := (List.Nodup.get_inj_iff hnd).mp h1
    exact hne (by simpa using congrArg Fin.val h2)
  have hentry_at : ∀ j (hj : j < metas.length), ∃ soj dOj dlj,
      (serializeAll metas).index.get
          ⟨j, by rw [serializeAll_index_length]; exact hj⟩
        = ⟨fnv1aHash (metas.get ⟨j, hj⟩).fqName, soj, dOj, dlj⟩
      ∧ StringTable.resolve (serializeAll metas).stringTable soj
          = (metas.get ⟨j, hj⟩).fqName := by
    intro j hj
    obtain ⟨soj, bytesj, hidxj, _, _, _, hresj⟩ :=
      serializeAll_entry metas j hj
    refine ⟨soj,
      (((serializeAll metas).heapBuffers.take j).map List.length).sum,
      bytesj.length, ?_, hresj⟩
    have h := hidxj
    rw [List.getD_eq_getElem?_getD, List.getElem?_eq_getElem
      (by rw [serializeAll_index_length]; exact hj :
        j < (serializeAll metas).index.length)] at h
    simpa using h
  have hdecomp : (serializeAll metas).index
      = (serializeAll metas).index.take i
        ++ (⟨fnv1aHash (metas.get ⟨i, hi⟩).fqName, so,
            (((serializeAll metas).heapBuffers.take i).map List.length).sum,
            bytes.length⟩ : IndexEntry)
          :: (serializeAll metas).index.drop (i + 1) := by
    rw [← hE, List.get_cons_drop, List.take_append_drop]
  have htake_elem : ∀ x, x ∈ (serializeAll metas).index.take i →
      ∃ j, ∃ hj : j < metas.length, j < i
        ∧ x = (serializeAll metas).index.get
            ⟨j, by rw [serializeAll_index_length]; exact hj⟩ := by
    intro x hx
    obtain ⟨j, hjt, hjx⟩ := List.mem_iff_getElem.mp hx
    have hjt' : j < i ∧ j < (serializeAll metas).index.length := by
      rw [List.length_take] at hjt
      omega
    refine ⟨j, by rw [← serializeAll_index_length]; exact hjt'.2,
      hjt'.1, ?_⟩
    rw [← hjx]
    simp [List.getElem_take]
  refine ⟨⟨⟨fnv1aHash (metas.get ⟨i, hi⟩).fqName, so,
      (((serializeAll metas).heapBuffers.take i).map List.length).sum,
      bytes.length⟩, ?_, ?_⟩, ?_⟩
  · unfold MetadataStore.getEntryByName
    rw [hstrings, if_pos hmemfq, hindex, hindexOf]
    conv_lhs => rw [hdecomp]
    refine find?_first _ _ _ _ ?_ (by simp)
    intro x hx
    obtain ⟨j, hj, hji, hxj⟩ := htake_elem x hx
    obtain ⟨soj, dOj, dlj, hidxj, hresj⟩ := hentry_at j hj
    rw [hxj, hidxj]
    simp only []
    rw [beq_eq_false_iff_ne]
    intro hsoeq
    refine hfqne j hj (by omega) ?_
    rw [← hresj, hsoeq]
    exact hres
  · rw [hheapSlice]
    exact hOwn
  · intro hcoll
    refine ⟨⟨fnv1aHash (metas.get ⟨i, hi⟩).fqName, so,
      (((serializeAll metas).heapBuffers.take i).map List.length).sum,
      bytes.length⟩, ?_, ?_⟩
    · unfold MetadataStore.getEntryByHash
      rw [hindex]
      conv_lhs => rw [hdecomp]
      refine find?_first _ _ _ _ ?_ (by simp)
      intro x hx
      obtain ⟨j, hj, hji, hxj⟩ := htake_elem x hx
      obtain ⟨soj, dOj, dlj, hidxj, hresj⟩ := hentry_at j hj
      rw [hxj, hidxj]
      simp only []
      rw [beq_eq_false_iff_ne]
      have h := hcoll j hji
      simpa using h
    · rw [hheapSlice]
      exact hOwn

/-- Claim C8 counterexample: `"costarring"` and `"liquid"` share their
FNV-1a hash.  In a build registering both (two distinct fully-qualified
names), the hash lookup for `"liquid"` returns the first matching index
entry — costarring's — whose heap bytes decode to the record named
`"costarring"`, not the queried `"liquid"`. -/
theorem C8_counterexample :
    fnv1aHash "costarring" = fnv1aHash "liquid"
    ∧ "costarring" ≠ "liquid"
    ∧ MetadataStore.getEntryByHash
        (MetadataStore.load id (buildContainer id (serializeAll
          [⟨"costarring", REF_PRIMITIVE, RTTIData.prim 1⟩,
           ⟨"liquid", REF_PRIMITIVE, RTTIData.prim 1⟩])))
        (fnv1aHash "liquid")
      = some ⟨fnv1aHash "costarring", 0, 0, 3⟩
    ∧ recordOwnName
        (MetadataStore.load id (buildContainer id (serializeAll
          [⟨"costarring", REF_PRIMITIVE, RTTIData.prim 1⟩,
           ⟨"liquid", REF_PRIMITIVE, RTTIData.prim 1⟩])))
        (MetadataStore.getMetadataBuffer
          (MetadataStore.load id (buildContainer id (serializeAll
          [⟨"costarring", REF_PRIMITIVE, RTTIData.prim 1⟩,
           ⟨"liquid", REF_PRIMITIVE, RTTIData.prim 1⟩])))
          ⟨fnv1aHash "costarring", 0, 0, 3⟩)
      = "costarring" := by
  refine ⟨?_, by decide, ?_, ?_⟩
  · with_unfolding_all decide
  · with_unfolding_all rfl
  · with_unfolding_all decide

/-- Witness for C8 (amended) on a one-record build. -/
theorem C8_lookup_correct_witness :
    (∃ e, MetadataStore.getEntryByName
        (MetadataStore.load id (buildContainer id (serializeAll [⟨"A", REF_PRIMITIVE, RTTIData.prim 7⟩])))
        "A" = some e
      ∧ recordOwnName
          (MetadataStore.load id (buildContainer id (serializeAll [⟨"A", REF_PRIMITIVE, RTTIData.prim 7⟩])))
          (MetadataStore.getMetadataBuffer
            (MetadataStore.load id (buildContainer id (serializeAll [⟨"A", REF_PRIMITIVE, RTTIData.prim 7⟩]))) e)
        = "A")
    ∧ ((∀ j (hj : j < 0), fnv1aHash
          (([⟨"A", REF_PRIMITIVE, RTTIData.prim 7⟩]
            : List RTTIMetadata).get ⟨j, Nat.lt_trans hj (by decide)⟩).fqName
          ≠ fnv1aHash "A") →
      ∃ e, MetadataStore.getEntryByHash
          (MetadataStore.load id (buildContainer id (serializeAll [⟨"A", REF_PRIMITIVE, RTTIData.prim 7⟩])))
          (fnv1aHash "A") = some e
        ∧ recordOwnName
            (MetadataStore.load id (buildContainer id (serializeAll [⟨"A", REF_PRIMITIVE, RTTIData.prim 7⟩])))
            (MetadataStore.getMetadataBuffer
              (MetadataStore.load id (buildContainer id (serializeAll [⟨"A", REF_PRIMITIVE, RTTIData.prim 7⟩]))) e)
          = "A") :=
  C8_lookup_correct id id (fun b => rfl)
    [⟨"A", REF_PRIMITIVE, RTTIData.prim 7⟩] 0 (by decide)
    (MetadataStore.load id (buildContainer id (serializeAll [⟨"A", REF_PRIMITIVE, RTTIData.prim 7⟩])))
    "A" rfl rfl (by decide)
    (by with_unfolding_all decide) (by with_unfolding_all decide)
    (by with_unfolding_all decide) (by with_unfolding_all decide)
    (by with_unfolding_all decide) (by with_unfolding_all decide)

end RTTI
